import Mathlib

/-!
# Si570 local-oscillator driver: embedding of `ui_si570.c`

Conventions of the embedding.

* `float64_t` quantities are rationals (`ℚ`).  In the functions whose branches
  are decided by a comparison of computed doubles
  (`Si570_FindSmoothRFreqForFreq`, `Si570_PrepareNextFrequency`, and
  `Si570_PrepareChangeFrequency`, which hands the rounding on) every arithmetic
  operation in double precision is rounded by an explicit parameter
  `fd : ℚ → ℚ`: `id` is exact arithmetic, `binary64` is the IEEE-754 format of
  the target.  Elsewhere arithmetic in double precision is taken as exact.
* `floorf` and `ceilf` work in single precision.  The rounding of a value to
  `float` (of a `float64_t` argument, of the quotient of two `float`s) is an
  explicit parameter `fl : ℚ → ℚ` of the functions that call them: `id` is exact
  arithmetic, `binary32` is the IEEE-754 format of the target.
* `uint8_t`, `uint16_t`, `uint32_t` values are naturals; a conversion into such
  a type reduces modulo `2^8`, `2^16`, `2^32`.
* The global `os` is an explicit `OscillatorState` value.
* The I2C primitives of `mchf_hw_i2c.h` are a parameter: an arbitrary state
  machine `I2CBus β`.  A return code `0` is success, anything else a transport
  error.
* The `do … while` poll of `Si570_LargeFrequencyChange` has no bound in the
  source; it is embedded with a fuel argument and returns `none` when the fuel
  is used up before the loop condition turns false.
-/

namespace Si570

/-! ## Constants -/

def SI570_RECALL : Nat := 1 <<< 0
def SI570_FREEZE_DCO : Nat := 1 <<< 4
def SI570_FREEZE_M : Nat := 1 <<< 5
def SI570_NEW_FREQ : Nat := 1 <<< 6

def SI570_REG_135 : Nat := 135
def SI570_REG_137 : Nat := 137

def FDCO_MAX : ℚ := 5670
def FDCO_MIN : ℚ := 4850

def POW_2_28 : ℚ := 268435456

def SMOOTH_DELTA : ℚ := 0.0035

def hs_div : List Nat := [11, 9, 7, 6, 5, 4]
def fdco_max : ℚ := FDCO_MAX
def fdco_min : ℚ := FDCO_MIN

/-! ## Data model -/

/-- One divider solution (`Si570_FreqConfig`). -/
structure Si570_FreqConfig where
  hsdiv : Nat
  n1 : Nat
  fdco : ℚ
  rfreq : ℚ
  freq : ℚ
deriving DecidableEq

/-- The process-wide oscillator state (`OscillatorState os`). -/
structure OscillatorState where
  cur_config : Si570_FreqConfig
  next_config : Si570_FreqConfig
  fxtal : ℚ
  fxtal_ppm : ℚ
  fxtal_calc : ℚ
  cur_regs : List Nat
  next_is_small : Bool
  fout : ℚ
  si570_address : Nat
  base_reg : Nat
  present : Bool
deriving DecidableEq

/-- Modelled from the spec: the enum `Si570_ResultCodes` of `ui_si570.h`, which is
not part of the sources; these are the enumerators `ui_si570.c` uses (bus error,
verify error, tuning impossible, tuning limited, and success). -/
inductive Si570_ResultCodes where
  | SI570_OK
  | SI570_TUNE_LIMITED
  | SI570_TUNE_IMPOSSIBLE
  | SI570_I2C_ERROR
  | SI570_ERROR_VERIFY
deriving DecidableEq

open Si570_ResultCodes

/-! ## Conversions -/

/-- Rounding to the nearest integer, ties to the even one. -/
def roundHalfEven (q : ℚ) : ℤ :=
  if q - (⌊q⌋ : ℚ) < 1 / 2 then ⌊q⌋
  else if q - (⌊q⌋ : ℚ) > 1 / 2 then ⌊q⌋ + 1
  else if ⌊q⌋ % 2 = 0 then ⌊q⌋ else ⌊q⌋ + 1

/-- The binary exponent `e` of a positive `a`, `2^e ≤ a < 2^(e+1)`, searched over
at most `fuel` doublings or halvings. -/
def exponentOf : Nat → ℚ → ℤ
  | 0, _ => 0
  | fuel + 1, a =>
    if a < 1 then exponentOf fuel (a * 2) - 1
    else if 2 ≤ a then exponentOf fuel (a / 2) + 1
    else 0

/-- Rounding to IEEE-754 binary32 (`float`): 24 significant bits, round to
nearest, ties to even, gradual underflow below `2^-126`.  Values beyond the
largest finite `float` are not told apart from finite ones. -/
def binary32 (x : ℚ) : ℚ :=
  if x = 0 then 0
  else
    let e := max (exponentOf 300 |x|) (-126)
    (roundHalfEven (x / (2 : ℚ) ^ (e - 23)) : ℚ) * (2 : ℚ) ^ (e - 23)

/-- Rounding to IEEE-754 binary64 (`float64_t`): 53 significant bits, round to
nearest, ties to even, gradual underflow below `2^-1022`.  Values beyond the
largest finite double are not told apart from finite ones. -/
def binary64 (x : ℚ) : ℚ :=
  if x = 0 then 0
  else
    let e := max (exponentOf 1100 |x|) (-1022)
    (roundHalfEven (x / (2 : ℚ) ^ (e - 52)) : ℚ) * (2 : ℚ) ^ (e - 52)

/-- Conversion of an integral value into `uint8_t`. -/
def toUInt8 (z : ℤ) : Nat := (z % 256).toNat

/-- Conversion of an integral value into `uint16_t` (`ushort`). -/
def toUInt16 (z : ℤ) : Nat := (z % 65536).toNat

/-- Conversion of an integral value into `uint32_t`. -/
def toUInt32 (z : ℤ) : Nat := (z % 4294967296).toNat

/-! ## Divider search and smooth step -/

/-- The memset of `Si570_ClearConfig`: the all-zero configuration. -/
def Si570_ClearConfig : Si570_FreqConfig :=
  { hsdiv := 0, n1 := 0, fdco := 0, rfreq := 0, freq := 0 }

def Si570_FDCO_InRange (fdco : ℚ) : Bool :=
  decide (fdco ≥ fdco_min ∧ fdco ≤ fdco_max)

def Si570_GetFDCOForFreq (new_freq : ℚ) (n1 hsdiv : Nat) : ℚ :=
  new_freq * ((n1 * hsdiv : Nat) : ℚ)

/-- Embedding of `Si570_FindSmoothRFreqForFreq`: the returned pair is the C return
value and the contents of `*new_config` afterwards.  Every operation on doubles is
rounded by `fd`: the product returned by `Si570_GetFDCOForFreq`, the difference,
the two quotients and the literal `SMOOTH_DELTA`; the negation and the comparisons
are exact.  A zero `cur_config->fdco` makes the C quotient infinite or NaN, for
which `fdiff <= SMOOTH_DELTA` is false; this is the conjunct
`cur_config.fdco ≠ 0`. -/
def Si570_FindSmoothRFreqForFreq (fd : ℚ → ℚ) (fxtal_calc : ℚ)
    (cur_config new_config : Si570_FreqConfig) : Bool × Si570_FreqConfig :=
  let fdco := fd (Si570_GetFDCOForFreq new_config.freq cur_config.n1 cur_config.hsdiv)
  let fdiff := fd (fd (fdco - cur_config.fdco) / cur_config.fdco)
  let fdiff := if fdiff < 0 then -fdiff else fdiff
  if cur_config.fdco ≠ 0 ∧ fdiff ≤ fd SMOOTH_DELTA ∧ Si570_FDCO_InRange fdco = true then
    (true, { new_config with
              rfreq := fd (fdco / fxtal_calc)
              fdco := cur_config.fdco
              n1 := cur_config.n1
              hsdiv := cur_config.hsdiv })
  else
    (false, new_config)

/-- The loop-carried locals `n1`, `hsdiv`, `n1_found` of `Si570_FindConfigForFreq`. -/
structure DividerSearch where
  n1 : Nat
  hsdiv : Nat
  n1_found : Bool
deriving DecidableEq

/-- One pass through the body of the `for` loop of `Si570_FindConfigForFreq`,
for the divisor `hsdiv`; `n1` is the value of the local before the pass. -/
def Si570_FindConfig_body (fl : ℚ → ℚ) (curr_div divider_max hsdiv n1 : Nat) :
    DividerSearch :=
  let n1_cand_min := toUInt8 ⌈fl ((curr_div : ℚ) / (hsdiv : ℚ))⌉
  let n1_cand_max := toUInt8 ⌊fl ((divider_max : ℚ) / (hsdiv : ℚ))⌋
  if n1_cand_max ≥ 1 ∧ n1_cand_min ≤ 128 then
    if n1_cand_min ≤ 1 then
      { n1 := 1, hsdiv := hsdiv, n1_found := true }
    else
      let n1 := ((n1_cand_min + 1) &&& 0xFFFFFFFE) % 256
      { n1 := n1, hsdiv := hsdiv, n1_found := decide (n1 ≤ n1_cand_max) }
  else
    { n1 := n1, hsdiv := hsdiv, n1_found := false }

/-- The `for (i = 0; i < 6 && n1_found == false; i++)` loop over the remaining
entries of `hs_div`. -/
def Si570_FindConfig_loop (fl : ℚ → ℚ) (curr_div divider_max : Nat) :
    List Nat → DividerSearch → DividerSearch
  | [], s => s
  | hsdiv :: rest, s =>
    if s.n1_found = false then
      Si570_FindConfig_loop fl curr_div divider_max rest
        (Si570_FindConfig_body fl curr_div divider_max hsdiv s.n1)
    else s

/-- Embedding of `Si570_FindConfigForFreq`: the returned pair is the C return value
and the contents of `*config` afterwards.  The rounding `fl` is that of the
arguments of `floorf` and `ceilf`; the product `fdco` and the quotient `rfreq` are
exact.  For `freq ≤ 0` the C conversions of the two bounds into `ushort` are
undefined; whatever they give, `fdco ≤ 0` then fails the range test and the
function returns false. -/
def Si570_FindConfigForFreq (fl : ℚ → ℚ) (fxtal_calc : ℚ) (config : Si570_FreqConfig) :
    Bool × Si570_FreqConfig :=
  let divider_max := toUInt16 ⌊fl (fdco_max / config.freq)⌋
  let curr_div := toUInt16 ⌈fl (fdco_min / config.freq)⌉
  let s := Si570_FindConfig_loop fl curr_div divider_max hs_div
    { n1 := 1, hsdiv := 0, n1_found := false }
  if s.n1_found = true then
    let fdco := Si570_GetFDCOForFreq config.freq s.n1 s.hsdiv
    if Si570_FDCO_InRange fdco = true then
      (true, { config with n1 := s.n1, hsdiv := s.hsdiv, fdco := fdco, rfreq := fdco / fxtal_calc })
    else
      (false, config)
  else
    (false, config)

/-! ## Register codec -/

def Si570_SetBits (original reset_mask new_val : Nat) : Nat :=
  ((original &&& reset_mask) ||| new_val) % 256

/-- Embedding of `Si570_ConfigToRegs`: the return code and the six bytes left in
`regs`.  `n1_regVal` and `hsdiv_regVal` are `uint8_t`, `whole` is `uint16_t`,
`frac_bits` is `uint32_t`; the loop `for (i = 5; i >= 3; i--)` is unrolled. -/
def Si570_ConfigToRegs (fl : ℚ → ℚ) (config : Si570_FreqConfig) :
    Si570_ResultCodes × List Nat :=
  let n1_regVal := (config.n1 % 256 + 256 - 1) % 256
  let hsdiv_regVal := (config.hsdiv % 256 + 256 - 4) % 256
  let regs0 := (hsdiv_regVal <<< 5) % 256
  let regs0 := Si570_SetBits regs0 0xE0 (n1_regVal >>> 2)
  let regs1 := ((n1_regVal &&& 3) <<< 6) % 256
  let whole := toUInt16 ⌊fl config.rfreq⌋
  let frac_bits := toUInt32 ⌊fl ((config.rfreq - (whole : ℚ)) * POW_2_28)⌋
  let regs5 := frac_bits &&& 0xFF
  let frac_bits := frac_bits >>> 8
  let regs4 := frac_bits &&& 0xFF
  let frac_bits := frac_bits >>> 8
  let regs3 := frac_bits &&& 0xFF
  let frac_bits := frac_bits >>> 8
  let regs2 := Si570_SetBits 0 0xF0 (frac_bits &&& 0xF)
  let regs2 := Si570_SetBits regs2 0x0F ((whole &&& 0xF) <<< 4)
  let regs1 := Si570_SetBits regs1 0xC0 ((whole >>> 4) &&& 0x3F)
  (SI570_OK, [regs0, regs1, regs2, regs3, regs4, regs5])

/-- The field extraction of `Si570_ResetConfiguration` (the `else` branch, up to
the computation of `rfreq`): `hsdiv_curr`, `n1_curr` (both `uchar`) and `rfreq`
from the register image `os.cur_regs`. -/
def Si570_ResetConfiguration_decode (cur_regs : List Nat) : Nat × Nat × ℚ :=
  let hsdiv_curr := (((cur_regs.getD 0 0 &&& 0xE0) >>> 5) + 4) % 256
  let n1_curr := (1 + ((cur_regs.getD 0 0 &&& 0x1F) <<< 2) + ((cur_regs.getD 1 0 &&& 0xC0) >>> 6)) % 256
  let rfreq_int := cur_regs.getD 1 0 &&& 0x3F
  let rfreq_int := (rfreq_int <<< 4) + ((cur_regs.getD 2 0 &&& 0xF0) >>> 4)
  let rfreq_frac := cur_regs.getD 2 0 &&& 0x0F
  let rfreq_frac := (rfreq_frac <<< 8) + cur_regs.getD 3 0
  let rfreq_frac := (rfreq_frac <<< 8) + cur_regs.getD 4 0
  let rfreq_frac := (rfreq_frac <<< 8) + cur_regs.getD 5 0
  let rfreq : ℚ := (rfreq_int : ℚ) + (rfreq_frac : ℚ) / POW_2_28
  (hsdiv_curr, n1_curr, rfreq)

/-! ## Register bus -/

/-- The I2C primitives this file calls (`mchf_hw_i2c1_ReadRegister`,
`mchf_hw_i2c1_WriteRegister`, `mchf_hw_i2c1_ReadData`, `mchf_hw_i2c1_WriteBlock`),
as an arbitrary state machine over bus states `β`.  Arguments are the device
address, the register, and the value, byte count or data; results are the next
bus state, the return code (0 is success) and, for the reads, what the
destination holds afterwards. -/
structure I2CBus (β : Type) where
  ReadRegister : β → Nat → Nat → β × Nat × Nat
  WriteRegister : β → Nat → Nat → Nat → β × Nat
  ReadData : β → Nat → Nat → Nat → β × Nat × List Nat
  WriteBlock : β → Nat → Nat → List Nat → Nat → β × Nat

/-- One bus operation together with its outcome. -/
inductive BusOp where
  | ReadRegister (addr reg ret byte : Nat)
  | WriteRegister (addr reg val ret : Nat)
  | ReadData (addr reg count ret : Nat) (data : List Nat)
  | WriteBlock (addr reg : Nat) (data : List Nat) (count ret : Nat)
deriving DecidableEq

/-- The bus `bus` with a record of the operations issued, newest first. -/
def logged {β : Type} (bus : I2CBus β) : I2CBus (β × List BusOp) where
  ReadRegister := fun b addr reg =>
    let r := bus.ReadRegister b.1 addr reg
    ((r.1, BusOp.ReadRegister addr reg r.2.1 r.2.2 :: b.2), r.2.1, r.2.2)
  WriteRegister := fun b addr reg val =>
    let r := bus.WriteRegister b.1 addr reg val
    ((r.1, BusOp.WriteRegister addr reg val r.2 :: b.2), r.2)
  ReadData := fun b addr reg count =>
    let r := bus.ReadData b.1 addr reg count
    ((r.1, BusOp.ReadData addr reg count r.2.1 r.2.2 :: b.2), r.2.1, r.2.2)
  WriteBlock := fun b addr reg data count =>
    let r := bus.WriteBlock b.1 addr reg data count
    ((r.1, BusOp.WriteBlock addr reg data count r.2 :: b.2), r.2)

/-! ## Safe update protocol -/

section Protocol

variable {β : Type}

/-- Embedding of `Si570_ReadRegisters`: bus state, return code, contents of `regs`. -/
def Si570_ReadRegisters (bus : I2CBus β) (os : OscillatorState) (b : β) : β × Nat × List Nat :=
  bus.ReadData b os.si570_address os.base_reg 6

/-- Embedding of `Si570_VerifyFrequencyRegisters`: `memcmp` over the six bytes is
equality of the two images. -/
def Si570_VerifyFrequencyRegisters (bus : I2CBus β) (os : OscillatorState) (b : β) :
    β × Si570_ResultCodes :=
  let r := Si570_ReadRegisters bus os b
  let retval := if r.2.1 ≠ 0 then SI570_I2C_ERROR else SI570_OK
  let retval :=
    if retval = SI570_OK then
      if r.2.2 ≠ os.cur_regs then SI570_ERROR_VERIFY else retval
    else retval
  (r.1, retval)

/-- Embedding of `Si570_SetRegisterBits`: bus state, return code, contents of `*reg_ptr`. -/
def Si570_SetRegisterBits (bus : I2CBus β) (b : β) (si570_address regaddr val : Nat) :
    β × Nat × Nat :=
  let r := bus.ReadRegister b si570_address regaddr
  if r.2.1 = 0 then
    let w := bus.WriteRegister r.1 si570_address regaddr ((r.2.2 ||| val) % 256)
    (w.1, w.2, r.2.2)
  else (r.1, r.2.1, r.2.2)

/-- Embedding of `Si570_ClearRegisterBits`: bus state, return code, contents of
`*reg_ptr`; `~val` is the complement of the promoted `int`. -/
def Si570_ClearRegisterBits (bus : I2CBus β) (b : β) (si570_address regaddr val : Nat) :
    β × Nat × Nat :=
  let r := bus.ReadRegister b si570_address regaddr
  if r.2.1 = 0 then
    let w := bus.WriteRegister r.1 si570_address regaddr ((r.2.2 &&& (0xFFFFFFFF ^^^ val)) % 256)
    (w.1, w.2, r.2.2)
  else (r.1, r.2.1, r.2.2)

/-- The first part of `Si570_SmallFrequencyChange`, up to the call of
`Si570_ClearRegisterBits`: bus state and `retval`. -/
def Si570_SmallFrequencyChange_write (bus : I2CBus β) (os : OscillatorState) (b : β) :
    β × Si570_ResultCodes :=
  let s := Si570_SetRegisterBits bus b os.si570_address SI570_REG_135 SI570_FREEZE_M
  if s.2.1 = 0 then
    let w := bus.WriteBlock s.1 os.si570_address os.base_reg os.cur_regs 6
    if w.2 = 0 then Si570_VerifyFrequencyRegisters bus os w.1
    else (w.1, SI570_I2C_ERROR)
  else (s.1, SI570_OK)

def Si570_SmallFrequencyChange (bus : I2CBus β) (os : OscillatorState) (b : β) :
    β × Si570_ResultCodes :=
  let w := Si570_SmallFrequencyChange_write bus os b
  let c := Si570_ClearRegisterBits bus w.1 os.si570_address SI570_REG_135 SI570_FREEZE_M
  (c.1, w.2)

/-- The loop `do { ret = ReadRegister(…, SI570_REG_135, &reg_135); }
while (ret == 0 && (reg_135 & SI570_NEW_FREQ))` of `Si570_LargeFrequencyChange`,
run for at most `fuel` reads: the bus state and `ret` when the loop is left, or
`none` when it is still running after `fuel` reads. -/
def Si570_LargeFrequencyChange_poll (bus : I2CBus β) (os : OscillatorState) :
    Nat → β → Option (β × Nat)
  | 0, _ => none
  | fuel + 1, b =>
    let r := bus.ReadRegister b os.si570_address SI570_REG_135
    if r.2.1 = 0 ∧ r.2.2 &&& SI570_NEW_FREQ ≠ 0 then
      Si570_LargeFrequencyChange_poll bus os fuel r.1
    else some (r.1, r.2.1)

/-- The first part of `Si570_LargeFrequencyChange`, up to the call of
`Si570_ClearRegisterBits`: bus state and `retval`. -/
def Si570_LargeFrequencyChange_write (bus : I2CBus β) (os : OscillatorState) (b : β) :
    β × Si570_ResultCodes :=
  let s := Si570_SetRegisterBits bus b os.si570_address SI570_REG_137 SI570_FREEZE_DCO
  if s.2.1 = 0 then
    let w := bus.WriteBlock s.1 os.si570_address os.base_reg os.cur_regs 6
    if w.2 = 0 then Si570_VerifyFrequencyRegisters bus os w.1
    else (w.1, SI570_I2C_ERROR)
  else (s.1, SI570_I2C_ERROR)

def Si570_LargeFrequencyChange (bus : I2CBus β) (fuel : Nat) (os : OscillatorState) (b : β) :
    Option (β × Si570_ResultCodes) :=
  let w := Si570_LargeFrequencyChange_write bus os b
  let c := Si570_ClearRegisterBits bus w.1 os.si570_address SI570_REG_137 SI570_FREEZE_DCO
  if c.2.1 = 0 ∧ w.2 = SI570_OK then
    let n := Si570_SetRegisterBits bus c.1 os.si570_address SI570_REG_135 SI570_NEW_FREQ
    if n.2.1 = 0 then
      match Si570_LargeFrequencyChange_poll bus os fuel n.1 with
      | none => none
      | some p => some (p.1, if p.2 ≠ 0 then SI570_I2C_ERROR else w.2)
    else some (n.1, if c.2.1 ≠ 0 then SI570_I2C_ERROR else w.2)
  else some (c.1, if c.2.1 ≠ 0 then SI570_I2C_ERROR else w.2)

def Si570_WriteRegs (bus : I2CBus β) (fuel : Nat) (os : OscillatorState) (is_small : Bool)
    (b : β) : Option (β × Si570_ResultCodes) :=
  let first :=
    if is_small = true then some (Si570_SmallFrequencyChange bus os b)
    else Si570_LargeFrequencyChange bus fuel os b
  match first with
  | none => none
  | some r =>
    if r.2 = SI570_OK then some (Si570_VerifyFrequencyRegisters bus os r.1)
    else some r

/-- Embedding of `Si570_ChangeToNextFrequency`: the return code, the oscillator
state and the bus state afterwards. -/
def Si570_ChangeToNextFrequency (bus : I2CBus β) (fuel : Nat) (os : OscillatorState) (b : β) :
    Option (Si570_ResultCodes × OscillatorState × β) :=
  match Si570_WriteRegs bus fuel os os.next_is_small b with
  | none => none
  | some r1 =>
    let second :=
      if r1.2 = SI570_ERROR_VERIFY ∧ os.next_is_small = true then
        Si570_WriteRegs bus fuel os false r1.1
      else some r1
    match second with
    | none => none
    | some r =>
      if r.2 = SI570_OK then
        some (r.2, { os with cur_config := os.next_config }, r.1)
      else
        some (r.2, { os with cur_config := Si570_ClearConfig }, r.1)

end Protocol

/-! ## Prepare stage, calibration and startup -/

def SI570_MIN_FREQ : ℚ := 10000000
def SI570_MAX_FREQ : ℚ := 160000000
def SI570_HARD_MIN_FREQ : ℚ := 3500000
def SI570_HARD_MAX_FREQ : ℚ := 220000000

def FACTORY_FXTAL : ℚ := 114.285

def Si570_IsPresent (os : OscillatorState) : Bool := os.present == true

/-- Embedding of `Si570_PrepareChangeFrequency`: the return code and the oscillator
state afterwards.  The pointers are `&os.next_config` and `&os.cur_config`; the
divider search runs only when the smooth step was refused.  `fd` is the rounding
of the doubles of the smooth-step test. -/
def Si570_PrepareChangeFrequency (fd fl : ℚ → ℚ) (os : OscillatorState) (new_freq : ℚ) :
    Si570_ResultCodes × OscillatorState :=
  let sm := Si570_FindSmoothRFreqForFreq fd os.fxtal_calc os.cur_config
    { os.next_config with freq := new_freq }
  let os1 := { os with next_config := sm.2, next_is_small := sm.1 }
  if sm.1 = false then
    let fc := Si570_FindConfigForFreq fl os.fxtal_calc sm.2
    if fc.1 = false then
      (SI570_TUNE_IMPOSSIBLE, { os1 with next_config := fc.2 })
    else
      let r := Si570_ConfigToRegs fl fc.2
      (r.1, { os1 with next_config := fc.2, cur_regs := r.2 })
  else
    let r := Si570_ConfigToRegs fl sm.2
    (r.1, { os1 with cur_regs := r.2 })

/-- Embedding of `Si570_PrepareNextFrequency`: the return code and the oscillator
state afterwards.  `freq` is the `ulong` argument, `temp_factor` the `int` one,
both of 32 bits and so converted into a double without rounding; the quotient,
the sum, the product and the quotient by 1000000 are rounded by `fd`.
`sram2` is the 32-bit word the function reads at address `SRAM2_BASE + 5`, which
lies outside the oscillator state. -/
def Si570_PrepareNextFrequency (fd fl : ℚ → ℚ) (sram2 : Nat) (os : OscillatorState)
    (freq : Nat) (temp_factor : ℤ) : Si570_ResultCodes × OscillatorState :=
  if Si570_IsPresent os = true then
    let freq_calc : ℚ := (freq : ℚ)
    let temp_scale : ℚ := (temp_factor : ℚ)
    let temp_scale := fd (temp_scale / 14000000)
    let freq_calc := fd (freq_calc * fd (1 + temp_scale))
    if freq_calc ≤ SI570_HARD_MAX_FREQ ∧ freq_calc ≥ SI570_HARD_MIN_FREQ then
      let p := Si570_PrepareChangeFrequency fd fl os (fd (freq_calc / 1000000))
      if (freq_calc > SI570_MAX_FREQ ∨ freq_calc < SI570_MIN_FREQ) ∧ sram2 ≠ 0x29 then
        if p.1 = SI570_OK then (SI570_TUNE_LIMITED, p.2) else p
      else p
    else (SI570_TUNE_IMPOSSIBLE, os)
  else (SI570_TUNE_IMPOSSIBLE, os)

/-- The cast `(int8_t)` of a byte. -/
def toInt8 (b : Nat) : ℤ :=
  if b % 256 < 128 then ((b % 256 : Nat) : ℤ) else ((b % 256 : Nat) : ℤ) - 256

/-- Reduction of an integer into the range of `int32_t`. -/
def toInt32 (z : ℤ) : ℤ := (z + 2147483648) % 4294967296 - 2147483648

/-- Embedding of `Si570_ConvExternalTemp` on the two bytes `temp[0]`, `temp[1]`:
`ts` is an `int32_t`, whose arithmetic is reduced into the 32-bit signed range,
and `/` is the C division, which truncates toward zero. -/
def Si570_ConvExternalTemp (temp : List Nat) : ℤ :=
  let ts : ℤ := ((temp.getD 1 0 % 256 : Nat) : ℤ)
  let ts := toInt32 (ts + toInt8 (temp.getD 0 0) * 256)
  let ts := toInt32 (ts * 10000)
  let ts := Int.tdiv ts 256
  ts

/-- The C function `roundf`: nearest integer, halves away from zero. -/
def roundf (x : ℚ) : ℤ := if 0 ≤ x then ⌊x + 1 / 2⌋ else ⌈x - 1 / 2⌉

/-- The table `suf_table` of `Si570_Init`, with its terminating 0. -/
def suf_table : List ℚ :=
  [10, 10.356, 14.05, 14.1, 15, 16.0915, 22.5792, 34.285, 56.32, 63, 76.8, 100, 122, 125,
    156.25, 0]

/-- The loop `for (i = 0; suf_table[i] != 0; i++)` at the end of `Si570_Init`, over
the remaining entries of the table: the value of `os.fout` afterwards.  The
entries and `test` are `float`s. -/
def Si570_Init_snap (fl : ℚ → ℚ) : List ℚ → ℚ → ℚ
  | [], fout => fout
  | entry :: rest, fout =>
    if fl entry ≠ 0 then
      let test := fl (fout - fl entry)
      let test := if test < 0 then -test else test
      if test < 0.2 then fl entry
      else Si570_Init_snap fl rest fout
    else fout

section Startup

variable {β : Type}

/-- Embedding of `Si570_SetPPM`: the oscillator state and the bus state
afterwards; `none` when the commit it starts does not return.  Arithmetic in
double precision is exact here, in the prepare it runs as well. -/
def Si570_SetPPM (fl : ℚ → ℚ) (bus : I2CBus β) (fuel : Nat) (os : OscillatorState) (ppm : ℚ)
    (b : β) : Option (OscillatorState × β) :=
  let os1 := { os with fxtal_ppm := ppm, fxtal_calc := os.fxtal + (os.fxtal / 1000000) * ppm }
  let p := Si570_PrepareChangeFrequency id fl os1 os1.cur_config.freq
  if p.1 = SI570_OK then
    match Si570_ChangeToNextFrequency bus fuel p.2 b with
    | none => none
    | some r => some (r.2.1, r.2.2)
  else some (p.2, b)

/-- The recall poll of `Si570_ResetConfiguration`, entered with the counter at
`i`: the loop `do { res = ReadRegister(…, SI570_REG_135, &ret); if (res != 0)
{ retval = 2; break; } i++; if (i == 30) { retval = 3; break; } }
while (ret & SI570_RECALL)`, for at most `n` more passes: `retval` and the bus
state when it is left. -/
def Si570_ResetConfiguration_poll (bus : I2CBus β) (os : OscillatorState) :
    Nat → Nat → β → Nat × β
  | 0, _, b => (3, b)
  | n + 1, i, b =>
    let r := bus.ReadRegister b os.si570_address SI570_REG_135
    if r.2.1 ≠ 0 then (2, r.1)
    else if i + 1 = 30 then (3, r.1)
    else if r.2.2 &&& SI570_RECALL ≠ 0 then Si570_ResetConfiguration_poll bus os n (i + 1) r.1
    else (0, r.1)

/-- Embedding of `Si570_ResetConfiguration`: the return value, the oscillator
state and the bus state afterwards; `none` when the commit started by
`Si570_SetPPM` does not return.  `Si570_ReadRegisters` reads into `os.cur_regs`;
the argument of `Si570_SetPPM` is a `float`. -/
def Si570_ResetConfiguration (fl : ℚ → ℚ) (bus : I2CBus β) (fuel : Nat)
    (os : OscillatorState) (b : β) : Option (Nat × OscillatorState × β) :=
  let os := { os with fxtal := FACTORY_FXTAL, present := false }
  let w := bus.WriteRegister b os.si570_address SI570_REG_135 SI570_RECALL
  let p := if w.2 ≠ 0 then (1, w.1) else Si570_ResetConfiguration_poll bus os 30 0 w.1
  let rd :=
    if p.1 = 0 then
      let r := Si570_ReadRegisters bus os p.2
      (r.1, r.2.1, { os with cur_regs := r.2.2 })
    else (p.2, 0, os)
  if p.1 = 0 ∧ rd.2.1 ≠ 0 then some (4, rd.2.2, rd.1)
  else
    let os := rd.2.2
    let d := Si570_ResetConfiguration_decode os.cur_regs
    let hsdiv_curr := d.1
    let n1_curr := d.2.1
    let rfreq := d.2.2
    let os := { os with fxtal := (os.fout * ((n1_curr * hsdiv_curr : Nat) : ℚ)) / rfreq }
    match Si570_SetPPM fl bus fuel os (fl os.fxtal_ppm) rd.1 with
    | none => none
    | some s =>
      let os := s.1
      some (p.1,
        { os with
          cur_config :=
            { os.cur_config with
              rfreq := rfreq
              n1 := n1_curr
              hsdiv := hsdiv_curr
              fdco := Si570_GetFDCOForFreq os.fout n1_curr hsdiv_curr }
          present := true },
        s.2)

/-- Embedding of `Si570_CalcSufHelper`: the oscillator state and the bus state
afterwards.  `rsfreq` is a `float`, and so are the product, the quotient and the
result; the return value of `Si570_ReadRegisters` is not looked at. -/
def Si570_CalcSufHelper (fl : ℚ → ℚ) (bus : I2CBus β) (os : OscillatorState) (b : β) :
    OscillatorState × β :=
  let r := Si570_ReadRegisters bus os b
  let si_regs := r.2.2
  let rsfreq := fl ((((si_regs.getD 5 0 + si_regs.getD 4 0 * 0x100 + si_regs.getD 3 0 * 0x10000 : Nat) : ℚ)
    + (si_regs.getD 2 0 : ℚ) * 0x1000000
    + ((si_regs.getD 1 0 &&& 0x3F : Nat) : ℚ) * 0x100000000) / POW_2_28)
  let hs_div := (si_regs.getD 0 0 &&& 0xE0) / 32 + 4
  let n1 := (si_regs.getD 1 0 &&& 0xC0) / 64 + (si_regs.getD 0 0 &&& 0x1F) * 4 + 1
  let n1 := if n1 % 2 ≠ 0 ∧ n1 ≠ 1 then n1 + 1 else n1
  let fout := fl ((roundf (fl (fl (1142850 * rsfreq) / ((hs_div * n1 : Nat) : ℚ))) : ℚ) / 10000)
  ({ os with fout := fout }, r.1)

/-- Embedding of `Si570_Init`: the oscillator state and the bus state afterwards;
`none` when `Si570_ResetConfiguration` does not return. -/
def Si570_Init (fl : ℚ → ℚ) (bus : I2CBus β) (fuel : Nat) (os : OscillatorState) (b : β) :
    Option (OscillatorState × β) :=
  let os := { os with base_reg := 13 }
  let os := { os with si570_address := 0x55 <<< 1 }
  let r := bus.ReadRegister b os.si570_address os.base_reg
  let os := if r.2.1 ≠ 0 then { os with si570_address := 0x50 <<< 1 } else os
  match Si570_ResetConfiguration fl bus fuel os r.1 with
  | none => none
  | some rc =>
    let c := Si570_CalcSufHelper fl bus rc.2.1 rc.2.2
    let c :=
      if c.1.fout > 39.2 ∧ c.1.fout < 39.3 then
        Si570_CalcSufHelper fl bus { c.1 with base_reg := 7 } c.2
      else c
    some ({ c.1 with fout := Si570_Init_snap fl suf_table c.1.fout }, c.2)

end Startup

/-! ## Vocabulary of the statements -/

/-- The admissible values of the divider `n1`: 1, or an even number in 2..128. -/
def N1Admissible (n1 : Nat) : Prop := n1 = 1 ∨ (n1 % 2 = 0 ∧ 2 ≤ n1 ∧ n1 ≤ 128)

/-- A divider pair that realises `f` inside the VCO range. -/
def Admissible (f : ℚ) (hsdiv n1 : Nat) : Prop :=
  N1Admissible n1 ∧ 4850 ≤ f * (n1 : ℚ) * (hsdiv : ℚ) ∧ f * (n1 : ℚ) * (hsdiv : ℚ) ≤ 5670

/-- The range test on the integer bounds `C`, `D`, for a divisor `h`. -/
def InBounds (C D h m : ℕ) : Prop := N1Admissible m ∧ C ≤ m * h ∧ m * h ≤ D

/-- What the loop of the divider search leaves behind when it stops with
`n1_found` set: the first divisor of `l` with a value in bounds, and the
smallest such value. -/
def FirstFit (C D : ℕ) (l : List ℕ) (s : DividerSearch) : Prop :=
  ∃ pre post, l = pre ++ s.hsdiv :: post ∧ (∀ h ∈ pre, ∀ m, ¬ InBounds C D h m) ∧
    InBounds C D s.hsdiv s.n1 ∧ ∀ m, InBounds C D s.hsdiv m → s.n1 ≤ m

/-- The block writes among a list of bus operations. -/
def blockWrites : List BusOp → List BusOp
  | [] => []
  | BusOp.WriteBlock addr reg data count ret :: l =>
    BusOp.WriteBlock addr reg data count ret :: blockWrites l
  | _ :: l => blockWrites l

/-- The operations of `new` beyond the log `l` contain no block write. -/
def Extends (l new : List BusOp) : Prop := ∃ evs, new = evs ++ l ∧ blockWrites evs = []

/-- On top of the log `l`, at most `n` block writes were issued, each of them
writing the image `os.cur_regs` at `os.base_reg`. -/
def AtMostBlocks (os : OscillatorState) (n : Nat) (l new : List BusOp) : Prop :=
  ∃ evs, new = evs ++ l ∧ (blockWrites evs).length ≤ n ∧
    ∀ e ∈ blockWrites evs, ∃ ret,
      e = BusOp.WriteBlock os.si570_address os.base_reg os.cur_regs 6 ret

/-- The freeze register of an attempt: 135 for a small step, 137 for a large one. -/
def freezeReg (is_small : Bool) : Nat := if is_small = true then SI570_REG_135 else SI570_REG_137

/-- The bus state and log when an attempt reaches its call of `Si570_ClearRegisterBits`. -/
def beforeUnfreeze {β : Type} (bus : I2CBus β) (os : OscillatorState) (is_small : Bool)
    (x : β × List BusOp) : β × List BusOp :=
  if is_small = true then (Si570_SmallFrequencyChange_write (logged bus) os x).1
  else (Si570_LargeFrequencyChange_write (logged bus) os x).1

/-- The six bytes that hold the fields `h = hsdiv - 4`, `n = n1 - 1`, the whole
part `W` and the 28 fraction bits `F` of `rfreq`. -/
def layout (h n W F : ℕ) : List ℕ :=
  [h * 32 + n / 4, n % 4 * 64 + W / 16, W % 16 * 16 + F / 16777216,
    F / 65536 % 256, F / 256 % 256, F % 256]

/-- The six register bytes read as one 48-bit number, first byte most significant. -/
def be48 (regs : List ℕ) : ℕ := regs.foldl (fun acc b => acc * 256 + b) 0

/-- A run of consecutive tuning cycles from the state `os` and bus state `b`: for
each target of the list, in order, `Si570_PrepareChangeFrequency` took the
smooth-step path (`next_is_small`) and the `Si570_ChangeToNextFrequency` that
followed returned `SI570_OK`; the run ends in the last two arguments. -/
inductive SmallChain {β : Type} (fd fl : ℚ → ℚ) (bus : I2CBus β) :
    OscillatorState → β → List ℚ → OscillatorState → β → Prop
  | done (os : OscillatorState) (b : β) : SmallChain fd fl bus os b [] os b
  | cycle (os : OscillatorState) (b : β) (f : ℚ) (fuel : ℕ) (os1 : OscillatorState) (b1 : β)
      (fs : List ℚ) (os2 : OscillatorState) (b2 : β)
      (hsmall : (Si570_PrepareChangeFrequency fd fl os f).2.next_is_small = true)
      (hcommit :
        Si570_ChangeToNextFrequency bus fuel (Si570_PrepareChangeFrequency fd fl os f).2 b =
          some (SI570_OK, os1, b1))
      (hrest : SmallChain fd fl bus os1 b1 fs os2 b2) :
      SmallChain fd fl bus os b (f :: fs) os2 b2

/-- The rounding `fd` has the accuracy of double precision on magnitudes below
`2^1000`: a relative error of at most `2^-53`, or an absolute one of at most
`2^-1075`. -/
def DoubleAccurate (fd : ℚ → ℚ) : Prop :=
  ∀ x : ℚ, |x| < 2 ^ 1000 → |fd x - x| ≤ |x| / 2 ^ 53 + 1 / 2 ^ 1075

/-- The byte `v` is the byte `byte` with bit `j` set and no other bit changed. -/
def SetsOnlyBit (j byte v : ℕ) : Prop :=
  ∀ k, v.testBit k = (decide (k < 8) && (byte.testBit k || decide (k = j)))

/-- The byte `v` is the byte `byte` with bit `j` cleared and no other bit changed. -/
def ClearsOnlyBit (j byte v : ℕ) : Prop :=
  ∀ k, v.testBit k = (decide (k < 8) && (byte.testBit k && !decide (k = j)))

/-- The operations, newest first, of one read-modify-write that sets bit `j` of
register `reg`: a failed read alone, or a successful read followed by the write
of the byte read with only bit `j` set in addition; `ok` tells whether both the
read and the write returned 0. -/
def SetAttempt (addr reg j : ℕ) (ok : Bool) (evs : List BusOp) : Prop :=
  (∃ ret byte, ret ≠ 0 ∧ ok = false ∧ evs = [BusOp.ReadRegister addr reg ret byte]) ∨
  (∃ byte v wret, SetsOnlyBit j byte v ∧ ok = decide (wret = 0) ∧
    evs = [BusOp.WriteRegister addr reg v wret, BusOp.ReadRegister addr reg 0 byte])

/-- The operations, newest first, of one read-modify-write that clears bit `j`
of register `reg`: a failed read alone, or a successful read followed by the
write of the byte read with only bit `j` cleared; `ok` tells whether both the
read and the write returned 0. -/
def ClearAttempt (addr reg j : ℕ) (ok : Bool) (evs : List BusOp) : Prop :=
  (∃ ret byte, ret ≠ 0 ∧ ok = false ∧ evs = [BusOp.ReadRegister addr reg ret byte]) ∨
  (∃ byte v wret, ClearsOnlyBit j byte v ∧ ok = decide (wret = 0) ∧
    evs = [BusOp.WriteRegister addr reg v wret, BusOp.ReadRegister addr reg 0 byte])

/-- The operations, newest first, between the freeze and the unfreeze: none when
the freeze did not succeed (`frozen = false`); otherwise the block write of
`cur_regs` at `base_reg`, followed, when it returned 0, by the 6-byte read-back;
`matched` tells whether that read-back returned 0 and the bytes of `cur_regs`. -/
def BlockPhase (os : OscillatorState) (frozen matched : Bool) (evs : List BusOp) : Prop :=
  (frozen = false ∧ matched = false ∧ evs = []) ∨
  (frozen = true ∧ ∃ ret, ret ≠ 0 ∧ matched = false ∧
    evs = [BusOp.WriteBlock os.si570_address os.base_reg os.cur_regs 6 ret]) ∨
  (frozen = true ∧ ∃ ret data, matched = decide (ret = 0 ∧ data = os.cur_regs) ∧
    evs = [BusOp.ReadData os.si570_address os.base_reg 6 ret data,
      BusOp.WriteBlock os.si570_address os.base_reg os.cur_regs 6 0])

/-! ## A simulated chip, for concrete runs -/

/-- The registers of a simulated Si570: the six configuration registers at
`base_reg`, and the control registers 135 and 137. -/
structure SimChip where
  regs : List Nat
  r135 : Nat
  r137 : Nat
deriving DecidableEq

/-- A simulated bus.  Single-register reads of a register in `failing` return
the transport error 1 and every other operation succeeds.  With `clearsNewFreq`
the chip clears the new-frequency bit as soon as it is written, without it the
bit stays set.  Without `smallWorks` a block write issued while only the
multiplier is frozen (`SI570_FREEZE_M`) is acknowledged but not taken over. -/
def simBus (failing : Nat → Bool) (clearsNewFreq smallWorks : Bool) : I2CBus SimChip where
  ReadRegister := fun c _ reg =>
    if failing reg = true then (c, 1, 0)
    else if reg = SI570_REG_135 then (c, 0, c.r135)
    else if reg = SI570_REG_137 then (c, 0, c.r137)
    else (c, 0, 0)
  WriteRegister := fun c _ reg val =>
    if reg = SI570_REG_135 then
      ({ c with r135 := if clearsNewFreq = true then val &&& 0xBF else val }, 0)
    else if reg = SI570_REG_137 then ({ c with r137 := val }, 0)
    else (c, 0)
  ReadData := fun c _ _ _ => (c, 0, c.regs)
  WriteBlock := fun c _ _ data _ =>
    if smallWorks = false ∧ c.r135 &&& SI570_FREEZE_M ≠ 0 then (c, 0)
    else ({ c with regs := data }, 0)

/-- A chip that holds the image written for 10 MHz (`hsdiv = 11`, `n1 = 46`),
nothing frozen. -/
def chip10 : SimChip := { regs := [235, 66, 196, 103, 136, 144], r135 := 0, r137 := 0 }

/-- The configuration of the divider search for 10 MHz with the nominal reference. -/
def cfg10 : Si570_FreqConfig :=
  { hsdiv := 11, n1 := 46, fdco := 5060, rfreq := 1012000 / 22857, freq := 10 }

/-- A configuration whose `rfreq` has a 28-bit fraction with 27 significant bits. -/
def cfgFrac : Si570_FreqConfig :=
  { hsdiv := 11, n1 := 46, fdco := 5060, rfreq := 44 + 73894031 / 268435456, freq := 10 }

/-- The oscillator state after `Si570_PrepareChangeFrequency(10.01)` on a chip
committed to 10 MHz: a small step with the same dividers. -/
def osSmall : OscillatorState :=
  { cur_config := cfg10
    next_config :=
      { hsdiv := 11, n1 := 46, fdco := 5060, rfreq := 1013012 / 22857, freq := 1001 / 100 }
    fxtal := 114285 / 1000
    fxtal_ppm := 0
    fxtal_calc := 114285 / 1000
    cur_regs := [235, 66, 197, 28, 226, 144]
    next_is_small := true
    fout := 10
    si570_address := 0x55 <<< 1
    base_reg := 7
    present := true }

/-- The oscillator state after `Si570_PrepareChangeFrequency(10.01)` when
`cur_config` is the all-zero sentinel: a large step found by the divider search. -/
def osLarge : OscillatorState :=
  { osSmall with
    cur_config := Si570_ClearConfig
    next_config :=
      { hsdiv := 11, n1 := 46, fdco := 506506 / 100, rfreq := 1013012 / 22857,
        freq := 1001 / 100 }
    next_is_small := false }

/-- A committed configuration with `fdco = 5000` (`hsdiv = 11`, `n1 = 46`), as
the divider search leaves it for the double nearest to 5000 / 506. -/
def cfgEdge : Si570_FreqConfig :=
  { hsdiv := 11, n1 := 46, fdco := 5000, rfreq := 5000000 / 114285, freq := 5000 / 506 }

/-- The double `0x1.3b194be3ab010p+3`, about 9.846837944664031 (MHz). -/
def fEdge : ℚ := 346454810143489 / 35184372088832

/-- The oscillator state of a chip committed to `cfgEdge`. -/
def osEdge : OscillatorState := { osSmall with cur_config := cfgEdge, next_config := cfgEdge }

/-- The simulated bus on which every operation succeeds and the chip behaves. -/
def goodBus : I2CBus SimChip := simBus (fun _ => false) true true

/-- The simulated bus of a chip that never clears the new-frequency bit. -/
def stuckBus : I2CBus SimChip := simBus (fun _ => false) false true

/-- The simulated bus on which every read of register 135 is a transport error. -/
def bus135 : I2CBus SimChip := simBus (fun reg => decide (reg = SI570_REG_135)) true true

/-- The simulated bus of a chip that ignores block writes of a small step. -/
def noSmallBus : I2CBus SimChip := simBus (fun _ => false) true false

/-- The log of a commit on `noSmallBus`: a small step whose read-back differs,
then the large step. -/
def fallbackLog : List BusOp :=
  [BusOp.ReadData 170 7 6 0 [235, 66, 197, 28, 226, 144],
    BusOp.ReadRegister 170 135 0 0,
    BusOp.WriteRegister 170 135 64 0,
    BusOp.ReadRegister 170 135 0 0,
    BusOp.WriteRegister 170 137 0 0,
    BusOp.ReadRegister 170 137 0 16,
    BusOp.ReadData 170 7 6 0 [235, 66, 197, 28, 226, 144],
    BusOp.WriteBlock 170 7 [235, 66, 197, 28, 226, 144] 6 0,
    BusOp.WriteRegister 170 137 16 0,
    BusOp.ReadRegister 170 137 0 0,
    BusOp.WriteRegister 170 135 0 0,
    BusOp.ReadRegister 170 135 0 32,
    BusOp.ReadData 170 7 6 0 [235, 66, 196, 103, 136, 144],
    BusOp.WriteBlock 170 7 [235, 66, 197, 28, 226, 144] 6 0,
    BusOp.WriteRegister 170 135 32 0,
    BusOp.ReadRegister 170 135 0 0]

/-- The simulated bus of a chip that answers every operation and clears the
recall bit as soon as it is written. -/
def recallBus : I2CBus SimChip :=
  { goodBus with
    WriteRegister := fun c addr reg val => goodBus.WriteRegister c addr reg (val &&& 0xFE) }

/-- A bus on which no chip answers: every operation is a transport error. -/
def deadBus : I2CBus Unit where
  ReadRegister := fun _ _ _ => ((), 1, 0)
  WriteRegister := fun _ _ _ _ => ((), 1)
  ReadData := fun _ _ _ _ => ((), 1, [])
  WriteBlock := fun _ _ _ _ _ => ((), 1)

/-- The zero-initialised oscillator state of program start. -/
def osZero : OscillatorState :=
  { cur_config := Si570_ClearConfig, next_config := Si570_ClearConfig, fxtal := 0, fxtal_ppm := 0,
    fxtal_calc := 0, cur_regs := [0, 0, 0, 0, 0, 0], next_is_small := false, fout := 0,
    si570_address := 0, base_reg := 0, present := false }

/-- A chip that holds the factory image of a 56.32 MHz part with the nominal
reference (`hsdiv = 11`, `n1 = 8`, `rfreq = 4955.52 / 114.285`), nothing frozen. -/
def chip5632 : SimChip := { regs := [225, 194, 181, 221, 226, 116], r135 := 0, r137 := 0 }

/-- The configuration of the divider search for 125 MHz with the nominal reference. -/
def cfg125 : Si570_FreqConfig :=
  { hsdiv := 11, n1 := 4, fdco := 5500, rfreq := 1100000 / 22857, freq := 125 }

/-- A chip that holds the factory image of a 14.1 MHz part with the nominal
reference (`hsdiv = 11`, `n1 = 32`, `rfreq = 4963.2 / 114.285`), nothing frozen. -/
def chip141 : SimChip := { regs := [231, 194, 182, 218, 51, 35], r135 := 0, r137 := 0 }

/-- The oscillator state after a small step from `osSmall` to 10.0078125 MHz has
been prepared and committed. -/
def osStep1 : OscillatorState :=
  { osSmall with
    cur_config := { hsdiv := 11, n1 := 46, fdco := 5060,
                    rfreq := 3118029680017563 / 70368744177664, freq := 1281 / 128 }
    next_config := { hsdiv := 11, n1 := 46, fdco := 5060,
                     rfreq := 3118029680017563 / 70368744177664, freq := 1281 / 128 }
    cur_regs := [235, 66, 196, 245, 54, 224] }

/-- The oscillator state after a further small step to 10.0234375 MHz has been
prepared and committed. -/
def osStep2 : OscillatorState :=
  { osSmall with
    cur_config := { hsdiv := 11, n1 := 46, fdco := 5060,
                    rfreq := 6245795596350559 / 140737488355328, freq := 1283 / 128 }
    next_config := { hsdiv := 11, n1 := 46, fdco := 5060,
                     rfreq := 6245795596350559 / 140737488355328, freq := 1283 / 128 }
    cur_regs := [235, 66, 198, 16, 147, 120] }

/-- The oscillator state after the small step from `osEdge` to `fEdge` has been
prepared and committed. -/
def osEdge1 : OscillatorState :=
  { osSmall with
    cur_config := { hsdiv := 11, n1 := 46, fdco := 5000,
                    rfreq := 3067876518048833 / 70368744177664, freq := fEdge }
    next_config := { hsdiv := 11, n1 := 46, fdco := 5000,
                     rfreq := 3067876518048833 / 70368744177664, freq := fEdge }
    cur_regs := [235, 66, 185, 141, 234, 128] }

/-- The oscillator state of a chip committed to 125 MHz (`hsdiv = 11`, `n1 = 4`). -/
def os125 : OscillatorState := { osSmall with cur_config := cfg125, next_config := cfg125 }

/-- The log of `Si570_Init` on `recallBus`: the address probe, the recall
command and its poll, and the two reads of the register image. -/
def initLog : List BusOp :=
  [BusOp.ReadData 170 13 6 0 [225, 194, 181, 221, 226, 116],
    BusOp.ReadData 170 13 6 0 [225, 194, 181, 221, 226, 116],
    BusOp.ReadRegister 170 135 0 0,
    BusOp.WriteRegister 170 135 1 0,
    BusOp.ReadRegister 170 13 0 0]

/-- The log of `Si570_ResetConfiguration` on `deadBus` from `osSmall`: the recall
write fails, and so does every operation of the commit run by `Si570_SetPPM`. -/
def deadLog : List BusOp :=
  [BusOp.ReadData 170 7 6 1 [],
    BusOp.ReadRegister 170 135 1 0,
    BusOp.ReadRegister 170 135 1 0,
    BusOp.WriteRegister 170 135 1 1]

/-! # Theorems -/

section Theorems

variable {β : Type}

/-! ## Divider search -/

theorem toUInt8_lt (z : ℤ) : toUInt8 z < 256 := by
  unfold toUInt8; omega

theorem toUInt16_lt (z : ℤ) : toUInt16 z < 65536 := by
  unfold toUInt16; omega

/-- Clearing bit 0 of `x + 1` (the C expression `(x + 1) & ~1`) for a byte `x`. -/
theorem and_not_one (x : Nat) (hx : x < 256) :
    ((x + 1) &&& 0xFFFFFFFE) % 256 = (x + 1) / 2 * 2 % 256 := by
  revert x; decide!

theorem body_found (fl : ℚ → ℚ) (C D h n : Nat)
    (hf : (Si570_FindConfig_body fl C D h n).n1_found = true) :
    (Si570_FindConfig_body fl C D h n).hsdiv = h ∧ N1Admissible (Si570_FindConfig_body fl C D h n).n1 := by
  unfold Si570_FindConfig_body at hf ⊢
  have h8 := toUInt8_lt ⌈fl ((C : ℚ) / (h : ℚ))⌉
  have ha := and_not_one _ h8
  simp only [] at hf ⊢
  split_ifs at hf ⊢ with h1 h2
  · exact ⟨rfl, Or.inl rfl⟩
  · refine ⟨rfl, Or.inr ?_⟩
    simp only [ha]
    omega

theorem loop_found (fl : ℚ → ℚ) (C D : Nat) (Q : DividerSearch → Prop) (l : List Nat)
    (hQ : ∀ h ∈ l, ∀ n, (Si570_FindConfig_body fl C D h n).n1_found = true →
      Q (Si570_FindConfig_body fl C D h n)) :
    ∀ s : DividerSearch, (s.n1_found = true → Q s) →
      (Si570_FindConfig_loop fl C D l s).n1_found = true → Q (Si570_FindConfig_loop fl C D l s) := by
  induction l with
  | nil => intro s hs hf; exact hs hf
  | cons a rest ih =>
    intro s hs hf
    unfold Si570_FindConfig_loop at hf ⊢
    split_ifs at hf ⊢ with h0
    · exact ih (fun h hh n => hQ h (List.mem_cons_of_mem _ hh) n) _
        (hQ a (List.mem_cons_self _ _) s.n1) hf
    · exact hs hf

/-- C1: whenever `Si570_FindConfigForFreq` returns true, the config it wrote has
`hsdiv` in {11,9,7,6,5,4}, `n1 = 1` or `n1` even in 2..128, `fdco = f * n1 * hsdiv`
inside [4850, 5670], `rfreq = fdco / fxtal_calc` and the frequency it was given;
whenever it returns false the config is unchanged.  This holds for every target
frequency, every reference and every rounding to `float`. -/
theorem FindConfigForFreq_sound (fl : ℚ → ℚ) (fxtal_calc : ℚ) (config : Si570_FreqConfig) :
    ((Si570_FindConfigForFreq fl fxtal_calc config).1 = true →
      (Si570_FindConfigForFreq fl fxtal_calc config).2.hsdiv ∈ ([11, 9, 7, 6, 5, 4] : List ℕ) ∧
      N1Admissible (Si570_FindConfigForFreq fl fxtal_calc config).2.n1 ∧
      (Si570_FindConfigForFreq fl fxtal_calc config).2.fdco =
        config.freq * ((Si570_FindConfigForFreq fl fxtal_calc config).2.n1 : ℚ) *
          ((Si570_FindConfigForFreq fl fxtal_calc config).2.hsdiv : ℚ) ∧
      4850 ≤ (Si570_FindConfigForFreq fl fxtal_calc config).2.fdco ∧
      (Si570_FindConfigForFreq fl fxtal_calc config).2.fdco ≤ 5670 ∧
      (Si570_FindConfigForFreq fl fxtal_calc config).2.rfreq =
        (Si570_FindConfigForFreq fl fxtal_calc config).2.fdco / fxtal_calc ∧
      (Si570_FindConfigForFreq fl fxtal_calc config).2.freq = config.freq) ∧
    ((Si570_FindConfigForFreq fl fxtal_calc config).1 = false →
      (Si570_FindConfigForFreq fl fxtal_calc config).2 = config) := by
  have hloop := loop_found fl (toUInt16 ⌈fl (fdco_min / config.freq)⌉)
    (toUInt16 ⌊fl (fdco_max / config.freq)⌋)
    (fun s => s.hsdiv ∈ hs_div ∧ N1Admissible s.n1) hs_div
    (fun h hh n hf => by
      obtain ⟨e, a⟩ := body_found fl _ _ h n hf
      exact ⟨by rw [e]; exact hh, a⟩)
    { n1 := 1, hsdiv := 0, n1_found := false } (by simp)
  unfold Si570_FindConfigForFreq
  simp only []
  split_ifs with h1 h2
  · refine ⟨fun _ => ?_, fun h => by simp at h⟩
    obtain ⟨hm, ha⟩ := hloop h1
    simp only [Si570_FDCO_InRange, fdco_min, fdco_max, FDCO_MIN, FDCO_MAX, decide_eq_true_eq] at h2
    refine ⟨hm, ha, ?_, h2.1, h2.2, rfl, rfl⟩
    simp only [Si570_GetFDCOForFreq]
    push_cast
    ring
  · exact ⟨fun h => by simp at h, fun _ => rfl⟩
  · exact ⟨fun h => by simp at h, fun _ => rfl⟩

theorem curr_div_spec (f : ℚ) (hf : 7 / 2 ≤ f) :
    (∀ m : ℕ, toUInt16 ⌈fdco_min / f⌉ ≤ m ↔ 4850 ≤ f * (m : ℚ)) ∧
    toUInt16 ⌈fdco_min / f⌉ ≤ 1386 := by
  have hpos : (0 : ℚ) < f := by linarith
  have h0 : 0 ≤ ⌈fdco_min / f⌉ := Int.ceil_nonneg (by unfold fdco_min FDCO_MIN; positivity)
  have h1 : ⌈fdco_min / f⌉ ≤ 1386 := by
    rw [Int.ceil_le, div_le_iff₀ hpos]
    unfold fdco_min FDCO_MIN
    push_cast
    linarith
  have e : ((toUInt16 ⌈fdco_min / f⌉ : ℕ) : ℤ) = ⌈fdco_min / f⌉ := by
    unfold toUInt16; omega
  refine ⟨fun m => ?_, by omega⟩
  have : (toUInt16 ⌈fdco_min / f⌉ ≤ m) ↔ ⌈fdco_min / f⌉ ≤ (m : ℤ) := by
    constructor <;> intro <;> omega
  rw [this, Int.ceil_le, div_le_iff₀ hpos]
  unfold fdco_min FDCO_MIN
  push_cast
  rw [mul_comm]

theorem divider_max_spec (f : ℚ) (hf : 7 / 2 ≤ f) :
    (∀ m : ℕ, m ≤ toUInt16 ⌊fdco_max / f⌋ ↔ f * (m : ℚ) ≤ 5670) ∧
    toUInt16 ⌊fdco_max / f⌋ ≤ 1620 := by
  have hpos : (0 : ℚ) < f := by linarith
  have h0 : 0 ≤ ⌊fdco_max / f⌋ := Int.floor_nonneg.mpr (by unfold fdco_max FDCO_MAX; positivity)
  have h1 : ⌊fdco_max / f⌋ ≤ 1620 := by
    have : ⌊fdco_max / f⌋ < 1620 + 1 := by
      rw [Int.floor_lt, div_lt_iff₀ hpos]
      unfold fdco_max FDCO_MAX
      push_cast
      linarith
    omega
  have e : ((toUInt16 ⌊fdco_max / f⌋ : ℕ) : ℤ) = ⌊fdco_max / f⌋ := by
    unfold toUInt16; omega
  refine ⟨fun m => ?_, by omega⟩
  have : (m ≤ toUInt16 ⌊fdco_max / f⌋) ↔ (m : ℤ) ≤ ⌊fdco_max / f⌋ := by
    constructor <;> intro <;> omega
  rw [this, Int.le_floor, le_div_iff₀ hpos]
  unfold fdco_max FDCO_MAX
  push_cast
  rw [mul_comm]

/-- The two bounds computed before the loop are close to each other. -/
theorem div_bounds_rel (f : ℚ) (hf : 7 / 2 ≤ f) :
    1 ≤ toUInt16 ⌈fdco_min / f⌉ ∧
    5670 * toUInt16 ⌈fdco_min / f⌉ < 4850 * toUInt16 ⌊fdco_max / f⌋ + 10520 ∧
    4850 * toUInt16 ⌊fdco_max / f⌋ ≤ 5670 * toUInt16 ⌈fdco_min / f⌉ := by
  have hpos : (0 : ℚ) < f := by linarith
  obtain ⟨hC, _⟩ := curr_div_spec f hf
  obtain ⟨hD, _⟩ := divider_max_spec f hf
  generalize toUInt16 ⌈fdco_min / f⌉ = C at *
  generalize toUInt16 ⌊fdco_max / f⌋ = D at *
  have c1 : 1 ≤ C := by
    by_contra hc
    have : C ≤ 0 := by omega
    have := (hC 0).mp this
    simp at this
    linarith
  have hCf : 4850 ≤ f * (C : ℚ) := (hC C).mp le_rfl
  have hDf : f * (D : ℚ) ≤ 5670 := (hD D).mp le_rfl
  have hC1 : f * ((C - 1 : ℕ) : ℚ) < 4850 := by
    by_contra hc
    have := (hC (C - 1)).mpr (not_lt.mp hc)
    omega
  have hD1 : 5670 < f * ((D + 1 : ℕ) : ℚ) := by
    by_contra hc
    have := (hD (D + 1)).mpr (not_lt.mp hc)
    omega
  refine ⟨c1, ?_, ?_⟩
  · have h : (5670 : ℚ) * ((C - 1 : ℕ) : ℚ) < 4850 * ((D + 1 : ℕ) : ℚ) := by
      by_contra hc
      have hc := not_lt.mp hc
      have := mul_le_mul_of_nonneg_left hc hpos.le
      nlinarith
    have h2 : 5670 * (C - 1) < 4850 * (D + 1) := by exact_mod_cast h
    omega
  · have h : (4850 : ℚ) * (D : ℚ) ≤ 5670 * (C : ℚ) := by
      by_contra hc
      have hc := not_le.mp hc
      have := mul_lt_mul_of_pos_left hc hpos
      nlinarith
    exact_mod_cast h

theorem cand_min_spec (C h : ℕ) (hh : 0 < h) (hCw : C ≤ 255 * h) :
    ∀ m : ℕ, toUInt8 ⌈(C : ℚ) / (h : ℚ)⌉ ≤ m ↔ C ≤ m * h := by
  have hq : (0 : ℚ) < (h : ℚ) := by exact_mod_cast hh
  have h0 : 0 ≤ ⌈(C : ℚ) / (h : ℚ)⌉ := Int.ceil_nonneg (by positivity)
  have h1 : ⌈(C : ℚ) / (h : ℚ)⌉ ≤ 255 := by
    rw [Int.ceil_le, div_le_iff₀ hq]
    exact_mod_cast hCw
  have e : ((toUInt8 ⌈(C : ℚ) / (h : ℚ)⌉ : ℕ) : ℤ) = ⌈(C : ℚ) / (h : ℚ)⌉ := by
    unfold toUInt8; omega
  intro m
  have : (toUInt8 ⌈(C : ℚ) / (h : ℚ)⌉ ≤ m) ↔ ⌈(C : ℚ) / (h : ℚ)⌉ ≤ (m : ℤ) := by
    constructor <;> intro <;> omega
  rw [this, Int.ceil_le, div_le_iff₀ hq]
  exact_mod_cast Iff.rfl

theorem cand_max_spec (D h : ℕ) (hh : 0 < h) (hDw : D < 256 * h) :
    ∀ m : ℕ, m ≤ toUInt8 ⌊(D : ℚ) / (h : ℚ)⌋ ↔ m * h ≤ D := by
  have hq : (0 : ℚ) < (h : ℚ) := by exact_mod_cast hh
  have h0 : 0 ≤ ⌊(D : ℚ) / (h : ℚ)⌋ := Int.floor_nonneg.mpr (by positivity)
  have h1 : ⌊(D : ℚ) / (h : ℚ)⌋ < 256 := by
    rw [Int.floor_lt, div_lt_iff₀ hq]
    exact_mod_cast hDw
  have e : ((toUInt8 ⌊(D : ℚ) / (h : ℚ)⌋ : ℕ) : ℤ) = ⌊(D : ℚ) / (h : ℚ)⌋ := by
    unfold toUInt8; omega
  intro m
  have : (m ≤ toUInt8 ⌊(D : ℚ) / (h : ℚ)⌋) ↔ (m : ℤ) ≤ ⌊(D : ℚ) / (h : ℚ)⌋ := by
    constructor <;> intro <;> omega
  rw [this, Int.le_floor, le_div_iff₀ hq]
  exact_mod_cast Iff.rfl

/-- With no 8-bit wrap of the two candidate bounds, one pass of the loop finds
the smallest admissible `n1` for its divisor, if there is one. -/
theorem body_spec (C D h n : ℕ) (hh : 0 < h) (hC : 1 ≤ C) (hCw : C ≤ 255 * h)
    (hDw : D < 256 * h) :
    ((Si570_FindConfig_body id C D h n).n1_found = true ↔
      ∃ m, N1Admissible m ∧ C ≤ m * h ∧ m * h ≤ D) ∧
    ((Si570_FindConfig_body id C D h n).n1_found = true →
      N1Admissible (Si570_FindConfig_body id C D h n).n1 ∧
      C ≤ (Si570_FindConfig_body id C D h n).n1 * h ∧
      (Si570_FindConfig_body id C D h n).n1 * h ≤ D ∧
      ∀ m, N1Admissible m → C ≤ m * h → m * h ≤ D → (Si570_FindConfig_body id C D h n).n1 ≤ m) := by
  have hmin := cand_min_spec C h hh hCw
  have hmax := cand_max_spec D h hh hDw
  have h8 := toUInt8_lt ⌈(C : ℚ) / (h : ℚ)⌉
  have ha := and_not_one _ h8
  unfold Si570_FindConfig_body N1Admissible
  simp only [id_eq, ha]
  generalize toUInt8 ⌈(C : ℚ) / (h : ℚ)⌉ = cmin at *
  generalize toUInt8 ⌊(D : ℚ) / (h : ℚ)⌋ = cmax at *
  have hmin0 : 1 ≤ cmin := by
    by_contra hc
    have := (hmin 0).mp (by omega)
    omega
  split_ifs with h1 h2
  · dsimp only
    have a1 := (hmin 1).mp h2
    have a2 := (hmax 1).mp h1.1
    refine ⟨⟨fun _ => ⟨1, Or.inl rfl, a1, a2⟩, fun _ => rfl⟩, fun _ => ?_⟩
    refine ⟨Or.inl rfl, a1, a2, fun m hm h3 h4 => ?_⟩
    have := (hmin m).mpr h3
    omega
  · dsimp only
    simp only [decide_eq_true_eq]
    have key : (cmin + 1) / 2 * 2 % 256 ≤ cmax →
        (((cmin + 1) / 2 * 2 % 256 = 1 ∨ (cmin + 1) / 2 * 2 % 256 % 2 = 0 ∧
            2 ≤ (cmin + 1) / 2 * 2 % 256 ∧ (cmin + 1) / 2 * 2 % 256 ≤ 128) ∧
          C ≤ (cmin + 1) / 2 * 2 % 256 * h ∧ (cmin + 1) / 2 * 2 % 256 * h ≤ D ∧
          ∀ m, (m = 1 ∨ m % 2 = 0 ∧ 2 ≤ m ∧ m ≤ 128) → C ≤ m * h → m * h ≤ D →
            (cmin + 1) / 2 * 2 % 256 ≤ m) := by
      intro hf
      refine ⟨Or.inr ⟨by omega, by omega, by omega⟩, (hmin _).mp (by omega), (hmax _).mp hf,
        fun m hm h3 h4 => ?_⟩
      have := (hmin m).mpr h3
      omega
    refine ⟨⟨fun hf => ⟨_, (key hf).1, (key hf).2.1, (key hf).2.2.1⟩,
      fun ⟨m, hm, h3, h4⟩ => ?_⟩, key⟩
    have := (hmin m).mpr h3
    have := (hmax m).mpr h4
    omega
  · dsimp only
    refine ⟨⟨fun hf => by simp at hf, fun ⟨m, hm, h3, h4⟩ => ?_⟩, fun hf => by simp at hf⟩
    exfalso
    have := (hmin m).mpr h3
    have := (hmax m).mpr h4
    omega

theorem body_hsdiv (C D h n : ℕ) : (Si570_FindConfig_body id C D h n).hsdiv = h := by
  unfold Si570_FindConfig_body
  dsimp only
  split_ifs <;> rfl

theorem loop_of_found (C D : ℕ) (l : List ℕ) (s : DividerSearch) (hs : s.n1_found = true) :
    Si570_FindConfig_loop id C D l s = s := by
  cases l with
  | nil => rfl
  | cons a rest => unfold Si570_FindConfig_loop; simp [hs]

theorem loop_spec (C D : ℕ) (hC : 1 ≤ C) (l : List ℕ)
    (hl : ∀ h ∈ l, 0 < h ∧ C ≤ 255 * h ∧ D < 256 * h) :
    ∀ s : DividerSearch, s.n1_found = false →
      ((Si570_FindConfig_loop id C D l s).n1_found = true ↔ ∃ h ∈ l, ∃ m, InBounds C D h m) ∧
      ((Si570_FindConfig_loop id C D l s).n1_found = true →
        FirstFit C D l (Si570_FindConfig_loop id C D l s)) := by
  induction l with
  | nil =>
    intro s hs
    simp [Si570_FindConfig_loop, hs]
  | cons a rest ih =>
    intro s hs
    obtain ⟨ha0, haC, haD⟩ := hl a (List.mem_cons_self _ _)
    have hb := body_spec C D a s.n1 ha0 hC haC haD
    have hh := body_hsdiv C D a s.n1
    unfold Si570_FindConfig_loop
    simp only [hs, if_true]
    by_cases hf : (Si570_FindConfig_body id C D a s.n1).n1_found = true
    · rw [loop_of_found C D rest _ hf]
      refine ⟨⟨fun _ => ⟨a, List.mem_cons_self _ _, hb.1.mp hf⟩, fun _ => hf⟩, fun _ => ?_⟩
      obtain ⟨b1, b2, b3, b4⟩ := hb.2 hf
      refine ⟨[], rest, by rw [hh]; rfl, by simp, ?_, ?_⟩
      · rw [hh]; exact ⟨b1, b2, b3⟩
      · rw [hh]; exact fun m hm => b4 m hm.1 hm.2.1 hm.2.2
    · have hf' : (Si570_FindConfig_body id C D a s.n1).n1_found = false := by
        simpa using hf
      have hno : ∀ m, ¬ InBounds C D a m := fun m hm => hf (hb.1.mpr ⟨m, hm⟩)
      obtain ⟨i1, i2⟩ := ih (fun h hh => hl h (List.mem_cons_of_mem _ hh)) _ hf'
      refine ⟨⟨fun h => ?_, fun ⟨h, hmem, m, hm⟩ => ?_⟩, fun h => ?_⟩
      · obtain ⟨h', hmem, hm⟩ := i1.mp h
        exact ⟨h', List.mem_cons_of_mem _ hmem, hm⟩
      · rcases List.mem_cons.mp hmem with rfl | hmem
        · exact absurd hm (hno m)
        · exact i1.mpr ⟨h, hmem, m, hm⟩
      · obtain ⟨pre, post, e, p1, p2, p3⟩ := i2 h
        refine ⟨a :: pre, post, congrArg (List.cons a) e, ?_, p2, p3⟩
        intro h' hmem m
        rcases List.mem_cons.mp hmem with rfl | hmem
        · exact hno m
        · exact p1 h' hmem m

/-- For a target of at least 3.5 MHz the loop stops at the first divisor of
`hs_div` that has an admissible `n1`, with the smallest such `n1`. -/
theorem loop_hs_div (C D : ℕ) (hC : 1 ≤ C) (hC2 : C ≤ 1386) (hD : D ≤ 1620)
    (h1 : 5670 * C < 4850 * D + 10520) (h2 : 4850 * D ≤ 5670 * C) (s : DividerSearch)
    (hs : s.n1_found = false) :
    ((Si570_FindConfig_loop id C D hs_div s).n1_found = true ↔
        ∃ h ∈ hs_div, ∃ m, InBounds C D h m) ∧
      ((Si570_FindConfig_loop id C D hs_div s).n1_found = true →
        FirstFit C D hs_div (Si570_FindConfig_loop id C D hs_div s)) := by
  by_cases hcase : D ≤ 1023
  · refine loop_spec C D hC hs_div (fun h hh => ?_) s hs
    simp only [hs_div, List.mem_cons, List.mem_singleton, List.not_mem_nil, or_false] at hh
    omega
  · have hb := body_spec C D 11 s.n1 (by norm_num) hC (by omega) (by omega)
    have hh := body_hsdiv C D 11 s.n1
    have hex : ∃ m, N1Admissible m ∧ C ≤ m * 11 ∧ m * 11 ≤ D :=
      ⟨((C + 10) / 11 + 1) / 2 * 2, Or.inr ⟨by omega, by omega, by omega⟩, by omega, by omega⟩
    have hf := hb.1.mpr hex
    have e : Si570_FindConfig_loop id C D hs_div s = Si570_FindConfig_body id C D 11 s.n1 := by
      unfold hs_div Si570_FindConfig_loop
      simp only [hs, if_true]
      exact loop_of_found C D _ _ hf
    rw [e]
    refine ⟨⟨fun _ => ⟨11, by simp [hs_div], hex⟩, fun _ => hf⟩, fun _ => ?_⟩
    obtain ⟨b1, b2, b3, b4⟩ := hb.2 hf
    refine ⟨[], [9, 7, 6, 5, 4], by rw [hh]; rfl, by simp, ?_, ?_⟩
    · rw [hh]; exact ⟨b1, b2, b3⟩
    · rw [hh]; exact fun m hm => b4 m hm.1 hm.2.1 hm.2.2

theorem inBounds_iff (f : ℚ) (hf : 7 / 2 ≤ f) (h m : ℕ) :
    InBounds (toUInt16 ⌈fdco_min / f⌉) (toUInt16 ⌊fdco_max / f⌋) h m ↔ Admissible f h m := by
  unfold InBounds Admissible
  rw [(curr_div_spec f hf).1 (m * h), (divider_max_spec f hf).1 (m * h)]
  push_cast
  rw [mul_assoc]

/-- With the floor and ceiling of the bounds taken exactly (`fl = id`) and for a
target of at least 3.5 MHz, `Si570_FindConfigForFreq` returns true
exactly when some `hsdiv` of {11,9,7,6,5,4} has an admissible `n1` (1, or even in
2..128) with `f * n1 * hsdiv` inside [4850, 5670]; it then chose the first such
`hsdiv` in that order and the smallest admissible `n1` for it; and the outcome
depends on the frequency alone. -/
theorem FindConfigForFreq_complete (fxtal_calc : ℚ) (config : Si570_FreqConfig)
    (hf : 7 / 2 ≤ config.freq) :
    ((Si570_FindConfigForFreq id fxtal_calc config).1 = true ↔
      ∃ h ∈ ([11, 9, 7, 6, 5, 4] : List ℕ), ∃ n1, Admissible config.freq h n1) ∧
    ((Si570_FindConfigForFreq id fxtal_calc config).1 = true →
      ∃ pre post, ([11, 9, 7, 6, 5, 4] : List ℕ) =
          pre ++ (Si570_FindConfigForFreq id fxtal_calc config).2.hsdiv :: post ∧
        (∀ h ∈ pre, ∀ n1, ¬ Admissible config.freq h n1) ∧
        Admissible config.freq (Si570_FindConfigForFreq id fxtal_calc config).2.hsdiv
          (Si570_FindConfigForFreq id fxtal_calc config).2.n1 ∧
        ∀ n1, Admissible config.freq (Si570_FindConfigForFreq id fxtal_calc config).2.hsdiv n1 →
          (Si570_FindConfigForFreq id fxtal_calc config).2.n1 ≤ n1) ∧
    (∀ (fxtal_calc2 : ℚ) (config2 : Si570_FreqConfig), config2.freq = config.freq →
      (Si570_FindConfigForFreq id fxtal_calc2 config2).1 =
        (Si570_FindConfigForFreq id fxtal_calc config).1 ∧
      ((Si570_FindConfigForFreq id fxtal_calc config).1 = true →
        (Si570_FindConfigForFreq id fxtal_calc2 config2).2.hsdiv =
          (Si570_FindConfigForFreq id fxtal_calc config).2.hsdiv ∧
        (Si570_FindConfigForFreq id fxtal_calc2 config2).2.n1 =
          (Si570_FindConfigForFreq id fxtal_calc config).2.n1 ∧
        (Si570_FindConfigForFreq id fxtal_calc2 config2).2.fdco =
          (Si570_FindConfigForFreq id fxtal_calc config).2.fdco)) := by
  obtain ⟨c1, c2, c3⟩ := div_bounds_rel config.freq hf
  obtain ⟨l1, l2⟩ := loop_hs_div _ _ c1 (curr_div_spec config.freq hf).2
    (divider_max_spec config.freq hf).2 c2 c3 { n1 := 1, hsdiv := 0, n1_found := false } rfl
  simp only [inBounds_iff config.freq hf, FirstFit] at l1 l2
  refine ⟨?_, ?_, ?_⟩
  · unfold Si570_FindConfigForFreq
    simp only [id_eq]
    split_ifs with h1 h2
    · exact ⟨fun _ => l1.mp h1, fun _ => rfl⟩
    · exfalso
      obtain ⟨pre, post, _, _, ha, _⟩ := l2 h1
      apply h2
      simp only [Si570_FDCO_InRange, Si570_GetFDCOForFreq, fdco_min, fdco_max, FDCO_MIN, FDCO_MAX,
        decide_eq_true_eq, ge_iff_le]
      push_cast
      rw [← mul_assoc]
      exact ha.2
    · refine ⟨fun h => by simp at h, fun h => absurd (l1.mpr h) h1⟩
  · intro hr
    have h1 : (Si570_FindConfig_loop id (toUInt16 ⌈fdco_min / config.freq⌉)
        (toUInt16 ⌊fdco_max / config.freq⌋) hs_div
        { n1 := 1, hsdiv := 0, n1_found := false }).n1_found = true := by
      unfold Si570_FindConfigForFreq at hr
      simp only [id_eq] at hr
      split_ifs at hr with h1 h2
      · exact h1
    have hl := l2 h1
    have h2 : Si570_FDCO_InRange (Si570_GetFDCOForFreq config.freq
        (Si570_FindConfig_loop id (toUInt16 ⌈fdco_min / config.freq⌉)
          (toUInt16 ⌊fdco_max / config.freq⌋) hs_div
          { n1 := 1, hsdiv := 0, n1_found := false }).n1
        (Si570_FindConfig_loop id (toUInt16 ⌈fdco_min / config.freq⌉)
          (toUInt16 ⌊fdco_max / config.freq⌋) hs_div
          { n1 := 1, hsdiv := 0, n1_found := false }).hsdiv) = true := by
      unfold Si570_FindConfigForFreq at hr
      simp only [id_eq] at hr
      rw [if_pos h1] at hr
      split_ifs at hr with h2
      · exact h2
    unfold Si570_FindConfigForFreq
    simp only [id_eq]
    rw [if_pos h1, if_pos h2]
    exact hl
  · intro fx2 config2 hfreq
    unfold Si570_FindConfigForFreq
    dsimp only
    rw [hfreq]
    split_ifs <;> simp

/-! ## Rounding in double precision -/

theorem roundHalfEven_err (q : ℚ) : |(roundHalfEven q : ℚ) - q| ≤ 1 / 2 := by
  have h1 := Int.floor_le q
  have h2 := Int.lt_floor_add_one q
  unfold roundHalfEven
  split_ifs with a b c
  · rw [abs_le]; constructor <;> linarith
  · push_cast; rw [abs_le]; constructor <;> linarith
  · rw [abs_le]; constructor <;> linarith
  · push_cast; rw [abs_le]; constructor <;> linarith

/-- What `exponentOf` returns: the binary exponent when the fuel suffices, and
the fuel with the sign of the exponent when it does not. -/
theorem exponentOf_spec (fuel : ℕ) : ∀ a : ℚ, 0 < a →
    ((2 : ℚ) ^ (-(fuel : ℤ)) ≤ a → a < (2 : ℚ) ^ ((fuel : ℤ) + 1) →
      (2 : ℚ) ^ exponentOf fuel a ≤ a ∧ a < (2 : ℚ) ^ (exponentOf fuel a + 1)) ∧
    (a < (2 : ℚ) ^ (-(fuel : ℤ)) → exponentOf fuel a = -(fuel : ℤ)) ∧
    ((2 : ℚ) ^ ((fuel : ℤ) + 1) ≤ a → exponentOf fuel a = (fuel : ℤ)) := by
  have h2 : (2 : ℚ) ≠ 0 := by norm_num
  induction fuel with
  | zero =>
    intro a ha
    simp only [exponentOf, CharP.cast_eq_zero, neg_zero, zpow_zero, zero_add, zpow_one]
    exact ⟨fun h1 h2 => ⟨h1, h2⟩, fun _ => trivial, fun _ => trivial⟩
  | succ n ih =>
    intro a ha
    have e1 : (2 : ℚ) ^ (-((n + 1 : ℕ) : ℤ)) = (2 : ℚ) ^ (-(n : ℤ)) / 2 := by
      push_cast
      rw [show -((n : ℤ) + 1) = -(n : ℤ) - 1 by ring, zpow_sub_one₀ h2]
      rfl
    have e2 : (2 : ℚ) ^ (((n + 1 : ℕ) : ℤ) + 1) = (2 : ℚ) ^ ((n : ℤ) + 1) * 2 := by
      push_cast
      rw [zpow_add_one₀ h2]
    have hpn : (0 : ℚ) < (2 : ℚ) ^ (-(n : ℤ)) := zpow_pos (by norm_num) _
    have hpp : (1 : ℚ) ≤ (2 : ℚ) ^ (n : ℤ) := one_le_zpow₀ (by norm_num) (by positivity)
    have hpn1 : (2 : ℚ) ^ (-(n : ℤ)) ≤ 1 := by
      rw [zpow_neg]; exact inv_le_one_of_one_le₀ hpp
    have hpp1 : (2 : ℚ) ≤ (2 : ℚ) ^ ((n : ℤ) + 1) := by
      rw [zpow_add_one₀ h2]; linarith
    rw [e1, e2]
    unfold exponentOf
    by_cases c1 : a < 1
    · rw [if_pos c1]
      obtain ⟨i1, i2, i3⟩ := ih (a * 2) (by linarith)
      refine ⟨fun l1 l2 => ?_, fun l => ?_, fun l => ?_⟩
      · obtain ⟨j1, j2⟩ := i1 (by linarith) (by linarith)
        constructor
        · rw [zpow_sub_one₀ h2]; rw [div_eq_mul_inv] at *; linarith
        · rw [sub_add_cancel]
          rw [zpow_add_one₀ h2] at j2
          linarith
      · rw [i2 (by linarith)]; push_cast; ring
      · exfalso; linarith
    · rw [if_neg c1]
      by_cases c2 : 2 ≤ a
      · rw [if_pos c2]
        obtain ⟨i1, i2, i3⟩ := ih (a / 2) (by linarith)
        refine ⟨fun l1 l2 => ?_, fun l => ?_, fun l => ?_⟩
        · obtain ⟨j1, j2⟩ := i1 (by linarith) (by linarith)
          constructor
          · rw [zpow_add_one₀ h2]; linarith
          · rw [zpow_add_one₀ h2 (exponentOf n (a / 2) + 1)]; linarith
        · exfalso; linarith
        · rw [i3 (by linarith)]; push_cast; ring
      · rw [if_neg c2]
        push_neg at c1 c2
        refine ⟨fun _ _ => ⟨by simpa using c1, by simpa using c2⟩, fun l => ?_, fun l => ?_⟩
        · exfalso; linarith
        · exfalso; linarith

/-- The rounding `binary64` has the accuracy of double precision. -/
theorem binary64_accurate : DoubleAccurate binary64 := by
  intro x hx
  have h2 : (2 : ℚ) ≠ 0 := by norm_num
  have h21 : (1 : ℚ) < 2 := by norm_num
  by_cases hx0 : x = 0
  · subst hx0
    simp only [binary64, if_true, sub_self, abs_zero, zero_div, zero_add]
    exact div_nonneg zero_le_one (pow_nonneg (by norm_num) _)
  · have ha : 0 < |x| := abs_pos.mpr hx0
    obtain ⟨s1, s2, s3⟩ := exponentOf_spec 1100 |x| ha
    have hup : |x| < (2 : ℚ) ^ (((1100 : ℕ) : ℤ) + 1) := by
      refine lt_trans hx ?_
      have : ((2 : ℚ) ^ (1000 : ℕ)) = (2 : ℚ) ^ ((1000 : ℕ) : ℤ) := (zpow_natCast 2 1000).symm
      rw [this]
      exact zpow_lt_zpow_right₀ h21 (by norm_num)
    have key : ∀ e : ℤ,
        |(roundHalfEven (x / (2 : ℚ) ^ (e - 52)) : ℚ) * (2 : ℚ) ^ (e - 52) - x| ≤
          (2 : ℚ) ^ (e - 53) := by
      intro e
      have hs : (0 : ℚ) < (2 : ℚ) ^ (e - 52) := zpow_pos (by norm_num) _
      have hr := roundHalfEven_err (x / (2 : ℚ) ^ (e - 52))
      have e1 : (roundHalfEven (x / (2 : ℚ) ^ (e - 52)) : ℚ) * (2 : ℚ) ^ (e - 52) - x =
          ((roundHalfEven (x / (2 : ℚ) ^ (e - 52)) : ℚ) - x / (2 : ℚ) ^ (e - 52)) *
            (2 : ℚ) ^ (e - 52) := by
        field_simp
      rw [e1, abs_mul, abs_of_pos hs]
      have e2 : (2 : ℚ) ^ (e - 53) = 1 / 2 * (2 : ℚ) ^ (e - 52) := by
        rw [show e - 53 = e - 52 - 1 by ring, zpow_sub_one₀ h2]
        ring
      rw [e2]
      exact mul_le_mul_of_nonneg_right hr hs.le
    have hunf : binary64 x =
        (roundHalfEven (x / (2 : ℚ) ^ (max (exponentOf 1100 |x|) (-1022) - 52)) : ℚ) *
          (2 : ℚ) ^ (max (exponentOf 1100 |x|) (-1022) - 52) := by
      simp only [binary64, if_neg hx0]
    rw [hunf]
    refine le_trans (key _) ?_
    have hpos1 : (0 : ℚ) ≤ |x| / 2 ^ 53 := div_nonneg (abs_nonneg _) (pow_nonneg (by norm_num) _)
    have hpos2 : (0 : ℚ) ≤ 1 / 2 ^ 1075 := div_nonneg zero_le_one (pow_nonneg (by norm_num) _)
    by_cases hn : (2 : ℚ) ^ (-1022 : ℤ) ≤ |x|
    · have hlow : (2 : ℚ) ^ (-((1100 : ℕ) : ℤ)) ≤ |x| := by
        refine le_trans ?_ hn
        exact zpow_le_zpow_right₀ h21.le (by norm_num)
      obtain ⟨j1, j2⟩ := s1 hlow hup
      have he : (-1022 : ℤ) ≤ exponentOf 1100 |x| := by
        have : (2 : ℚ) ^ (-1022 : ℤ) < (2 : ℚ) ^ (exponentOf 1100 |x| + 1) := lt_of_le_of_lt hn j2
        have := (zpow_lt_zpow_iff_right₀ h21).mp this
        omega
      rw [max_eq_left he]
      have e3 : (2 : ℚ) ^ (exponentOf 1100 |x| - 53) = (2 : ℚ) ^ exponentOf 1100 |x| / 2 ^ 53 := by
        rw [zpow_sub₀ h2]
        norm_cast
      rw [e3]
      have : (2 : ℚ) ^ exponentOf 1100 |x| / 2 ^ 53 ≤ |x| / 2 ^ 53 :=
        div_le_div_of_nonneg_right j1 (pow_nonneg (by norm_num) _)
      linarith
    · push_neg at hn
      have he : exponentOf 1100 |x| ≤ -1022 := by
        by_cases hl : (2 : ℚ) ^ (-((1100 : ℕ) : ℤ)) ≤ |x|
        · obtain ⟨j1, j2⟩ := s1 hl hup
          have : (2 : ℚ) ^ exponentOf 1100 |x| < (2 : ℚ) ^ (-1022 : ℤ) := lt_of_le_of_lt j1 hn
          have := (zpow_lt_zpow_iff_right₀ h21).mp this
          omega
        · push_neg at hl
          rw [s2 hl]
          norm_num
      rw [max_eq_right he]
      have e3 : (2 : ℚ) ^ ((-1022 : ℤ) - 53) = 1 / 2 ^ 1075 := by
        rw [show ((-1022 : ℤ) - 53) = -((1075 : ℕ) : ℤ) by norm_num, zpow_neg, zpow_natCast]
        simp
      rw [e3]
      linarith

theorem two_pow_66_lt : (2 : ℚ) ^ 66 < 2 ^ 1000 :=
  pow_lt_pow_right₀ (by norm_num) (by norm_num)

theorem tiny_le : (1 : ℚ) / 2 ^ 1075 ≤ 1 / 2 ^ 100 :=
  one_div_le_one_div_of_le (pow_pos (by norm_num) _)
    (pow_le_pow_right₀ (by norm_num) (by norm_num))

/-- The accuracy of a double rounding on a magnitude of at most `2^66`, with the
absolute part of the error bounded by `2^-100`. -/
theorem accurate_at (fd : ℚ → ℚ) (hfd : DoubleAccurate fd) (x : ℚ) (hx : |x| ≤ 2 ^ 66) :
    |fd x - x| ≤ |x| / 2 ^ 53 + 1 / 2 ^ 100 := by
  have := hfd x (lt_of_le_of_lt hx two_pow_66_lt)
  have := tiny_le
  linarith

/-- The margin that the smooth-step test enforces in exact terms, when its
doubles are rounded with the accuracy of double precision: a step that passes
the test deviates from `c` by at most `0.0035 * (1 + 2^-43) * c`. -/
theorem smooth_margin (fd : ℚ → ℚ) (hfd : DoubleAccurate fd) (c p : ℚ) (hc1 : 1 ≤ c)
    (hc2 : c ≤ 2 ^ 64) (hp : |p| ≤ 2 ^ 64)
    (hQ : |fd (fd (fd p - c) / c)| ≤ fd 0.0035) (hlo : 4850 ≤ fd p) (hhi : fd p ≤ 5670) :
    |p - c| ≤ 0.0035 * (1 + 1 / 2 ^ 43) * c := by
  have hcpos : (0 : ℚ) < c := by linarith
  have a1 := accurate_at fd hfd p (by linarith)
  have hp11 : |p| ≤ 11341 := by
    have := abs_le.mp a1
    rcases abs_cases p with ⟨e, _⟩ | ⟨e, _⟩ <;> rw [e] at this ⊢ <;> norm_num at this ⊢ <;>
      linarith [this.1, this.2]
  have b1 : |fd p - p| ≤ 11341 / 2 ^ 53 + 1 / 2 ^ 100 := by
    have : |p| / 2 ^ 53 ≤ 11341 / 2 ^ 53 := div_le_div_of_nonneg_right hp11 (by norm_num)
    linarith
  have a4 := accurate_at fd hfd 0.0035 (by rw [abs_of_pos (by norm_num)]; norm_num)
  have hD : fd 0.0035 ≤ 0.0035 + 0.0035 / 2 ^ 53 + 1 / 2 ^ 100 := by
    have := abs_le.mp a4
    rw [abs_of_pos (by norm_num : (0 : ℚ) < 0.0035)] at this
    linarith [this.2]
  have hPc : |fd p - c| ≤ 2 ^ 65 := by
    rw [abs_le]
    constructor <;> norm_num at hc2 ⊢ <;> linarith
  have a2 := accurate_at fd hfd (fd p - c) (by linarith [show (2 : ℚ) ^ 65 ≤ 2 ^ 66 by norm_num])
  have hT : |fd (fd p - c)| ≤ 2 ^ 66 := by
    have h1 := abs_sub_abs_le_abs_sub (fd (fd p - c)) (fd p - c)
    have h2 : |fd p - c| / 2 ^ 53 ≤ 2 ^ 65 / 2 ^ 53 := div_le_div_of_nonneg_right hPc (by norm_num)
    norm_num at h2 hPc ⊢
    linarith
  have hy : |fd (fd p - c) / c| ≤ 2 ^ 66 := by
    rw [abs_div, abs_of_pos hcpos]
    have : |fd (fd p - c)| / c ≤ |fd (fd p - c)| / 1 :=
      div_le_div_of_nonneg_left (abs_nonneg _) (by norm_num) hc1
    rw [div_one] at this
    linarith
  have a3 := accurate_at fd hfd (fd (fd p - c) / c) hy
  have hy1 : |fd (fd p - c) / c| ≤ 0.008 := by
    have h1 := abs_sub_abs_le_abs_sub (fd (fd p - c) / c) (fd (fd (fd p - c) / c))
    rw [abs_sub_comm (fd (fd p - c) / c) (fd (fd (fd p - c) / c))] at h1
    norm_num at hD h1 a3 ⊢
    linarith
  have hy2 : |fd (fd p - c) / c| ≤ 0.0035 + 0.012 / 2 ^ 53 + 2 / 2 ^ 100 := by
    have h1 := abs_sub_abs_le_abs_sub (fd (fd p - c) / c) (fd (fd (fd p - c) / c))
    rw [abs_sub_comm (fd (fd p - c) / c) (fd (fd (fd p - c) / c))] at h1
    have h2 : |fd (fd p - c) / c| / 2 ^ 53 ≤ 0.008 / 2 ^ 53 :=
      div_le_div_of_nonneg_right hy1 (by norm_num)
    norm_num at hD h1 a3 h2 ⊢
    linarith
  have hT2 : |fd (fd p - c)| ≤ (0.0035 + 0.012 / 2 ^ 53 + 2 / 2 ^ 100) * c := by
    rw [abs_div, abs_of_pos hcpos, div_le_iff₀ hcpos] at hy2
    exact hy2
  have hd1 : |fd p - c| ≤ 0.008 * c + 1 := by
    have h1 := abs_sub_abs_le_abs_sub (fd p - c) (fd (fd p - c))
    rw [abs_sub_comm (fd p - c) (fd (fd p - c))] at h1
    norm_num at h1 a2 hT2 ⊢
    nlinarith
  have hd2 : |fd p - c| ≤ (0.0035 + 0.03 / 2 ^ 53) * c + 2 / 2 ^ 53 := by
    have h1 := abs_sub_abs_le_abs_sub (fd p - c) (fd (fd p - c))
    rw [abs_sub_comm (fd p - c) (fd (fd p - c))] at h1
    have h2 : |fd p - c| / 2 ^ 53 ≤ (0.008 * c + 1) / 2 ^ 53 :=
      div_le_div_of_nonneg_right hd1 (by norm_num)
    norm_num at h1 a2 hT2 h2 ⊢
    nlinarith
  have hc48 : 4800 ≤ c := by
    have := abs_le.mp hd2
    norm_num at this
    nlinarith [this.1, this.2]
  have hsum : |p - c| ≤ |fd p - p| + |fd p - c| := by
    have : p - c = (fd p - c) - (fd p - p) := by ring
    rw [this]
    exact le_of_le_of_eq (abs_sub _ _) (add_comm _ _)
  norm_num at b1 hd2 hsum ⊢
  nlinarith

/-! ## Smooth step -/

theorem smooth_fdco (f : ℚ) (n1 hsdiv : ℕ) :
    Si570_GetFDCOForFreq f n1 hsdiv = f * (n1 : ℚ) * (hsdiv : ℚ) := by
  simp only [Si570_GetFDCOForFreq]; push_cast; ring

theorem ite_neg_abs (x : ℚ) : (if x < 0 then -x else x) = |x| := by
  split_ifs with h
  · exact (abs_of_neg h).symm
  · exact (abs_of_nonneg (not_lt.mp h)).symm

/-- What the smooth-step test compares, for every rounding of the doubles. -/
theorem smooth_iff (fd : ℚ → ℚ) (fx : ℚ) (cur new_config : Si570_FreqConfig) :
    (Si570_FindSmoothRFreqForFreq fd fx cur new_config).1 = true ↔
      cur.fdco ≠ 0 ∧
      |fd (fd (fd (new_config.freq * (cur.n1 : ℚ) * (cur.hsdiv : ℚ)) - cur.fdco) / cur.fdco)| ≤
        fd 0.0035 ∧
      4850 ≤ fd (new_config.freq * (cur.n1 : ℚ) * (cur.hsdiv : ℚ)) ∧
      fd (new_config.freq * (cur.n1 : ℚ) * (cur.hsdiv : ℚ)) ≤ 5670 := by
  unfold Si570_FindSmoothRFreqForFreq
  simp only [smooth_fdco, ite_neg_abs, Si570_FDCO_InRange, fdco_min, fdco_max, FDCO_MIN, FDCO_MAX,
    SMOOTH_DELTA, decide_eq_true_eq, ge_iff_le]
  split_ifs with h
  · exact ⟨fun _ => h, fun _ => rfl⟩
  · exact ⟨fun h2 => by simp at h2, fun h2 => absurd h2 h⟩

theorem smooth_accept (fd : ℚ → ℚ) (fx : ℚ) (cur new_config : Si570_FreqConfig)
    (h : (Si570_FindSmoothRFreqForFreq fd fx cur new_config).1 = true) :
    (Si570_FindSmoothRFreqForFreq fd fx cur new_config).2 =
      { hsdiv := cur.hsdiv, n1 := cur.n1, fdco := cur.fdco,
        rfreq := fd (fd (new_config.freq * (cur.n1 : ℚ) * (cur.hsdiv : ℚ)) / fx),
        freq := new_config.freq } := by
  unfold Si570_FindSmoothRFreqForFreq at h ⊢
  simp only [smooth_fdco] at h ⊢
  split_ifs at h ⊢ <;> rfl

theorem ite_pair_false {α : Type} (c : Prop) [Decidable c] (x y : α)
    (h : (if c then (true, x) else (false, y)).1 = false) :
    (if c then (true, x) else (false, y)).2 = y := by
  by_cases hc : c
  · simp [hc] at h
  · simp [hc]

theorem smooth_refuse (fd : ℚ → ℚ) (fx : ℚ) (cur new_config : Si570_FreqConfig)
    (h : (Si570_FindSmoothRFreqForFreq fd fx cur new_config).1 = false) :
    (Si570_FindSmoothRFreqForFreq fd fx cur new_config).2 = new_config := by
  unfold Si570_FindSmoothRFreqForFreq at h ⊢
  exact ite_pair_false _ _ _ h

/-- C3, as amended: with `cur.fdco > 0`, `fdco'` the double-precision product
`f * (cur.n1 * cur.hsdiv)` and `d` the double-precision quotient
`(fdco' - cur.fdco) / cur.fdco` of the double-precision difference,
`Si570_FindSmoothRFreqForFreq` returns true exactly when `|d| ≤ 0.0035` (the
literal as a double) and `4850 ≤ fdco' ≤ 5670`; it then wrote `n1`, `hsdiv` and
`fdco` of `cur` and `rfreq`, the double-precision quotient `fdco' / fxtal_calc`,
and left the new config unchanged when it returned false.  This holds for every
rounding `fd`.  When `fd` has the accuracy of double precision, `cur.fdco` is in
`[1, 2^64]` and `|f * cur.n1 * cur.hsdiv| ≤ 2^64`, an accepted step satisfies
`|f * cur.n1 * cur.hsdiv - cur.fdco| ≤ 0.0035 * (1 + 2^-43) * cur.fdco`. -/
theorem FindSmoothRFreqForFreq_rule (fd : ℚ → ℚ) (fxtal_calc : ℚ)
    (cur new_config : Si570_FreqConfig) (hpos : 0 < cur.fdco) :
    ((Si570_FindSmoothRFreqForFreq fd fxtal_calc cur new_config).1 = true ↔
      |fd (fd (fd (new_config.freq * (cur.n1 : ℚ) * (cur.hsdiv : ℚ)) - cur.fdco) / cur.fdco)| ≤
        fd 0.0035 ∧
      4850 ≤ fd (new_config.freq * (cur.n1 : ℚ) * (cur.hsdiv : ℚ)) ∧
      fd (new_config.freq * (cur.n1 : ℚ) * (cur.hsdiv : ℚ)) ≤ 5670) ∧
    ((Si570_FindSmoothRFreqForFreq fd fxtal_calc cur new_config).1 = true →
      (Si570_FindSmoothRFreqForFreq fd fxtal_calc cur new_config).2 =
        { hsdiv := cur.hsdiv, n1 := cur.n1, fdco := cur.fdco,
          rfreq := fd (fd (new_config.freq * (cur.n1 : ℚ) * (cur.hsdiv : ℚ)) / fxtal_calc),
          freq := new_config.freq }) ∧
    ((Si570_FindSmoothRFreqForFreq fd fxtal_calc cur new_config).1 = false →
      (Si570_FindSmoothRFreqForFreq fd fxtal_calc cur new_config).2 = new_config) ∧
    (DoubleAccurate fd → 1 ≤ cur.fdco → cur.fdco ≤ 2 ^ 64 →
      |new_config.freq * (cur.n1 : ℚ) * (cur.hsdiv : ℚ)| ≤ 2 ^ 64 →
      (Si570_FindSmoothRFreqForFreq fd fxtal_calc cur new_config).1 = true →
      |new_config.freq * (cur.n1 : ℚ) * (cur.hsdiv : ℚ) - cur.fdco| ≤
        0.0035 * (1 + 1 / 2 ^ 43) * cur.fdco) := by
  have hiff := smooth_iff fd fxtal_calc cur new_config
  refine ⟨⟨fun h => (hiff.mp h).2, fun h => hiff.mpr ⟨ne_of_gt hpos, h⟩⟩,
    smooth_accept fd fxtal_calc cur new_config, smooth_refuse fd fxtal_calc cur new_config,
    fun hfd h1 h2 hp h => ?_⟩
  obtain ⟨-, hQ, hlo, hhi⟩ := hiff.mp h
  exact smooth_margin fd hfd _ _ h1 h2 hp hQ hlo hhi

/-! ## Safe update protocol -/

theorem LargeFrequencyChange_returns (bus : I2CBus β) (os : OscillatorState) (n : Nat)
    (hpoll : ∀ b, (Si570_LargeFrequencyChange_poll bus os n b).isSome = true) (b : β) :
    (Si570_LargeFrequencyChange bus n os b).isSome = true := by
  unfold Si570_LargeFrequencyChange
  dsimp only
  obtain ⟨p, hp⟩ := Option.isSome_iff_exists.mp (hpoll (Si570_SetRegisterBits bus
    (Si570_ClearRegisterBits bus (Si570_LargeFrequencyChange_write bus os b).1
      os.si570_address SI570_REG_137 SI570_FREEZE_DCO).1
    os.si570_address SI570_REG_135 SI570_NEW_FREQ).1)
  rw [hp]
  split_ifs <;> rfl

theorem WriteRegs_returns (bus : I2CBus β) (os : OscillatorState) (n : Nat)
    (hpoll : ∀ b, (Si570_LargeFrequencyChange_poll bus os n b).isSome = true)
    (is_small : Bool) (b : β) :
    (Si570_WriteRegs bus n os is_small b).isSome = true := by
  unfold Si570_WriteRegs
  dsimp only
  split_ifs with h1
  · dsimp only
    split_ifs <;> rfl
  · have := LargeFrequencyChange_returns bus os n hpoll b
    obtain ⟨r, hr⟩ := Option.isSome_iff_exists.mp this
    rw [hr]
    dsimp only
    split_ifs <;> rfl

theorem ChangeToNextFrequency_returns (bus : I2CBus β) (os : OscillatorState) (n : Nat)
    (hpoll : ∀ b, (Si570_LargeFrequencyChange_poll bus os n b).isSome = true) (b : β) :
    (Si570_ChangeToNextFrequency bus n os b).isSome = true := by
  unfold Si570_ChangeToNextFrequency
  obtain ⟨r1, hr1⟩ := Option.isSome_iff_exists.mp (WriteRegs_returns bus os n hpoll os.next_is_small b)
  rw [hr1]
  dsimp only
  split_ifs with h
  · obtain ⟨r2, hr2⟩ := Option.isSome_iff_exists.mp (WriteRegs_returns bus os n hpoll false r1.1)
    rw [hr2]
    dsimp only
    split_ifs <;> rfl
  · dsimp only
    split_ifs <;> rfl

/-- C4: on every bus, `Si570_ChangeToNextFrequency` returns as soon as the poll of
the new-frequency bit ends, and when it returns `SI570_OK` then `cur_config` equals
`next_config`, when it returns anything else `cur_config` is the all-zero config;
`next_config`, `cur_regs` and every other field of the state are left as they
were. -/
theorem ChangeToNextFrequency_commit (bus : I2CBus β) (os : OscillatorState) (b : β) :
    (∀ n, (∀ b2, (Si570_LargeFrequencyChange_poll bus os n b2).isSome = true) →
      (Si570_ChangeToNextFrequency bus n os b).isSome = true) ∧
    (∀ fuel r os2 b2, Si570_ChangeToNextFrequency bus fuel os b = some (r, os2, b2) →
      (r = SI570_OK → os2.cur_config = os.next_config) ∧
      (r ≠ SI570_OK → os2.cur_config =
        { hsdiv := 0, n1 := 0, fdco := 0, rfreq := 0, freq := 0 }) ∧
      os2.next_config = os.next_config ∧ os2.cur_regs = os.cur_regs ∧
      os2 = { os with cur_config := os2.cur_config }) := by
  refine ⟨fun n hpoll => ChangeToNextFrequency_returns bus os n hpoll b, ?_⟩
  intro fuel r os2 b2 h
  unfold Si570_ChangeToNextFrequency at h
  split at h
  · simp at h
  · dsimp only at h
    split at h
    · simp at h
    · split_ifs at h with h1
      · simp only [Option.some.injEq, Prod.mk.injEq] at h
        obtain ⟨e1, e2, _⟩ := h
        subst e2
        exact ⟨fun _ => rfl, fun hne => absurd (e1 ▸ h1) hne, rfl, rfl, rfl⟩
      · simp only [Option.some.injEq, Prod.mk.injEq] at h
        obtain ⟨e1, e2, _⟩ := h
        subst e2
        exact ⟨fun he => absurd (e1 ▸ he) h1, fun _ => rfl, rfl, rfl, rfl⟩

theorem blockWrites_append (l1 l2 : List BusOp) :
    blockWrites (l1 ++ l2) = blockWrites l1 ++ blockWrites l2 := by
  induction l1 with
  | nil => rfl
  | cons a l ih => cases a <;> simp [blockWrites, ih]

theorem extends_refl (l : List BusOp) : Extends l l := ⟨[], rfl, rfl⟩

theorem extends_trans {l1 l2 l3 : List BusOp} (h1 : Extends l1 l2) (h2 : Extends l2 l3) :
    Extends l1 l3 := by
  obtain ⟨e1, rfl, b1⟩ := h1
  obtain ⟨e2, rfl, b2⟩ := h2
  exact ⟨e2 ++ e1, by simp, by rw [blockWrites_append, b1, b2]; rfl⟩

theorem Verify_log (bus : I2CBus β) (os : OscillatorState) (x : β × List BusOp) :
    ∃ ret data, (Si570_VerifyFrequencyRegisters (logged bus) os x).1.2 =
        BusOp.ReadData os.si570_address os.base_reg 6 ret data :: x.2 ∧
      ((Si570_VerifyFrequencyRegisters (logged bus) os x).2 = SI570_OK →
        ret = 0 ∧ data = os.cur_regs) := by
  refine ⟨(bus.ReadData x.1 os.si570_address os.base_reg 6).2.1,
    (bus.ReadData x.1 os.si570_address os.base_reg 6).2.2, rfl, ?_⟩
  unfold Si570_VerifyFrequencyRegisters Si570_ReadRegisters logged
  dsimp only
  split_ifs with h1 h2 h3 <;> simp_all

theorem Verify_extends (bus : I2CBus β) (os : OscillatorState) (x : β × List BusOp) :
    Extends x.2 (Si570_VerifyFrequencyRegisters (logged bus) os x).1.2 := by
  obtain ⟨ret, data, h, _⟩ := Verify_log bus os x
  exact ⟨[BusOp.ReadData os.si570_address os.base_reg 6 ret data], by rw [h]; rfl, rfl⟩

theorem SetRegisterBits_extends (bus : I2CBus β) (x : β × List BusOp) (a r v : Nat) :
    Extends x.2 (Si570_SetRegisterBits (logged bus) x a r v).1.2 := by
  unfold Si570_SetRegisterBits logged
  dsimp only
  split_ifs
  · exact ⟨[_, _], rfl, rfl⟩
  · exact ⟨[_], rfl, rfl⟩

/-- A clear attempt starts with a read of the register it is to change. -/
theorem ClearRegisterBits_log (bus : I2CBus β) (x : β × List BusOp) (a r v : Nat) :
    ∃ pre ret byte, (Si570_ClearRegisterBits (logged bus) x a r v).1.2 =
        pre ++ BusOp.ReadRegister a r ret byte :: x.2 ∧ blockWrites pre = [] := by
  unfold Si570_ClearRegisterBits logged
  dsimp only
  split_ifs
  · exact ⟨[_], _, _, rfl, rfl⟩
  · exact ⟨[], _, _, rfl, rfl⟩

theorem poll_extends (bus : I2CBus β) (os : OscillatorState) (fuel : Nat) :
    ∀ (x p : (β × List BusOp) × Nat),
      Si570_LargeFrequencyChange_poll (logged bus) os fuel x.1 = some p → Extends x.1.2 p.1.2 := by
  induction fuel with
  | zero => intro x p h; simp [Si570_LargeFrequencyChange_poll] at h
  | succ n ih =>
    intro x p h
    unfold Si570_LargeFrequencyChange_poll at h
    dsimp only at h
    have hstep : Extends x.1.2
        ((logged bus).ReadRegister x.1 os.si570_address SI570_REG_135).1.2 :=
      ⟨[_], rfl, rfl⟩
    split_ifs at h with h1
    · exact extends_trans hstep
        (ih (((logged bus).ReadRegister x.1 os.si570_address SI570_REG_135).1, 0) p h)
    · simp only [Option.some.injEq] at h
      rw [← h]
      exact hstep

theorem extends_atMost {l new : List BusOp} (os : OscillatorState) (h : Extends l new) :
    AtMostBlocks os 0 l new := by
  obtain ⟨evs, rfl, hb⟩ := h
  exact ⟨evs, rfl, by simp [hb], by simp [hb]⟩

theorem atMostBlocks_trans {os : OscillatorState} {n m : Nat} {l1 l2 l3 : List BusOp}
    (h1 : AtMostBlocks os n l1 l2) (h2 : AtMostBlocks os m l2 l3) :
    AtMostBlocks os (n + m) l1 l3 := by
  obtain ⟨e1, rfl, c1, p1⟩ := h1
  obtain ⟨e2, rfl, c2, p2⟩ := h2
  refine ⟨e2 ++ e1, by simp, ?_, ?_⟩
  · rw [blockWrites_append, List.length_append]; omega
  · intro e he
    rw [blockWrites_append, List.mem_append] at he
    rcases he with he | he
    · exact p2 e he
    · exact p1 e he

theorem atMostBlocks_mono {os : OscillatorState} {n m : Nat} {l1 l2 : List BusOp}
    (h : AtMostBlocks os n l1 l2) (hnm : n ≤ m) : AtMostBlocks os m l1 l2 := by
  obtain ⟨e1, rfl, c1, p1⟩ := h
  exact ⟨e1, rfl, by omega, p1⟩

theorem write_part_blocks (bus : I2CBus β) (os : OscillatorState) (x : β × List BusOp)
    (reg bit : Nat) (fail : Si570_ResultCodes) :
    AtMostBlocks os 1 x.2
      (let s := Si570_SetRegisterBits (logged bus) x os.si570_address reg bit
       if s.2.1 = 0 then
         let w := (logged bus).WriteBlock s.1 os.si570_address os.base_reg os.cur_regs 6
         if w.2 = 0 then Si570_VerifyFrequencyRegisters (logged bus) os w.1
         else (w.1, SI570_I2C_ERROR)
       else (s.1, fail)).1.2 := by
  have hs := extends_atMost os (SetRegisterBits_extends bus x os.si570_address reg bit)
  have hw : AtMostBlocks os 1
      (Si570_SetRegisterBits (logged bus) x os.si570_address reg bit).1.2
      ((logged bus).WriteBlock (Si570_SetRegisterBits (logged bus) x os.si570_address reg bit).1
        os.si570_address os.base_reg os.cur_regs 6).1.2 :=
    ⟨[BusOp.WriteBlock os.si570_address os.base_reg os.cur_regs 6 _], rfl, by simp [blockWrites],
      by simp [blockWrites]⟩
  dsimp only
  split_ifs with h1 h2
  · exact atMostBlocks_mono (atMostBlocks_trans hs (atMostBlocks_trans hw
      (extends_atMost os (Verify_extends bus os _)))) (by omega)
  · exact atMostBlocks_mono (atMostBlocks_trans hs hw) (by omega)
  · exact atMostBlocks_mono hs (by omega)

theorem Small_write_blocks (bus : I2CBus β) (os : OscillatorState) (x : β × List BusOp) :
    AtMostBlocks os 1 x.2 (Si570_SmallFrequencyChange_write (logged bus) os x).1.2 :=
  write_part_blocks bus os x SI570_REG_135 SI570_FREEZE_M SI570_OK

theorem Large_write_blocks (bus : I2CBus β) (os : OscillatorState) (x : β × List BusOp) :
    AtMostBlocks os 1 x.2 (Si570_LargeFrequencyChange_write (logged bus) os x).1.2 :=
  write_part_blocks bus os x SI570_REG_137 SI570_FREEZE_DCO SI570_I2C_ERROR

theorem Small_log (bus : I2CBus β) (os : OscillatorState) (x : β × List BusOp) :
    ∃ pre ret byte, (Si570_SmallFrequencyChange (logged bus) os x).1.2 =
        pre ++ BusOp.ReadRegister os.si570_address SI570_REG_135 ret byte ::
          (Si570_SmallFrequencyChange_write (logged bus) os x).1.2 ∧
      blockWrites pre = [] :=
  ClearRegisterBits_log bus _ _ _ _

theorem Large_log (bus : I2CBus β) (fuel : Nat) (os : OscillatorState) (x : β × List BusOp)
    (r : (β × List BusOp) × Si570_ResultCodes)
    (h : Si570_LargeFrequencyChange (logged bus) fuel os x = some r) :
    ∃ pre ret byte, r.1.2 =
        pre ++ BusOp.ReadRegister os.si570_address SI570_REG_137 ret byte ::
          (Si570_LargeFrequencyChange_write (logged bus) os x).1.2 ∧
      blockWrites pre = [] := by
  obtain ⟨pre, ret, byte, hc, hb⟩ := ClearRegisterBits_log bus
    (Si570_LargeFrequencyChange_write (logged bus) os x).1 os.si570_address SI570_REG_137
    SI570_FREEZE_DCO
  have hn := SetRegisterBits_extends bus (Si570_ClearRegisterBits (logged bus)
    (Si570_LargeFrequencyChange_write (logged bus) os x).1 os.si570_address SI570_REG_137
    SI570_FREEZE_DCO).1 os.si570_address SI570_REG_135 SI570_NEW_FREQ
  have fin : ∀ l : List BusOp, Extends (Si570_ClearRegisterBits (logged bus)
      (Si570_LargeFrequencyChange_write (logged bus) os x).1 os.si570_address SI570_REG_137
      SI570_FREEZE_DCO).1.2 l →
      ∃ pre ret byte, l =
        pre ++ BusOp.ReadRegister os.si570_address SI570_REG_137 ret byte ::
          (Si570_LargeFrequencyChange_write (logged bus) os x).1.2 ∧
      blockWrites pre = [] := by
    rintro l ⟨evs, rfl, he⟩
    exact ⟨evs ++ pre, ret, byte, by rw [hc]; simp, by rw [blockWrites_append, he, hb]; rfl⟩
  unfold Si570_LargeFrequencyChange at h
  dsimp only at h
  by_cases h1 : (Si570_ClearRegisterBits (logged bus)
      (Si570_LargeFrequencyChange_write (logged bus) os x).1 os.si570_address SI570_REG_137
      SI570_FREEZE_DCO).2.1 = 0 ∧ (Si570_LargeFrequencyChange_write (logged bus) os x).2 = SI570_OK
  · rw [if_pos h1] at h
    by_cases h2 : (Si570_SetRegisterBits (logged bus) (Si570_ClearRegisterBits (logged bus)
      (Si570_LargeFrequencyChange_write (logged bus) os x).1 os.si570_address SI570_REG_137
      SI570_FREEZE_DCO).1 os.si570_address SI570_REG_135 SI570_NEW_FREQ).2.1 = 0
    · rw [if_pos h2] at h
      split at h
      · simp at h
      · rename_i p hp
        simp only [Option.some.injEq] at h
        rw [← h]
        exact fin _ (extends_trans hn (poll_extends bus os fuel (_, 0) p hp))
    · rw [if_neg h2] at h
      simp only [Option.some.injEq] at h
      rw [← h]
      exact fin _ hn
  · rw [if_neg h1] at h
    simp only [Option.some.injEq] at h
    rw [← h]
    exact fin _ (extends_refl _)

theorem beforeUnfreeze_blocks (bus : I2CBus β) (os : OscillatorState) (is_small : Bool)
    (x : β × List BusOp) : AtMostBlocks os 1 x.2 (beforeUnfreeze bus os is_small x).2 := by
  unfold beforeUnfreeze
  split_ifs
  · exact Small_write_blocks bus os x
  · exact Large_write_blocks bus os x

theorem WriteRegs_log (bus : I2CBus β) (fuel : Nat) (os : OscillatorState) (is_small : Bool)
    (x : β × List BusOp) (r : (β × List BusOp) × Si570_ResultCodes)
    (h : Si570_WriteRegs (logged bus) fuel os is_small x = some r) :
    ∃ pre ret byte, r.1.2 =
        pre ++ BusOp.ReadRegister os.si570_address (freezeReg is_small) ret byte ::
          (beforeUnfreeze bus os is_small x).2 ∧
      blockWrites pre = [] ∧
      (r.2 = SI570_OK → ∃ pre2,
        pre = BusOp.ReadData os.si570_address os.base_reg 6 0 os.cur_regs :: pre2) := by
  have key : ∀ r1 : (β × List BusOp) × Si570_ResultCodes,
      (∃ pre ret byte, r1.1.2 =
        pre ++ BusOp.ReadRegister os.si570_address (freezeReg is_small) ret byte ::
          (beforeUnfreeze bus os is_small x).2 ∧ blockWrites pre = []) →
      (if r1.2 = SI570_OK then some (Si570_VerifyFrequencyRegisters (logged bus) os r1.1)
        else some r1) = some r →
      ∃ pre ret byte, r.1.2 =
        pre ++ BusOp.ReadRegister os.si570_address (freezeReg is_small) ret byte ::
          (beforeUnfreeze bus os is_small x).2 ∧
      blockWrites pre = [] ∧
      (r.2 = SI570_OK → ∃ pre2,
        pre = BusOp.ReadData os.si570_address os.base_reg 6 0 os.cur_regs :: pre2) := by
    rintro r1 ⟨pre, ret, byte, hl, hb⟩ hr
    split_ifs at hr with h1
    · simp only [Option.some.injEq] at hr
      obtain ⟨vret, vdata, hv, hok⟩ := Verify_log bus os r1.1
      rw [hr] at hv hok
      refine ⟨BusOp.ReadData os.si570_address os.base_reg 6 vret vdata :: pre, ret, byte,
        by rw [hv, hl]; rfl, by simpa [blockWrites] using hb, fun hr2 => ?_⟩
      obtain ⟨e1, e2⟩ := hok hr2
      exact ⟨pre, by rw [e1, e2]⟩
    · simp only [Option.some.injEq] at hr
      rw [← hr]
      exact ⟨pre, ret, byte, hl, hb, fun hr2 => absurd hr2 h1⟩
  unfold Si570_WriteRegs at h
  dsimp only at h
  cases is_small with
  | true =>
    simp only [if_true] at h
    refine key _ ?_ h
    simpa [freezeReg, beforeUnfreeze] using Small_log bus os x
  | false =>
    simp only [Bool.false_eq_true, if_false] at h
    split at h
    · simp at h
    · rename_i r1 hr1
      refine key r1 ?_ h
      simpa [freezeReg, beforeUnfreeze] using Large_log bus fuel os x r1 hr1

theorem WriteRegs_blocks (bus : I2CBus β) (fuel : Nat) (os : OscillatorState) (is_small : Bool)
    (x : β × List BusOp) (r : (β × List BusOp) × Si570_ResultCodes)
    (h : Si570_WriteRegs (logged bus) fuel os is_small x = some r) :
    AtMostBlocks os 1 x.2 r.1.2 := by
  obtain ⟨pre, ret, byte, hl, hb, _⟩ := WriteRegs_log bus fuel os is_small x r h
  have h1 := beforeUnfreeze_blocks bus os is_small x
  have h2 : Extends (beforeUnfreeze bus os is_small x).2 r.1.2 :=
    ⟨pre ++ [BusOp.ReadRegister os.si570_address (freezeReg is_small) ret byte],
      by rw [hl]; simp, by rw [blockWrites_append, hb]; rfl⟩
  exact atMostBlocks_mono (atMostBlocks_trans h1 (extends_atMost os h2)) (by omega)

/-- On every bus, when `Si570_WriteRegs` returns `SI570_OK` the last
operation it issued is a successful 6-byte block read at `base_reg` that returned
`cur_regs`, and it comes after the first read of the attempt to clear the freeze
bit, which itself follows everything up to the call of `Si570_ClearRegisterBits`;
and a commit that returns `SI570_OK` ends with such an attempt. -/
theorem WriteRegs_ok_verified (bus : I2CBus β) (fuel : Nat) (os : OscillatorState) :
    (∀ (is_small : Bool) (x y : β × List BusOp),
      Si570_WriteRegs (logged bus) fuel os is_small x = some (y, SI570_OK) →
      ∃ pre ret byte, y.2 =
        BusOp.ReadData os.si570_address os.base_reg 6 0 os.cur_regs :: pre ++
          BusOp.ReadRegister os.si570_address (freezeReg is_small) ret byte ::
            (beforeUnfreeze bus os is_small x).2) ∧
    (∀ (x y : β × List BusOp) (os2 : OscillatorState),
      Si570_ChangeToNextFrequency (logged bus) fuel os x = some (SI570_OK, os2, y) →
      ∃ is_small x2, Si570_WriteRegs (logged bus) fuel os is_small x2 = some (y, SI570_OK) ∧
        AtMostBlocks os 1 x.2 x2.2) := by
  constructor
  · intro is_small x y h
    obtain ⟨pre, ret, byte, hl, _, hok⟩ := WriteRegs_log bus fuel os is_small x _ h
    obtain ⟨pre2, rfl⟩ := hok rfl
    exact ⟨pre2, ret, byte, hl⟩
  · intro x y os2 h
    unfold Si570_ChangeToNextFrequency at h
    split at h
    · simp at h
    · rename_i r1 hr1
      dsimp only at h
      split at h
      · simp at h
      · rename_i r hr
        have hrOK : r = (y, SI570_OK) := by
          split_ifs at h with h1
          · simp only [Option.some.injEq, Prod.mk.injEq] at h
            exact Prod.ext h.2.2 h1
          · simp only [Option.some.injEq, Prod.mk.injEq] at h
            exact absurd h.1 h1
        subst hrOK
        split_ifs at hr with h2
        · exact ⟨false, r1.1, hr, WriteRegs_blocks bus fuel os _ x r1 hr1⟩
        · simp only [Option.some.injEq] at hr
          subst hr
          exact ⟨os.next_is_small, x, hr1, ⟨[], rfl, by simp [blockWrites], by simp [blockWrites]⟩⟩

/-- C6: on every bus, a commit that returns made a first attempt with
`next_is_small`; when that was a small step that ended in `SI570_ERROR_VERIFY` it
made a second attempt, a large step (it starts by reading register 137) whose
result is the result of the commit; in every other case nothing follows the first
attempt.  The commit issues at most two block writes, each of `cur_regs` at
`base_reg`. -/
theorem ChangeToNextFrequency_single_fallback (bus : I2CBus β) (fuel : Nat)
    (os os2 : OscillatorState) (x y : β × List BusOp) (r : Si570_ResultCodes)
    (h : Si570_ChangeToNextFrequency (logged bus) fuel os x = some (r, os2, y)) :
    ∃ r1, Si570_WriteRegs (logged bus) fuel os os.next_is_small x = some r1 ∧
      ((os.next_is_small = true ∧ r1.2 = SI570_ERROR_VERIFY) →
        Si570_WriteRegs (logged bus) fuel os false r1.1 = some (y, r) ∧
        ∃ pre ret byte, y.2 = pre ++
          BusOp.ReadRegister os.si570_address SI570_REG_137 ret byte ::
            (Si570_LargeFrequencyChange_write (logged bus) os r1.1).1.2) ∧
      (¬ (os.next_is_small = true ∧ r1.2 = SI570_ERROR_VERIFY) → r1 = (y, r)) ∧
      AtMostBlocks os 2 x.2 y.2 := by
  unfold Si570_ChangeToNextFrequency at h
  split at h
  · simp at h
  · rename_i r1 hr1
    dsimp only at h
    refine ⟨r1, hr1, ?_⟩
    have hb1 := WriteRegs_blocks bus fuel os _ x r1 hr1
    split at h
    · simp at h
    · rename_i r2 hr2
      have hr : r2 = (y, r) := by
        split_ifs at h with h1
        · simp only [Option.some.injEq, Prod.mk.injEq] at h
          exact Prod.ext h.2.2 h.1
        · simp only [Option.some.injEq, Prod.mk.injEq] at h
          exact Prod.ext h.2.2 h.1
      subst hr
      split_ifs at hr2 with h2
      · refine ⟨fun _ => ⟨hr2, ?_⟩, fun hn => absurd ⟨h2.2, h2.1⟩ hn, ?_⟩
        · obtain ⟨pre, ret, byte, hl, _, _⟩ := WriteRegs_log bus fuel os false r1.1 _ hr2
          exact ⟨pre, ret, byte, by simpa [freezeReg, beforeUnfreeze] using hl⟩
        · exact atMostBlocks_trans hb1 (WriteRegs_blocks bus fuel os _ r1.1 _ hr2)
      · simp only [Option.some.injEq] at hr2
        subst hr2
        exact ⟨fun hc => absurd ⟨hc.2, hc.1⟩ h2, fun _ => rfl, atMostBlocks_mono hb1 (by omega)⟩

/-! ## Register codec -/

theorem and_0xFF (x : Nat) : x &&& 0xFF = x % 256 := Nat.and_pow_two_sub_one_eq_mod x 8
theorem and_0x3F (x : Nat) : x &&& 0x3F = x % 64 := Nat.and_pow_two_sub_one_eq_mod x 6
theorem and_0x1F (x : Nat) : x &&& 0x1F = x % 32 := Nat.and_pow_two_sub_one_eq_mod x 5
theorem and_0x0F (x : Nat) : x &&& 0x0F = x % 16 := Nat.and_pow_two_sub_one_eq_mod x 4
theorem and_0x03 (x : Nat) : x &&& 3 = x % 4 := Nat.and_pow_two_sub_one_eq_mod x 2

theorem and_0xE0 (x : Nat) (hx : x < 256) : x &&& 0xE0 = x / 32 * 32 := by
  revert x; decide!
theorem and_0xC0 (x : Nat) (hx : x < 256) : x &&& 0xC0 = x / 64 * 64 := by
  revert x; decide!
theorem and_0xF0 (x : Nat) (hx : x < 256) : x &&& 0xF0 = x / 16 * 16 := by
  revert x; decide!

theorem setBits_0xE0 (o : Nat) (ho : o < 256) (n : Nat) (hn : n < 32) :
    Si570_SetBits o 0xE0 n = o / 32 * 32 + n := by
  revert o n; decide!
theorem setBits_0xC0 (o : Nat) (ho : o < 256) (n : Nat) (hn : n < 64) :
    Si570_SetBits o 0xC0 n = o / 64 * 64 + n := by
  revert o n; decide!
theorem setBits_0xF0 (o : Nat) (ho : o < 256) (n : Nat) (hn : n < 16) :
    Si570_SetBits o 0xF0 n = o / 16 * 16 + n := by
  revert o n; decide!
theorem setBits_0x0F (o : Nat) (ho : o < 256) (k : Nat) (hk : k < 16) :
    Si570_SetBits o 0x0F (k * 16) = o % 16 + k * 16 := by
  revert o k; decide!

theorem floor_int_add_frac (I F : ℕ) (hF : F < 268435456) :
    ⌊(I : ℚ) + (F : ℚ) / POW_2_28⌋ = (I : ℤ) := by
  rw [Int.floor_eq_iff]
  unfold POW_2_28
  have h1 : (0 : ℚ) ≤ (F : ℚ) / 268435456 := by positivity
  have h2 : (F : ℚ) / 268435456 < 1 := by
    rw [div_lt_one (by norm_num)]
    exact_mod_cast hF
  push_cast
  constructor <;> linarith

theorem floor_frac_scaled (I F : ℕ) :
    ⌊((I : ℚ) + (F : ℚ) / POW_2_28 - (I : ℚ)) * POW_2_28⌋ = (F : ℤ) := by
  have : ((I : ℚ) + (F : ℚ) / POW_2_28 - (I : ℚ)) * POW_2_28 = ((F : ℤ) : ℚ) := by
    unfold POW_2_28
    push_cast
    field_simp
    ring
  rw [this, Int.floor_intCast]

/-- In exact arithmetic the codec is reversible on bytes: decoding six bytes with
the field extraction of `Si570_ResetConfiguration` and encoding the result with
`Si570_ConfigToRegs` gives the same six bytes. -/
theorem codec_roundtrip_bytes_exact (b0 b1 b2 b3 b4 b5 : ℕ) (h0 : b0 < 256) (h1 : b1 < 256)
    (h2 : b2 < 256) (h3 : b3 < 256) (h4 : b4 < 256) (h5 : b5 < 256) (fdco freq : ℚ) :
    (Si570_ConfigToRegs id
      { hsdiv := (Si570_ResetConfiguration_decode [b0, b1, b2, b3, b4, b5]).1
        n1 := (Si570_ResetConfiguration_decode [b0, b1, b2, b3, b4, b5]).2.1
        rfreq := (Si570_ResetConfiguration_decode [b0, b1, b2, b3, b4, b5]).2.2
        fdco := fdco
        freq := freq }).2 = [b0, b1, b2, b3, b4, b5] := by
  unfold Si570_ResetConfiguration_decode Si570_ConfigToRegs
  simp only [id_eq, List.getD_cons_zero, List.getD_cons_succ]
  simp only [and_0xFF, and_0x3F, and_0x1F, and_0x0F, and_0x03, and_0xE0 b0 h0, and_0xC0 b1 h1,
    and_0xF0 b2 h2, Nat.shiftLeft_eq, Nat.shiftRight_eq_div_pow]
  norm_num only
  have hI : b1 % 64 * 16 + b2 / 16 * 16 / 16 < 1024 := by omega
  have hF : ((b2 % 16 * 256 + b3) * 256 + b4) * 256 + b5 < 268435456 := by omega
  have ew : toUInt16 ⌊((b1 % 64 * 16 + b2 / 16 * 16 / 16 : ℕ) : ℚ) +
      ((((b2 % 16 * 256 + b3) * 256 + b4) * 256 + b5 : ℕ) : ℚ) / POW_2_28⌋ =
      b1 % 64 * 16 + b2 / 16 * 16 / 16 := by
    rw [floor_int_add_frac _ _ hF]
    unfold toUInt16
    omega
  rw [ew]
  have ef : toUInt32 ⌊(((b1 % 64 * 16 + b2 / 16 * 16 / 16 : ℕ) : ℚ) +
      ((((b2 % 16 * 256 + b3) * 256 + b4) * 256 + b5 : ℕ) : ℚ) / POW_2_28 -
      ((b1 % 64 * 16 + b2 / 16 * 16 / 16 : ℕ) : ℚ)) * POW_2_28⌋ =
      ((b2 % 16 * 256 + b3) * 256 + b4) * 256 + b5 := by
    rw [floor_frac_scaled]
    unfold toUInt32
    omega
  rw [ef]
  rw [setBits_0xE0 _ (by omega) _ (by omega), setBits_0xC0 _ (by omega) _ (by omega),
    setBits_0xF0 0 (by norm_num) _ (by omega), setBits_0x0F _ (by omega) _ (by omega)]
  simp only [List.cons.injEq, and_true]
  refine ⟨?_, ?_, ?_, ?_, ?_, ?_⟩ <;> omega

theorem rfreq_parts (rfreq : ℚ) (h0 : 0 ≤ rfreq) (h1 : rfreq < 1024) :
    ∃ W F : ℕ, toUInt16 ⌊rfreq⌋ = W ∧ W < 1024 ∧
      toUInt32 ⌊(rfreq - (W : ℚ)) * POW_2_28⌋ = F ∧ F < 268435456 ∧
      (W : ℚ) + (F : ℚ) / POW_2_28 ≤ rfreq ∧
      rfreq < (W : ℚ) + (F : ℚ) / POW_2_28 + 1 / POW_2_28 := by
  have hw0 : 0 ≤ ⌊rfreq⌋ := Int.floor_nonneg.mpr h0
  have hw1 : ⌊rfreq⌋ < 1024 := Int.floor_lt.mpr (by exact_mod_cast h1)
  have ew : ((toUInt16 ⌊rfreq⌋ : ℕ) : ℤ) = ⌊rfreq⌋ := by unfold toUInt16; omega
  have ewq : ((toUInt16 ⌊rfreq⌋ : ℕ) : ℚ) = ((⌊rfreq⌋ : ℤ) : ℚ) := by exact_mod_cast ew
  have hfl := Int.floor_le rfreq
  have hlt := Int.lt_floor_add_one rfreq
  have hp : (0 : ℚ) < POW_2_28 := by unfold POW_2_28; norm_num
  have hf0 : 0 ≤ ⌊(rfreq - ((toUInt16 ⌊rfreq⌋ : ℕ) : ℚ)) * POW_2_28⌋ :=
    Int.floor_nonneg.mpr (mul_nonneg (by rw [ewq]; linarith) hp.le)
  have hf1 : ⌊(rfreq - ((toUInt16 ⌊rfreq⌋ : ℕ) : ℚ)) * POW_2_28⌋ < 268435456 := by
    rw [Int.floor_lt]
    have : rfreq - ((toUInt16 ⌊rfreq⌋ : ℕ) : ℚ) < 1 := by rw [ewq]; linarith
    calc (rfreq - ((toUInt16 ⌊rfreq⌋ : ℕ) : ℚ)) * POW_2_28 < 1 * POW_2_28 :=
          mul_lt_mul_of_pos_right this hp
      _ = ((268435456 : ℤ) : ℚ) := by unfold POW_2_28; norm_num
  have ef : ((toUInt32 ⌊(rfreq - ((toUInt16 ⌊rfreq⌋ : ℕ) : ℚ)) * POW_2_28⌋ : ℕ) : ℤ) =
      ⌊(rfreq - ((toUInt16 ⌊rfreq⌋ : ℕ) : ℚ)) * POW_2_28⌋ := by unfold toUInt32; omega
  have efq : ((toUInt32 ⌊(rfreq - ((toUInt16 ⌊rfreq⌋ : ℕ) : ℚ)) * POW_2_28⌋ : ℕ) : ℚ) =
      ((⌊(rfreq - ((toUInt16 ⌊rfreq⌋ : ℕ) : ℚ)) * POW_2_28⌋ : ℤ) : ℚ) := by exact_mod_cast ef
  have gfl := Int.floor_le ((rfreq - ((toUInt16 ⌊rfreq⌋ : ℕ) : ℚ)) * POW_2_28)
  have glt := Int.lt_floor_add_one ((rfreq - ((toUInt16 ⌊rfreq⌋ : ℕ) : ℚ)) * POW_2_28)
  refine ⟨_, _, rfl, by omega, rfl, by omega, ?_, ?_⟩
  · rw [efq]
    have := div_le_div_of_nonneg_right gfl hp.le
    rw [mul_div_assoc, div_self hp.ne', mul_one] at this
    linarith
  · rw [efq]
    have := div_lt_div_of_pos_right glt hp
    rw [add_div, mul_div_assoc, div_self hp.ne', mul_one] at this
    linarith

theorem ConfigToRegs_layout (config : Si570_FreqConfig) (W F : ℕ)
    (hh : 4 ≤ config.hsdiv ∧ config.hsdiv ≤ 11) (hn : 1 ≤ config.n1 ∧ config.n1 ≤ 128)
    (hW : toUInt16 ⌊config.rfreq⌋ = W) (hW2 : W < 1024)
    (hF : toUInt32 ⌊(config.rfreq - (W : ℚ)) * POW_2_28⌋ = F) (hF2 : F < 268435456) :
    (Si570_ConfigToRegs id config).2 = layout (config.hsdiv - 4) (config.n1 - 1) W F := by
  unfold Si570_ConfigToRegs layout
  simp only [id_eq, hW, hF]
  simp only [and_0xFF, and_0x3F, and_0x1F, and_0x0F, and_0x03, Nat.shiftLeft_eq,
    Nat.shiftRight_eq_div_pow]
  norm_num only
  rw [setBits_0xE0 _ (by omega) _ (by omega), setBits_0xC0 _ (by omega) _ (by omega),
    setBits_0xF0 0 (by norm_num) _ (by omega), setBits_0x0F _ (by omega) _ (by omega)]
  simp only [List.cons.injEq, and_true]
  refine ⟨?_, ?_, ?_⟩ <;> omega

theorem decode_layout (h n W F : ℕ) (hh : h < 8) (hn : n < 128) (hW : W < 1024)
    (hF : F < 268435456) :
    Si570_ResetConfiguration_decode (layout h n W F) =
      (h + 4, n + 1, (W : ℚ) + (F : ℚ) / POW_2_28) := by
  unfold Si570_ResetConfiguration_decode layout
  simp only [List.getD_cons_zero, List.getD_cons_succ]
  rw [and_0xE0 _ (by omega), and_0xC0 _ (by omega), and_0xF0 _ (by omega)]
  simp only [and_0xFF, and_0x3F, and_0x1F, and_0x0F, and_0x03, Nat.shiftLeft_eq,
    Nat.shiftRight_eq_div_pow]
  norm_num only
  have e1 : ((h * 32 + n / 4) / 32 * 32 / 32 + 4) % 256 = h + 4 := by omega
  have e2 : (1 + (h * 32 + n / 4) % 32 * 4 + (n % 4 * 64 + W / 16) / 64 * 64 / 64) % 256 =
      n + 1 := by omega
  have e3 : (n % 4 * 64 + W / 16) % 64 * 16 + (W % 16 * 16 + F / 16777216) / 16 * 16 / 16 =
      W := by omega
  have e4 : (((W % 16 * 16 + F / 16777216) % 16 * 256 + F / 65536 % 256) * 256 +
      F / 256 % 256) * 256 + F % 256 = F := by omega
  rw [e1, e2, e3, e4]

/-- In exact arithmetic, for `hsdiv` in 4..11, `n1` in 1..128 and
`0 ≤ rfreq < 1024`, decoding the image written by `Si570_ConfigToRegs` gives
`hsdiv` and `n1` back, and an `rfreq` below the original by less than `2^-28`. -/
theorem codec_roundtrip_config_exact (config : Si570_FreqConfig)
    (hh : 4 ≤ config.hsdiv ∧ config.hsdiv ≤ 11) (hn : 1 ≤ config.n1 ∧ config.n1 ≤ 128)
    (h0 : 0 ≤ config.rfreq) (h1 : config.rfreq < 1024) :
    (Si570_ResetConfiguration_decode (Si570_ConfigToRegs id config).2).1 = config.hsdiv ∧
    (Si570_ResetConfiguration_decode (Si570_ConfigToRegs id config).2).2.1 = config.n1 ∧
    0 ≤ config.rfreq - (Si570_ResetConfiguration_decode (Si570_ConfigToRegs id config).2).2.2 ∧
    config.rfreq - (Si570_ResetConfiguration_decode (Si570_ConfigToRegs id config).2).2.2 <
      1 / 2 ^ 28 := by
  obtain ⟨W, F, hW, hW2, hF, hF2, lo, hi⟩ := rfreq_parts config.rfreq h0 h1
  rw [ConfigToRegs_layout config W F hh hn hW hW2 hF hF2,
    decode_layout _ _ W F (by omega) (by omega) hW2 hF2]
  have hp : POW_2_28 = 2 ^ 28 := by unfold POW_2_28; norm_num
  rw [hp] at lo hi
  refine ⟨by dsimp only; omega, by dsimp only; omega, ?_, ?_⟩
  · dsimp only; rw [hp]; linarith
  · dsimp only; rw [hp]; linarith

/-! ## Prepare stage, calibration and startup -/

theorem search_found (fl : ℚ → ℚ) (fx : ℚ) (config : Si570_FreqConfig)
    (h : (Si570_FindConfigForFreq fl fx config).1 = true) :
    (Si570_FindConfigForFreq fl fx config).2.freq = config.freq ∧
    (Si570_FindConfigForFreq fl fx config).2.rfreq =
      config.freq * ((Si570_FindConfigForFreq fl fx config).2.n1 : ℚ) *
        ((Si570_FindConfigForFreq fl fx config).2.hsdiv : ℚ) / fx := by
  unfold Si570_FindConfigForFreq at h ⊢
  dsimp only at h ⊢
  split_ifs at h ⊢
  refine ⟨rfl, ?_⟩
  simp only [Si570_GetFDCOForFreq]
  push_cast
  ring

theorem search_failed (fl : ℚ → ℚ) (fx : ℚ) (config : Si570_FreqConfig)
    (h : (Si570_FindConfigForFreq fl fx config).1 = false) :
    (Si570_FindConfigForFreq fl fx config).2 = config := by
  unfold Si570_FindConfigForFreq at h ⊢
  dsimp only at h ⊢
  split_ifs at h ⊢ <;> rfl

/-- What `Si570_PrepareChangeFrequency` leaves alone, and the frequency it records. -/
theorem prepare_frame (fd fl : ℚ → ℚ) (os : OscillatorState) (f : ℚ) :
    (Si570_PrepareChangeFrequency fd fl os f).2.cur_config = os.cur_config ∧
    (Si570_PrepareChangeFrequency fd fl os f).2.fxtal = os.fxtal ∧
    (Si570_PrepareChangeFrequency fd fl os f).2.fxtal_ppm = os.fxtal_ppm ∧
    (Si570_PrepareChangeFrequency fd fl os f).2.fxtal_calc = os.fxtal_calc ∧
    (Si570_PrepareChangeFrequency fd fl os f).2.fout = os.fout ∧
    (Si570_PrepareChangeFrequency fd fl os f).2.si570_address = os.si570_address ∧
    (Si570_PrepareChangeFrequency fd fl os f).2.base_reg = os.base_reg ∧
    (Si570_PrepareChangeFrequency fd fl os f).2.present = os.present ∧
    (Si570_PrepareChangeFrequency fd fl os f).2.next_config.freq = f := by
  unfold Si570_PrepareChangeFrequency
  dsimp only
  by_cases hs : (Si570_FindSmoothRFreqForFreq fd os.fxtal_calc os.cur_config
      { os.next_config with freq := f }).1 = false
  · rw [if_pos hs]
    have e := smooth_refuse _ _ _ _ hs
    by_cases hc : (Si570_FindConfigForFreq fl os.fxtal_calc
        (Si570_FindSmoothRFreqForFreq fd os.fxtal_calc os.cur_config
          { os.next_config with freq := f }).2).1 = false
    · rw [if_pos hc]
      refine ⟨rfl, rfl, rfl, rfl, rfl, rfl, rfl, rfl, ?_⟩
      dsimp only
      rw [search_failed _ _ _ hc, e]
    · rw [if_neg hc]
      refine ⟨rfl, rfl, rfl, rfl, rfl, rfl, rfl, rfl, ?_⟩
      dsimp only
      rw [(search_found _ _ _ (by simpa using hc)).1, e]
  · rw [if_neg hs]
    refine ⟨rfl, rfl, rfl, rfl, rfl, rfl, rfl, rfl, ?_⟩
    dsimp only
    rw [smooth_accept _ _ _ _ (by simpa using hs)]

/-- A commit changes `cur_config` and nothing else of the oscillator state. -/
theorem commit_frame {β : Type} (bus : I2CBus β) (fuel : Nat) (os : OscillatorState) (b : β)
    (r : Si570_ResultCodes) (os2 : OscillatorState) (b2 : β)
    (h : Si570_ChangeToNextFrequency bus fuel os b = some (r, os2, b2)) :
    os2.next_config = os.next_config ∧ os2.fxtal = os.fxtal ∧ os2.fxtal_ppm = os.fxtal_ppm ∧
    os2.fxtal_calc = os.fxtal_calc ∧ os2.fout = os.fout ∧ os2.present = os.present ∧
    (r = SI570_OK → os2.cur_config = os.next_config) := by
  unfold Si570_ChangeToNextFrequency at h
  split at h
  · simp at h
  · dsimp only at h
    split at h
    · simp at h
    · split_ifs at h with h1
      · simp only [Option.some.injEq, Prod.mk.injEq] at h
        obtain ⟨e1, e2, _⟩ := h
        subst e2
        exact ⟨rfl, rfl, rfl, rfl, rfl, rfl, fun _ => rfl⟩
      · simp only [Option.some.injEq, Prod.mk.injEq] at h
        obtain ⟨e1, e2, _⟩ := h
        subst e2
        exact ⟨rfl, rfl, rfl, rfl, rfl, rfl, fun he => absurd (e1 ▸ he) h1⟩

/-- The two tests of `Si570_PrepareNextFrequency` on the adjusted frequency `adj`
that it computed, and the prepare it runs. -/
theorem PrepareNextFrequency_unfold (fd fl : ℚ → ℚ) (sram2 : ℕ) (os : OscillatorState)
    (freq : ℕ) (temp_factor : ℤ) (adj : ℚ)
    (hadj : fd ((freq : ℚ) * fd (1 + fd ((temp_factor : ℚ) / 14000000))) = adj) :
    Si570_PrepareNextFrequency fd fl sram2 os freq temp_factor =
      if Si570_IsPresent os = true then
        if adj ≤ SI570_HARD_MAX_FREQ ∧ adj ≥ SI570_HARD_MIN_FREQ then
          if (adj > SI570_MAX_FREQ ∨ adj < SI570_MIN_FREQ) ∧ sram2 ≠ 0x29 then
            if (Si570_PrepareChangeFrequency fd fl os (fd (adj / 1000000))).1 = SI570_OK then
              (SI570_TUNE_LIMITED,
                (Si570_PrepareChangeFrequency fd fl os (fd (adj / 1000000))).2)
            else Si570_PrepareChangeFrequency fd fl os (fd (adj / 1000000))
          else Si570_PrepareChangeFrequency fd fl os (fd (adj / 1000000))
        else (SI570_TUNE_IMPOSSIBLE, os)
      else (SI570_TUNE_IMPOSSIBLE, os) := by
  rw [← hadj]; rfl

/-- C12, as amended: with `adj` the adjusted frequency as the code computes it in
double precision, `freq * (1 + temp_factor / 14000000)` with the quotient, the sum
and the product each rounded, `Si570_PrepareNextFrequency` returns
`SI570_TUNE_IMPOSSIBLE` and leaves the whole oscillator state as it was when the
chip is not present or `adj` is below 3500000 or above 220000000; otherwise the
state it leaves is that of the prepare stage run on the double-precision quotient
`adj / 1000000`, which `next_config.freq` then holds.  This holds for every
rounding `fd`. -/
theorem PrepareNextFrequency_clamp (fd fl : ℚ → ℚ) (sram2 : ℕ) (os : OscillatorState)
    (freq : ℕ) (temp_factor : ℤ) :
    ((os.present = false ∨
        fd ((freq : ℚ) * fd (1 + fd ((temp_factor : ℚ) / 14000000))) < 3500000 ∨
        fd ((freq : ℚ) * fd (1 + fd ((temp_factor : ℚ) / 14000000))) > 220000000) →
      Si570_PrepareNextFrequency fd fl sram2 os freq temp_factor =
        (SI570_TUNE_IMPOSSIBLE, os)) ∧
    (¬ (os.present = false ∨
        fd ((freq : ℚ) * fd (1 + fd ((temp_factor : ℚ) / 14000000))) < 3500000 ∨
        fd ((freq : ℚ) * fd (1 + fd ((temp_factor : ℚ) / 14000000))) > 220000000) →
      (Si570_PrepareNextFrequency fd fl sram2 os freq temp_factor).2 =
        (Si570_PrepareChangeFrequency fd fl os
          (fd (fd ((freq : ℚ) * fd (1 + fd ((temp_factor : ℚ) / 14000000))) / 1000000))).2 ∧
      (Si570_PrepareNextFrequency fd fl sram2 os freq temp_factor).2.next_config.freq =
        fd (fd ((freq : ℚ) * fd (1 + fd ((temp_factor : ℚ) / 14000000))) / 1000000)) := by
  rw [PrepareNextFrequency_unfold fd fl sram2 os freq temp_factor _ rfl]
  generalize fd ((freq : ℚ) * fd (1 + fd ((temp_factor : ℚ) / 14000000))) = adj
  have hpres : Si570_IsPresent os = true ↔ os.present = true := by
    unfold Si570_IsPresent; simp
  constructor
  · intro h
    by_cases hp : Si570_IsPresent os = true
    · rw [if_pos hp]
      have hp' := hpres.mp hp
      rcases h with h | h | h
      · rw [hp'] at h; simp at h
      · rw [if_neg]
        unfold SI570_HARD_MIN_FREQ
        intro hc; linarith [hc.2]
      · rw [if_neg]
        unfold SI570_HARD_MAX_FREQ
        intro hc; linarith [hc.1]
    · rw [if_neg hp]
  · intro h
    push_neg at h
    obtain ⟨hp, hlo, hhi⟩ := h
    have hp' : Si570_IsPresent os = true := hpres.mpr (by simpa using hp)
    rw [if_pos hp', if_pos ⟨by unfold SI570_HARD_MAX_FREQ; exact hhi,
      by unfold SI570_HARD_MIN_FREQ; exact hlo⟩]
    have hf := (prepare_frame fd fl os (fd (adj / 1000000))).2.2.2.2.2.2.2.2
    split_ifs <;> exact ⟨rfl, hf⟩

/-- C13, as amended: with `adj` the adjusted frequency as the code computes it in
double precision, for a present chip, `adj` inside [3500000, 220000000] and a
prepare stage that returned `SI570_OK`, `Si570_PrepareNextFrequency` returns
`SI570_TUNE_LIMITED` exactly when `adj` is below 10000000 or above 160000000 and
the word read at `SRAM2_BASE + 5` is not 0x29, and `SI570_OK` in every other
case.  This holds for every rounding `fd`. -/
theorem PrepareNextFrequency_limited (fd fl : ℚ → ℚ) (sram2 : ℕ) (os : OscillatorState)
    (freq : ℕ) (temp_factor : ℤ) (hp : os.present = true)
    (hlo : 3500000 ≤ fd ((freq : ℚ) * fd (1 + fd ((temp_factor : ℚ) / 14000000))))
    (hhi : fd ((freq : ℚ) * fd (1 + fd ((temp_factor : ℚ) / 14000000))) ≤ 220000000)
    (hok : (Si570_PrepareChangeFrequency fd fl os
      (fd (fd ((freq : ℚ) * fd (1 + fd ((temp_factor : ℚ) / 14000000))) / 1000000))).1 =
        SI570_OK) :
    ((Si570_PrepareNextFrequency fd fl sram2 os freq temp_factor).1 = SI570_TUNE_LIMITED ↔
      (fd ((freq : ℚ) * fd (1 + fd ((temp_factor : ℚ) / 14000000))) < 10000000 ∨
        fd ((freq : ℚ) * fd (1 + fd ((temp_factor : ℚ) / 14000000))) > 160000000) ∧
        sram2 ≠ 0x29) ∧
    (¬ ((fd ((freq : ℚ) * fd (1 + fd ((temp_factor : ℚ) / 14000000))) < 10000000 ∨
        fd ((freq : ℚ) * fd (1 + fd ((temp_factor : ℚ) / 14000000))) > 160000000) ∧
        sram2 ≠ 0x29) →
      (Si570_PrepareNextFrequency fd fl sram2 os freq temp_factor).1 = SI570_OK) := by
  rw [PrepareNextFrequency_unfold fd fl sram2 os freq temp_factor _ rfl]
  generalize fd ((freq : ℚ) * fd (1 + fd ((temp_factor : ℚ) / 14000000))) = adj at *
  have hp' : Si570_IsPresent os = true := by unfold Si570_IsPresent; simp [hp]
  rw [if_pos hp', if_pos ⟨by unfold SI570_HARD_MAX_FREQ; exact hhi,
    by unfold SI570_HARD_MIN_FREQ; exact hlo⟩]
  by_cases hc : (adj > SI570_MAX_FREQ ∨ adj < SI570_MIN_FREQ) ∧ sram2 ≠ 0x29
  · rw [if_pos hc, if_pos hok]
    have hc' : (adj < 10000000 ∨ adj > 160000000) ∧ sram2 ≠ 0x29 := by
      unfold SI570_MAX_FREQ SI570_MIN_FREQ at hc
      exact ⟨hc.1.symm, hc.2⟩
    exact ⟨⟨fun _ => hc', fun _ => rfl⟩, fun hn => absurd hc' hn⟩
  · rw [if_neg hc]
    have hc' : ¬ ((adj < 10000000 ∨ adj > 160000000) ∧ sram2 ≠ 0x29) := by
      unfold SI570_MAX_FREQ SI570_MIN_FREQ at hc
      exact fun h => hc ⟨h.1.symm, h.2⟩
    refine ⟨⟨fun h => ?_, fun h => absurd h hc'⟩, fun _ => hok⟩
    rw [hok] at h
    exact absurd h (by decide)

/-- A prepare that marks the step as small took the smooth-step branch. -/
theorem prepare_small (fd fl : ℚ → ℚ) (os : OscillatorState) (f : ℚ)
    (h : (Si570_PrepareChangeFrequency fd fl os f).2.next_is_small = true) :
    (Si570_FindSmoothRFreqForFreq fd os.fxtal_calc os.cur_config
      { os.next_config with freq := f }).1 = true ∧
    (Si570_PrepareChangeFrequency fd fl os f).2.next_config =
      (Si570_FindSmoothRFreqForFreq fd os.fxtal_calc os.cur_config
        { os.next_config with freq := f }).2 := by
  unfold Si570_PrepareChangeFrequency at h ⊢
  dsimp only at h ⊢
  by_cases hs : (Si570_FindSmoothRFreqForFreq fd os.fxtal_calc os.cur_config
      { os.next_config with freq := f }).1 = false
  · rw [if_pos hs] at h
    split_ifs at h <;> dsimp only at h <;> rw [hs] at h <;> simp at h
  · rw [if_neg hs]
    exact ⟨by simpa using hs, rfl⟩

/-- C15, as amended: along every run of consecutive prepare and commit cycles that
are all accepted as small steps and all committed with `SI570_OK`, `cur_config`
keeps the `n1`, `hsdiv` and `fdco` it had at the start, and every target `f` of
the run passed the double-precision test of the code against the `n1`, `hsdiv`,
`fdco` of the start: `fdco ≠ 0`, the double-precision quotient
`(fdco' - fdco) / fdco` has magnitude at most 0.0035 (the literal as a double),
and `4850 ≤ fdco' ≤ 5670`, with `fdco'` the double-precision product
`f * (n1 * hsdiv)`.  This holds for every rounding `fd`.  When `fd` has the
accuracy of double precision, the `fdco` of the start is in `[1, 2^64]` and the
targets have `|f * n1 * hsdiv| ≤ 2^64`, every target satisfies
`|f * n1 * hsdiv - fdco| ≤ 0.0035 * (1 + 2^-43) * fdco`. -/
theorem small_steps_no_drift (fd fl : ℚ → ℚ) (bus : I2CBus β) (os : OscillatorState) (b : β)
    (fs : List ℚ) (os2 : OscillatorState) (b2 : β)
    (h : SmallChain fd fl bus os b fs os2 b2) :
    os2.cur_config.n1 = os.cur_config.n1 ∧ os2.cur_config.hsdiv = os.cur_config.hsdiv ∧
    os2.cur_config.fdco = os.cur_config.fdco ∧
    (∀ f ∈ fs, os.cur_config.fdco ≠ 0 ∧
      |fd (fd (fd (f * (os.cur_config.n1 : ℚ) * (os.cur_config.hsdiv : ℚ)) -
        os.cur_config.fdco) / os.cur_config.fdco)| ≤ fd 0.0035 ∧
      4850 ≤ fd (f * (os.cur_config.n1 : ℚ) * (os.cur_config.hsdiv : ℚ)) ∧
      fd (f * (os.cur_config.n1 : ℚ) * (os.cur_config.hsdiv : ℚ)) ≤ 5670) ∧
    (DoubleAccurate fd → 1 ≤ os.cur_config.fdco → os.cur_config.fdco ≤ 2 ^ 64 →
      ∀ f ∈ fs, |f * (os.cur_config.n1 : ℚ) * (os.cur_config.hsdiv : ℚ)| ≤ 2 ^ 64 →
        |f * (os.cur_config.n1 : ℚ) * (os.cur_config.hsdiv : ℚ) - os.cur_config.fdco| ≤
          0.0035 * (1 + 1 / 2 ^ 43) * os.cur_config.fdco) := by
  have main : os2.cur_config.n1 = os.cur_config.n1 ∧
      os2.cur_config.hsdiv = os.cur_config.hsdiv ∧
      os2.cur_config.fdco = os.cur_config.fdco ∧
      (∀ f ∈ fs, os.cur_config.fdco ≠ 0 ∧
        |fd (fd (fd (f * (os.cur_config.n1 : ℚ) * (os.cur_config.hsdiv : ℚ)) -
          os.cur_config.fdco) / os.cur_config.fdco)| ≤ fd 0.0035 ∧
        4850 ≤ fd (f * (os.cur_config.n1 : ℚ) * (os.cur_config.hsdiv : ℚ)) ∧
        fd (f * (os.cur_config.n1 : ℚ) * (os.cur_config.hsdiv : ℚ)) ≤ 5670) := by
    induction h with
    | done os b => exact ⟨rfl, rfl, rfl, fun f hf => by simp at hf⟩
    | cycle os b f fuel os1 b1 fs os2 b2 hsmall hcommit hrest ih =>
      obtain ⟨hacc, hnext⟩ := prepare_small fd fl os f hsmall
      have hcfg := smooth_accept _ _ _ _ hacc
      have hdev := (smooth_iff _ _ _ _).mp hacc
      have hc := (commit_frame bus fuel _ b _ os1 b1 hcommit).2.2.2.2.2.2 rfl
      rw [hnext, hcfg] at hc
      have e1 : os1.cur_config.n1 = os.cur_config.n1 := by rw [hc]
      have e2 : os1.cur_config.hsdiv = os.cur_config.hsdiv := by rw [hc]
      have e3 : os1.cur_config.fdco = os.cur_config.fdco := by rw [hc]
      obtain ⟨i1, i2, i3, i4⟩ := ih
      rw [e1, e2, e3] at i4
      refine ⟨i1.trans e1, i2.trans e2, i3.trans e3, fun g hg => ?_⟩
      rcases List.mem_cons.mp hg with rfl | hg
      · exact hdev
      · exact i4 g hg
  refine ⟨main.1, main.2.1, main.2.2.1, main.2.2.2, fun hfd h1 h2 f hf hp => ?_⟩
  obtain ⟨-, hQ, hlo, hhi⟩ := main.2.2.2 f hf
  exact smooth_margin fd hfd _ _ h1 h2 hp hQ hlo hhi

theorem be48_layout (h n W F : ℕ) (hh : h < 8) (hn : n < 128) (hW : W < 1024)
    (hF : F < 268435456) :
    be48 (layout h n W F) = h * 2 ^ 45 + n * 2 ^ 38 + W * 2 ^ 28 + F := by
  unfold be48 layout
  simp only [List.foldl_cons, List.foldl_nil]
  norm_num only
  omega

/-- In exact arithmetic the six bytes written by `Si570_ConfigToRegs`, read as one
48-bit big-endian number, are `(hsdiv - 4) * 2^45 + (n1 - 1) * 2^38 + ⌊rfreq * 2^28⌋`. -/
theorem ConfigToRegs_be48_exact (config : Si570_FreqConfig)
    (hh : 4 ≤ config.hsdiv ∧ config.hsdiv ≤ 11) (hn : 1 ≤ config.n1 ∧ config.n1 ≤ 128)
    (h0 : 0 ≤ config.rfreq) (h1 : config.rfreq < 1024) :
    ((be48 (Si570_ConfigToRegs id config).2 : ℕ) : ℤ) =
      ((config.hsdiv - 4 : ℕ) : ℤ) * 2 ^ 45 + ((config.n1 - 1 : ℕ) : ℤ) * 2 ^ 38 +
        ⌊config.rfreq * 2 ^ 28⌋ := by
  obtain ⟨W, F, hW, hW2, hF, hF2, hle, hlt⟩ := rfreq_parts config.rfreq h0 h1
  rw [ConfigToRegs_layout config W F hh hn hW hW2 hF hF2,
    be48_layout _ _ W F (by omega) (by omega) hW2 hF2]
  have hfloor : ⌊config.rfreq * 2 ^ 28⌋ = (W : ℤ) * 2 ^ 28 + (F : ℤ) := by
    rw [Int.floor_eq_iff]
    unfold POW_2_28 at hle hlt
    push_cast
    constructor
    · linarith
    · linarith
  rw [hfloor]
  push_cast
  ring

/-- C20: for every two raw bytes, `Si570_ConvExternalTemp` returns the quotient,
truncated toward zero, of `(256 * s + b1) * 10000` by 256 with `s` the signed
value of `b0`; the product stays within the 32-bit signed range (its magnitude
is at most 327680000); and the result is non-decreasing in the raw value
`256 * s + b1`. -/
theorem ConvExternalTemp_spec (b0 b1 : ℕ) (h0 : b0 < 256) (h1 : b1 < 256) :
    Si570_ConvExternalTemp [b0, b1] =
      Int.tdiv ((256 * toInt8 b0 + (b1 : ℤ)) * 10000) 256 ∧
    -327680000 ≤ (256 * toInt8 b0 + (b1 : ℤ)) * 10000 ∧
    (256 * toInt8 b0 + (b1 : ℤ)) * 10000 ≤ 327680000 ∧
    (-2147483648 ≤ (256 * toInt8 b0 + (b1 : ℤ)) * 10000 ∧
      (256 * toInt8 b0 + (b1 : ℤ)) * 10000 ≤ 2147483647) ∧
    ∀ c0 c1 : ℕ, c0 < 256 → c1 < 256 →
      256 * toInt8 b0 + (b1 : ℤ) ≤ 256 * toInt8 c0 + (c1 : ℤ) →
      Si570_ConvExternalTemp [b0, b1] ≤ Si570_ConvExternalTemp [c0, c1] := by
  have key : ∀ a0 a1 : ℕ, a0 < 256 → a1 < 256 →
      Si570_ConvExternalTemp [a0, a1] =
        Int.tdiv ((256 * toInt8 a0 + (a1 : ℤ)) * 10000) 256 ∧
      -32768 ≤ 256 * toInt8 a0 + (a1 : ℤ) ∧ 256 * toInt8 a0 + (a1 : ℤ) ≤ 32767 := by
    intro a0 a1 ha0 ha1
    have hs : -128 ≤ toInt8 a0 ∧ toInt8 a0 ≤ 127 := by
      unfold toInt8; split_ifs <;> omega
    unfold Si570_ConvExternalTemp
    simp only [List.getD_cons_zero, List.getD_cons_succ]
    have e1 : ((a1 % 256 : ℕ) : ℤ) = (a1 : ℤ) := by omega
    have e2 : toInt32 (((a1 % 256 : ℕ) : ℤ) + toInt8 a0 * 256) = 256 * toInt8 a0 + (a1 : ℤ) := by
      unfold toInt32; omega
    have e3 : toInt32 ((256 * toInt8 a0 + (a1 : ℤ)) * 10000) =
        (256 * toInt8 a0 + (a1 : ℤ)) * 10000 := by
      unfold toInt32; omega
    rw [e2, e3]
    exact ⟨rfl, by omega, by omega⟩
  obtain ⟨e, lo, hi⟩ := key b0 b1 h0 h1
  refine ⟨e, by omega, by omega, ⟨by omega, by omega⟩, ?_⟩
  intro c0 c1 hc0 hc1 hle
  obtain ⟨e', lo', hi'⟩ := key c0 c1 hc0 hc1
  rw [e, e']
  generalize 256 * toInt8 b0 + (b1 : ℤ) = x at *
  generalize 256 * toInt8 c0 + (c1 : ℤ) = y at *
  have ht : ∀ z : ℤ, Int.tdiv (z * 10000) 256 =
      if 0 ≤ z then (z * 10000) / 256 else -((-z * 10000) / 256) := by
    intro z
    split_ifs with hz
    · exact Int.tdiv_eq_ediv (by omega) (by omega)
    · have : z * 10000 = -(-z * 10000) := by ring
      rw [this, Int.neg_tdiv, Int.tdiv_eq_ediv (by omega) (by omega)]
  rw [ht x, ht y]
  split_ifs <;> omega

theorem ConvExternalTemp_spec_witness :
    Si570_ConvExternalTemp [0xE7, 0x80] = Int.tdiv ((256 * toInt8 0xE7 + 128) * 10000) 256 :=
  (ConvExternalTemp_spec 0xE7 0x80 (by decide) (by decide)).1

theorem reset_poll_code (bus : I2CBus β) (os : OscillatorState) (n : ℕ) :
    ∀ (i : ℕ) (b : β), (Si570_ResetConfiguration_poll bus os n i b).1 ≤ 3 := by
  induction n with
  | zero => intro i b; simp [Si570_ResetConfiguration_poll]
  | succ n ih =>
    intro i b
    unfold Si570_ResetConfiguration_poll
    dsimp only
    split_ifs
    · simp
    · simp
    · exact ih _ _
    · simp

/-- Of the return codes of `Si570_ResetConfiguration` only 4 leaves the presence
flag cleared: the branch that decodes `cur_regs` and sets the flag also runs for
the codes 1, 2 and 3. -/
theorem ResetConfiguration_present_iff (fl : ℚ → ℚ) (bus : I2CBus β) (fuel : ℕ)
    (os : OscillatorState) (b : β) (r : ℕ) (os2 : OscillatorState) (b2 : β)
    (h : Si570_ResetConfiguration fl bus fuel os b = some (r, os2, b2)) :
    (Si570_IsPresent os2 = true ↔ r ≠ 4) ∧ r ≤ 4 := by
  unfold Si570_ResetConfiguration at h
  dsimp only at h
  have hpoll := reset_poll_code bus
    { os with fxtal := FACTORY_FXTAL, present := false } 30 0
    (bus.WriteRegister b os.si570_address SI570_REG_135 SI570_RECALL).1
  generalize Si570_ResetConfiguration_poll bus
    { os with fxtal := FACTORY_FXTAL, present := false } 30 0
    (bus.WriteRegister b os.si570_address SI570_REG_135 SI570_RECALL).1 = P at h hpoll
  generalize hp : (if (bus.WriteRegister b os.si570_address SI570_REG_135 SI570_RECALL).2 ≠ 0
    then (1, (bus.WriteRegister b os.si570_address SI570_REG_135 SI570_RECALL).1) else P) = p at h
  have hp3 : p.1 ≤ 3 := by
    rw [← hp]; split_ifs
    · simp
    · exact hpoll
  by_cases h0 : p.1 = 0
  · simp only [h0, if_true, true_and] at h
    split_ifs at h with hr
    · simp only [Option.some.injEq, Prod.mk.injEq] at h
      obtain ⟨e1, e2, -⟩ := h
      subst e1 e2
      simp [Si570_IsPresent]
    · split at h
      · simp at h
      · simp only [Option.some.injEq, Prod.mk.injEq] at h
        obtain ⟨e1, e2, -⟩ := h
        subst e1 e2
        simp [Si570_IsPresent]
  · simp only [h0, if_false, false_and] at h
    split at h
    · simp at h
    · simp only [Option.some.injEq, Prod.mk.injEq] at h
      obtain ⟨e1, e2, -⟩ := h
      subst e1 e2
      refine ⟨?_, by omega⟩
      simp only [Si570_IsPresent, beq_self_eq_true, true_iff]
      omega

theorem snap_skip (entry x : ℚ) (rest : List ℚ) (he : entry ≠ 0) (hd : 0.2 ≤ |x - entry|) :
    Si570_Init_snap id (entry :: rest) x = Si570_Init_snap id rest x := by
  conv_lhs => unfold Si570_Init_snap
  simp only [id, ne_eq, he, not_false_eq_true, if_true]
  have hn : ¬ (if x - entry < 0 then -(x - entry) else x - entry) < 0.2 := by
    split_ifs with hneg
    · rw [abs_of_neg hneg] at hd; exact not_lt.mpr hd
    · rw [abs_of_nonneg (not_lt.mp hneg)] at hd; exact not_lt.mpr hd
  rw [if_neg hn]

theorem snap_hit (entry x : ℚ) (rest : List ℚ) (he : entry ≠ 0) (hd : |x - entry| < 0.2) :
    Si570_Init_snap id (entry :: rest) x = entry := by
  unfold Si570_Init_snap
  simp only [id, ne_eq, he, not_false_eq_true, if_true]
  have hn : (if x - entry < 0 then -(x - entry) else x - entry) < 0.2 := by
    split_ifs with hneg
    · rw [abs_of_neg hneg] at hd; exact hd
    · rw [abs_of_nonneg (not_lt.mp hneg)] at hd; exact hd
  rw [if_pos hn]

/-- In exact arithmetic every startup frequency within 0.2 of 56.32 is snapped to
56.32 by the table search of `Si570_Init`. -/
theorem Init_snap_5632 (x : ℚ) (h : |x - 56.32| < 0.2) :
    Si570_Init_snap id suf_table x = 56.32 := by
  obtain ⟨h1, h2⟩ := abs_lt.mp h
  have far : ∀ e : ℚ, e ≤ 34.285 → 0.2 ≤ |x - e| := by
    intro e he
    refine le_trans ?_ (le_abs_self _)
    norm_num at he h1 ⊢
    linarith
  unfold suf_table
  rw [snap_skip _ _ _ (by norm_num) (far _ (by norm_num)),
    snap_skip _ _ _ (by norm_num) (far _ (by norm_num)),
    snap_skip _ _ _ (by norm_num) (far _ (by norm_num)),
    snap_skip _ _ _ (by norm_num) (far _ (by norm_num)),
    snap_skip _ _ _ (by norm_num) (far _ (by norm_num)),
    snap_skip _ _ _ (by norm_num) (far _ (by norm_num)),
    snap_skip _ _ _ (by norm_num) (far _ (by norm_num)),
    snap_skip _ _ _ (by norm_num) (far _ (by norm_num)),
    snap_hit _ _ _ (by norm_num) h]

/-! ## Freeze bracket -/

theorem or_setsOnlyBit (j byte : ℕ) (hj : j < 8) : SetsOnlyBit j byte ((byte ||| 2 ^ j) % 256) := by
  intro k
  have e : (256 : ℕ) = 2 ^ 8 := by norm_num
  rw [e, Nat.testBit_mod_two_pow, Nat.testBit_or, Nat.testBit_two_pow]
  by_cases hk : k = j
  · subst hk; simp
  · have : ¬ j = k := fun h => hk h.symm
    simp [hk, this]

theorem and_clearsOnlyBit (j byte : ℕ) (hj : j < 8) :
    ClearsOnlyBit j byte ((byte &&& (0xFFFFFFFF ^^^ 2 ^ j)) % 256) := by
  intro k
  have e : (256 : ℕ) = 2 ^ 8 := by norm_num
  have e2 : (0xFFFFFFFF : ℕ) = 2 ^ 32 - 1 := by norm_num
  rw [e, e2, Nat.testBit_mod_two_pow, Nat.testBit_and, Nat.testBit_xor,
    Nat.testBit_two_pow_sub_one, Nat.testBit_two_pow]
  by_cases hk8 : k < 8
  · have hk32 : k < 32 := by omega
    by_cases hk : k = j
    · subst hk; simp [hk8, hk32]
    · have : ¬ j = k := fun h => hk h.symm
      simp [hk8, hk32, hk, this]
  · simp [hk8]

theorem SetRegisterBits_attempt (bus : I2CBus β) (x : β × List BusOp) (a r j : ℕ) (hj : j < 8) :
    ∃ ok evs, SetAttempt a r j ok evs ∧
      (Si570_SetRegisterBits (logged bus) x a r (2 ^ j)).1.2 = evs ++ x.2 ∧
      (ok = true ↔ (Si570_SetRegisterBits (logged bus) x a r (2 ^ j)).2.1 = 0) := by
  unfold Si570_SetRegisterBits logged
  dsimp only
  by_cases h : (bus.ReadRegister x.1 a r).2.1 = 0
  · rw [if_pos h]
    dsimp only
    refine ⟨decide ((bus.WriteRegister (bus.ReadRegister x.1 a r).1 a r
        (((bus.ReadRegister x.1 a r).2.2 ||| 2 ^ j) % 256)).2 = 0), _,
      Or.inr ⟨(bus.ReadRegister x.1 a r).2.2, _, _, or_setsOnlyBit j _ hj, rfl, rfl⟩, ?_, by simp⟩
    rw [h]
    rfl
  · rw [if_neg h]
    exact ⟨false, _, Or.inl ⟨_, _, h, rfl, rfl⟩, rfl, by simp [h]⟩

theorem ClearRegisterBits_attempt (bus : I2CBus β) (x : β × List BusOp) (a r j : ℕ)
    (hj : j < 8) :
    ∃ ok evs, ClearAttempt a r j ok evs ∧
      (Si570_ClearRegisterBits (logged bus) x a r (2 ^ j)).1.2 = evs ++ x.2 ∧
      (ok = true ↔ (Si570_ClearRegisterBits (logged bus) x a r (2 ^ j)).2.1 = 0) := by
  unfold Si570_ClearRegisterBits logged
  dsimp only
  by_cases h : (bus.ReadRegister x.1 a r).2.1 = 0
  · rw [if_pos h]
    dsimp only
    refine ⟨decide ((bus.WriteRegister (bus.ReadRegister x.1 a r).1 a r
        (((bus.ReadRegister x.1 a r).2.2 &&& (0xFFFFFFFF ^^^ 2 ^ j)) % 256)).2 = 0), _,
      Or.inr ⟨(bus.ReadRegister x.1 a r).2.2, _, _, and_clearsOnlyBit j _ hj, rfl, rfl⟩, ?_,
      by simp⟩
    rw [h]
    rfl
  · rw [if_neg h]
    exact ⟨false, _, Or.inl ⟨_, _, h, rfl, rfl⟩, rfl, by simp [h]⟩

/-- The shape of the first part of a frequency change, up to the call of
`Si570_ClearRegisterBits`: the freeze attempt, then the block phase. -/
theorem write_part_shape (bus : I2CBus β) (os : OscillatorState) (x : β × List BusOp)
    (reg j : ℕ) (hj : j < 8) (fail : Si570_ResultCodes) :
    ∃ ok matched frz body, SetAttempt os.si570_address reg j ok frz ∧
      BlockPhase os ok matched body ∧
      (let s := Si570_SetRegisterBits (logged bus) x os.si570_address reg (2 ^ j)
       if s.2.1 = 0 then
         let w := (logged bus).WriteBlock s.1 os.si570_address os.base_reg os.cur_regs 6
         if w.2 = 0 then Si570_VerifyFrequencyRegisters (logged bus) os w.1
         else (w.1, SI570_I2C_ERROR)
       else (s.1, fail)).1.2 = body ++ frz ++ x.2 ∧
      (fail ≠ SI570_OK →
        (matched = true ↔
          (let s := Si570_SetRegisterBits (logged bus) x os.si570_address reg (2 ^ j)
           if s.2.1 = 0 then
             let w := (logged bus).WriteBlock s.1 os.si570_address os.base_reg os.cur_regs 6
             if w.2 = 0 then Si570_VerifyFrequencyRegisters (logged bus) os w.1
             else (w.1, SI570_I2C_ERROR)
           else (s.1, fail)).2 = SI570_OK)) := by
  obtain ⟨ok, frz, hfrz, hlog, hok⟩ := SetRegisterBits_attempt bus x os.si570_address reg j hj
  dsimp only
  generalize Si570_SetRegisterBits (logged bus) x os.si570_address reg (2 ^ j) = s at hlog hok
  by_cases h1 : s.2.1 = 0
  · rw [if_pos h1]
    have hokt : ok = true := hok.mpr h1
    by_cases h2 : ((logged bus).WriteBlock s.1 os.si570_address os.base_reg os.cur_regs 6).2 = 0
    · rw [if_pos h2]
      have hwlog : ((logged bus).WriteBlock s.1 os.si570_address os.base_reg os.cur_regs 6).1.2 =
          BusOp.WriteBlock os.si570_address os.base_reg os.cur_regs 6 0 :: s.1.2 := by
        have : ((logged bus).WriteBlock s.1 os.si570_address os.base_reg os.cur_regs 6).1.2 =
          BusOp.WriteBlock os.si570_address os.base_reg os.cur_regs 6
            ((logged bus).WriteBlock s.1 os.si570_address os.base_reg os.cur_regs 6).2 ::
              s.1.2 := rfl
        rw [this, h2]
      generalize (logged bus).WriteBlock s.1 os.si570_address os.base_reg os.cur_regs 6 = w
        at hwlog
      refine ⟨ok, decide ((bus.ReadData w.1.1 os.si570_address os.base_reg 6).2.1 = 0 ∧
          (bus.ReadData w.1.1 os.si570_address os.base_reg 6).2.2 = os.cur_regs), frz,
        [BusOp.ReadData os.si570_address os.base_reg 6
            (bus.ReadData w.1.1 os.si570_address os.base_reg 6).2.1
            (bus.ReadData w.1.1 os.si570_address os.base_reg 6).2.2,
          BusOp.WriteBlock os.si570_address os.base_reg os.cur_regs 6 0], hfrz,
        Or.inr (Or.inr ⟨hokt, _, _, rfl, rfl⟩), ?_, fun _ => ?_⟩
      · have : (Si570_VerifyFrequencyRegisters (logged bus) os w.1).1.2 =
            BusOp.ReadData os.si570_address os.base_reg 6
              (bus.ReadData w.1.1 os.si570_address os.base_reg 6).2.1
              (bus.ReadData w.1.1 os.si570_address os.base_reg 6).2.2 :: w.1.2 := rfl
        rw [this, hwlog, hlog]
        simp
      · unfold Si570_VerifyFrequencyRegisters Si570_ReadRegisters logged
        dsimp only
        split_ifs <;> simp_all
    · rw [if_neg h2]
      refine ⟨ok, false, frz,
        [BusOp.WriteBlock os.si570_address os.base_reg os.cur_regs 6
          ((logged bus).WriteBlock s.1 os.si570_address os.base_reg os.cur_regs 6).2], hfrz,
        Or.inr (Or.inl ⟨hokt, _, h2, rfl, rfl⟩), ?_, fun _ => by simp⟩
      have : ((logged bus).WriteBlock s.1 os.si570_address os.base_reg os.cur_regs 6).1.2 =
          BusOp.WriteBlock os.si570_address os.base_reg os.cur_regs 6
            ((logged bus).WriteBlock s.1 os.si570_address os.base_reg os.cur_regs 6).2 ::
              s.1.2 := rfl
      rw [this, hlog]
      simp
  · rw [if_neg h1]
    have hokf : ok = false := by
      cases ok with
      | false => rfl
      | true => exact absurd (hok.mp rfl) h1
    exact ⟨ok, false, frz, [], hfrz, Or.inl ⟨hokf, rfl, rfl⟩, by rw [hlog]; simp,
      fun hf => by simp [hf]⟩

/-- The poll of the new-frequency bit issues reads of register 135 and nothing else. -/
theorem poll_reads (bus : I2CBus β) (os : OscillatorState) (fuel : ℕ) :
    ∀ (x : β × List BusOp) (p : (β × List BusOp) × ℕ),
      Si570_LargeFrequencyChange_poll (logged bus) os fuel x = some p →
      ∃ polls, p.1.2 = polls ++ x.2 ∧
        ∀ e ∈ polls, ∃ ret byte, e = BusOp.ReadRegister os.si570_address SI570_REG_135 ret byte := by
  induction fuel with
  | zero => intro x p h; simp [Si570_LargeFrequencyChange_poll] at h
  | succ n ih =>
    intro x p h
    unfold Si570_LargeFrequencyChange_poll at h
    dsimp only at h
    have hstep : ((logged bus).ReadRegister x os.si570_address SI570_REG_135).1.2 =
        BusOp.ReadRegister os.si570_address SI570_REG_135
          (bus.ReadRegister x.1 os.si570_address SI570_REG_135).2.1
          (bus.ReadRegister x.1 os.si570_address SI570_REG_135).2.2 :: x.2 := rfl
    split_ifs at h with h1
    · obtain ⟨polls, hp, hall⟩ := ih _ p h
      refine ⟨polls ++ [BusOp.ReadRegister os.si570_address SI570_REG_135
          (bus.ReadRegister x.1 os.si570_address SI570_REG_135).2.1
          (bus.ReadRegister x.1 os.si570_address SI570_REG_135).2.2], ?_, ?_⟩
      · rw [hp, hstep]; simp
      · intro e he
        rcases List.mem_append.mp he with he | he
        · exact hall e he
        · exact ⟨_, _, List.mem_singleton.mp he⟩
    · simp only [Option.some.injEq] at h
      rw [← h]
      exact ⟨[_], hstep, fun e he => ⟨_, _, List.mem_singleton.mp he⟩⟩

/-- C21: on every bus, the operations of `Si570_SmallFrequencyChange` are, in
order, a read-modify-write that sets only bit 5 of register 135, the block phase
(the 6-byte block write and its read-back, present only when that freeze
succeeded), and an attempt to clear bit 5 of register 135, which is made in every
case.  `Si570_LargeFrequencyChange` does the same with bit 4 of register 137, and
whether or not it returns; when it returns, what follows the unfreeze attempt is
empty unless the unfreeze succeeded and the read-back matched, and is then a
read-modify-write that sets only bit 6 of register 135 followed by reads of
register 135.  On the small path every write to register 135 therefore leaves
bit 6 as it was read. -/
theorem freeze_bracket (bus : I2CBus β) (os : OscillatorState) (x : β × List BusOp) :
    (∃ ok matched cok frz body unf,
      SetAttempt os.si570_address SI570_REG_135 5 ok frz ∧ BlockPhase os ok matched body ∧
      ClearAttempt os.si570_address SI570_REG_135 5 cok unf ∧
      (Si570_SmallFrequencyChange (logged bus) os x).1.2 = unf ++ body ++ frz ++ x.2) ∧
    (∃ ok matched cok frz body unf,
      SetAttempt os.si570_address SI570_REG_137 4 ok frz ∧ BlockPhase os ok matched body ∧
      ClearAttempt os.si570_address SI570_REG_137 4 cok unf ∧
      (Si570_ClearRegisterBits (logged bus) (Si570_LargeFrequencyChange_write (logged bus) os x).1
        os.si570_address SI570_REG_137 SI570_FREEZE_DCO).1.2 = unf ++ body ++ frz ++ x.2 ∧
      ∀ fuel r, Si570_LargeFrequencyChange (logged bus) fuel os x = some r →
        ∃ tail, r.1.2 = tail ++ (unf ++ body ++ frz ++ x.2) ∧
          (¬ (cok = true ∧ matched = true) → tail = []) ∧
          ((cok = true ∧ matched = true) → ∃ nok nf polls,
            SetAttempt os.si570_address SI570_REG_135 6 nok nf ∧ tail = polls ++ nf ∧
            (nok = false → polls = []) ∧
            ∀ e ∈ polls, ∃ ret byte,
              e = BusOp.ReadRegister os.si570_address SI570_REG_135 ret byte)) := by
  have eM : SI570_FREEZE_M = 2 ^ 5 := by decide
  have eD : SI570_FREEZE_DCO = 2 ^ 4 := by decide
  have eN : SI570_NEW_FREQ = 2 ^ 6 := by decide
  constructor
  · obtain ⟨ok, matched, frz, body, hfrz, hbody, hlog, -⟩ :=
      write_part_shape bus os x SI570_REG_135 5 (by norm_num) SI570_OK
    have hw : (Si570_SmallFrequencyChange_write (logged bus) os x).1.2 = body ++ frz ++ x.2 := by
      unfold Si570_SmallFrequencyChange_write
      rw [eM]
      exact hlog
    obtain ⟨cok, unf, hunf, hclog, -⟩ := ClearRegisterBits_attempt bus
      (Si570_SmallFrequencyChange_write (logged bus) os x).1 os.si570_address SI570_REG_135 5
      (by norm_num)
    refine ⟨ok, matched, cok, frz, body, unf, hfrz, hbody, hunf, ?_⟩
    unfold Si570_SmallFrequencyChange
    dsimp only
    rw [eM, hclog, hw]
    simp
  · obtain ⟨ok, matched, frz, body, hfrz, hbody, hlog, hmatch⟩ :=
      write_part_shape bus os x SI570_REG_137 4 (by norm_num) SI570_I2C_ERROR
    have hmatch := hmatch (by decide)
    have hw : (Si570_LargeFrequencyChange_write (logged bus) os x).1.2 = body ++ frz ++ x.2 := by
      unfold Si570_LargeFrequencyChange_write
      rw [eD]
      exact hlog
    have hwm : matched = true ↔ (Si570_LargeFrequencyChange_write (logged bus) os x).2 = SI570_OK := by
      unfold Si570_LargeFrequencyChange_write
      rw [eD]
      exact hmatch
    obtain ⟨cok, unf, hunf, hclog, hcok⟩ := ClearRegisterBits_attempt bus
      (Si570_LargeFrequencyChange_write (logged bus) os x).1 os.si570_address SI570_REG_137 4
      (by norm_num)
    rw [← eD] at hclog hcok
    have hc : (Si570_ClearRegisterBits (logged bus)
        (Si570_LargeFrequencyChange_write (logged bus) os x).1 os.si570_address SI570_REG_137
        SI570_FREEZE_DCO).1.2 = unf ++ body ++ frz ++ x.2 := by
      rw [hclog, hw]; simp
    refine ⟨ok, matched, cok, frz, body, unf, hfrz, hbody, hunf, hc, ?_⟩
    intro fuel r h
    unfold Si570_LargeFrequencyChange at h
    dsimp only at h
    by_cases h1 : (Si570_ClearRegisterBits (logged bus)
        (Si570_LargeFrequencyChange_write (logged bus) os x).1 os.si570_address SI570_REG_137
        SI570_FREEZE_DCO).2.1 = 0 ∧
        (Si570_LargeFrequencyChange_write (logged bus) os x).2 = SI570_OK
    · rw [if_pos h1] at h
      have hcm : cok = true ∧ matched = true := ⟨hcok.mpr h1.1, hwm.mpr h1.2⟩
      obtain ⟨nok, nf, hnf, hnlog, hnok⟩ := SetRegisterBits_attempt bus
        (Si570_ClearRegisterBits (logged bus)
          (Si570_LargeFrequencyChange_write (logged bus) os x).1 os.si570_address SI570_REG_137
          SI570_FREEZE_DCO).1 os.si570_address SI570_REG_135 6 (by norm_num)
      rw [← eN] at hnlog hnok
      by_cases h2 : (Si570_SetRegisterBits (logged bus) (Si570_ClearRegisterBits (logged bus)
          (Si570_LargeFrequencyChange_write (logged bus) os x).1 os.si570_address SI570_REG_137
          SI570_FREEZE_DCO).1 os.si570_address SI570_REG_135 SI570_NEW_FREQ).2.1 = 0
      · rw [if_pos h2] at h
        split at h
        · simp at h
        · rename_i p hp
          simp only [Option.some.injEq] at h
          obtain ⟨polls, hpl, hall⟩ := poll_reads bus os fuel _ p hp
          refine ⟨polls ++ nf, ?_, fun hn => absurd hcm hn, fun _ =>
            ⟨nok, nf, polls, hnf, rfl, fun hf => ?_, hall⟩⟩
          · rw [← h]
            dsimp only
            rw [hpl, hnlog, hc]
            simp
          · rw [hnok.mpr h2] at hf
            simp at hf
      · rw [if_neg h2] at h
        simp only [Option.some.injEq] at h
        refine ⟨nf, ?_, fun hn => absurd hcm hn, fun _ =>
          ⟨nok, nf, [], hnf, rfl, fun _ => rfl, fun e he => by simp at he⟩⟩
        rw [← h]
        dsimp only
        rw [hnlog, hc]
    · rw [if_neg h1] at h
      simp only [Option.some.injEq] at h
      refine ⟨[], ?_, fun _ => rfl, fun hcm => ?_⟩
      · rw [← h]
        dsimp only
        rw [hc]
        rfl
      · exact absurd ⟨hcok.mp hcm.1, hwm.mp hcm.2⟩ h1

/-! ## Reach of the divider search, and the sentinel -/

/-- In exact arithmetic and for a target of at least 3.5 MHz the divider search
succeeds exactly when an admissible divider pair exists. -/
theorem search_true_iff (fxtal_calc : ℚ) (config : Si570_FreqConfig)
    (hf : 7 / 2 ≤ config.freq) :
    (Si570_FindConfigForFreq id fxtal_calc config).1 = true ↔
      ∃ h ∈ ([11, 9, 7, 6, 5, 4] : List ℕ), ∃ n1, Admissible config.freq h n1 := by
  obtain ⟨c1, c2, c3⟩ := div_bounds_rel config.freq hf
  obtain ⟨l1, l2⟩ := loop_hs_div _ _ c1 (curr_div_spec config.freq hf).2
    (divider_max_spec config.freq hf).2 c2 c3 { n1 := 1, hsdiv := 0, n1_found := false } rfl
  simp only [inBounds_iff config.freq hf, FirstFit] at l1 l2
  unfold Si570_FindConfigForFreq
  simp only [id_eq]
  split_ifs with h1 h2
  · exact ⟨fun _ => l1.mp h1, fun _ => rfl⟩
  · exfalso
    obtain ⟨pre, post, _, _, ha, _⟩ := l2 h1
    apply h2
    simp only [Si570_FDCO_InRange, Si570_GetFDCOForFreq, fdco_min, fdco_max, FDCO_MIN, FDCO_MAX,
      decide_eq_true_eq, ge_iff_le]
    push_cast
    rw [← mul_assoc]
    exact ha.2
  · refine ⟨fun h => by simp at h, fun h => absurd (l1.mpr h) h1⟩

/-- Every target from 3.5 MHz to 220 MHz has an admissible divider pair: the
ranges [4850 / d, 5670 / d] of 29 products `d = hsdiv * n1`, from 1386 down to 24,
overlap and cover the interval. -/
theorem admissible_exists (f : ℚ) (hlo : 7 / 2 ≤ f) (hhi : f ≤ 220) :
    ∃ h ∈ ([11, 9, 7, 6, 5, 4] : List ℕ), ∃ n1, Admissible f h n1 := by
  have step : ∀ h n1 : ℕ, h ∈ ([11, 9, 7, 6, 5, 4] : List ℕ) → N1Admissible n1 →
      4850 ≤ f * ((n1 * h : ℕ) : ℚ) → f * ((n1 * h : ℕ) : ℚ) ≤ 5670 →
      ∃ h ∈ ([11, 9, 7, 6, 5, 4] : List ℕ), ∃ n1, Admissible f h n1 := by
    intro h n1 hh hn h1 h2
    refine ⟨h, hh, n1, hn, ?_, ?_⟩
    · rw [mul_assoc]; exact_mod_cast h1
    · rw [mul_assoc]; exact_mod_cast h2
  rcases le_or_lt (f * 1386) 5670 with c0 | c0
  · exact step 11 126 (by simp) (Or.inr ⟨by norm_num, by norm_num, by norm_num⟩) (by norm_num; linarith) (by norm_num; linarith)
  rcases le_or_lt (f * 1188) 5670 with c1 | c1
  · exact step 11 108 (by simp) (Or.inr ⟨by norm_num, by norm_num, by norm_num⟩) (by norm_num; linarith) (by norm_num; linarith)
  rcases le_or_lt (f * 1026) 5670 with c2 | c2
  · exact step 9 114 (by simp) (Or.inr ⟨by norm_num, by norm_num, by norm_num⟩) (by norm_num; linarith) (by norm_num; linarith)
  rcases le_or_lt (f * 880) 5670 with c3 | c3
  · exact step 11 80 (by simp) (Or.inr ⟨by norm_num, by norm_num, by norm_num⟩) (by norm_num; linarith) (by norm_num; linarith)
  rcases le_or_lt (f * 756) 5670 with c4 | c4
  · exact step 9 84 (by simp) (Or.inr ⟨by norm_num, by norm_num, by norm_num⟩) (by norm_num; linarith) (by norm_num; linarith)
  rcases le_or_lt (f * 648) 5670 with c5 | c5
  · exact step 9 72 (by simp) (Or.inr ⟨by norm_num, by norm_num, by norm_num⟩) (by norm_num; linarith) (by norm_num; linarith)
  rcases le_or_lt (f * 558) 5670 with c6 | c6
  · exact step 9 62 (by simp) (Or.inr ⟨by norm_num, by norm_num, by norm_num⟩) (by norm_num; linarith) (by norm_num; linarith)
  rcases le_or_lt (f * 480) 5670 with c7 | c7
  · exact step 6 80 (by simp) (Or.inr ⟨by norm_num, by norm_num, by norm_num⟩) (by norm_num; linarith) (by norm_num; linarith)
  rcases le_or_lt (f * 414) 5670 with c8 | c8
  · exact step 9 46 (by simp) (Or.inr ⟨by norm_num, by norm_num, by norm_num⟩) (by norm_num; linarith) (by norm_num; linarith)
  rcases le_or_lt (f * 360) 5670 with c9 | c9
  · exact step 9 40 (by simp) (Or.inr ⟨by norm_num, by norm_num, by norm_num⟩) (by norm_num; linarith) (by norm_num; linarith)
  rcases le_or_lt (f * 308) 5670 with c10 | c10
  · exact step 11 28 (by simp) (Or.inr ⟨by norm_num, by norm_num, by norm_num⟩) (by norm_num; linarith) (by norm_num; linarith)
  rcases le_or_lt (f * 264) 5670 with c11 | c11
  · exact step 11 24 (by simp) (Or.inr ⟨by norm_num, by norm_num, by norm_num⟩) (by norm_num; linarith) (by norm_num; linarith)
  rcases le_or_lt (f * 228) 5670 with c12 | c12
  · exact step 6 38 (by simp) (Or.inr ⟨by norm_num, by norm_num, by norm_num⟩) (by norm_num; linarith) (by norm_num; linarith)
  rcases le_or_lt (f * 196) 5670 with c13 | c13
  · exact step 7 28 (by simp) (Or.inr ⟨by norm_num, by norm_num, by norm_num⟩) (by norm_num; linarith) (by norm_num; linarith)
  rcases le_or_lt (f * 168) 5670 with c14 | c14
  · exact step 7 24 (by simp) (Or.inr ⟨by norm_num, by norm_num, by norm_num⟩) (by norm_num; linarith) (by norm_num; linarith)
  rcases le_or_lt (f * 144) 5670 with c15 | c15
  · exact step 9 16 (by simp) (Or.inr ⟨by norm_num, by norm_num, by norm_num⟩) (by norm_num; linarith) (by norm_num; linarith)
  rcases le_or_lt (f * 126) 5670 with c16 | c16
  · exact step 9 14 (by simp) (Or.inr ⟨by norm_num, by norm_num, by norm_num⟩) (by norm_num; linarith) (by norm_num; linarith)
  rcases le_or_lt (f * 108) 5670 with c17 | c17
  · exact step 9 12 (by simp) (Or.inr ⟨by norm_num, by norm_num, by norm_num⟩) (by norm_num; linarith) (by norm_num; linarith)
  rcases le_or_lt (f * 96) 5670 with c18 | c18
  · exact step 6 16 (by simp) (Or.inr ⟨by norm_num, by norm_num, by norm_num⟩) (by norm_num; linarith) (by norm_num; linarith)
  rcases le_or_lt (f * 84) 5670 with c19 | c19
  · exact step 7 12 (by simp) (Or.inr ⟨by norm_num, by norm_num, by norm_num⟩) (by norm_num; linarith) (by norm_num; linarith)
  rcases le_or_lt (f * 72) 5670 with c20 | c20
  · exact step 9 8 (by simp) (Or.inr ⟨by norm_num, by norm_num, by norm_num⟩) (by norm_num; linarith) (by norm_num; linarith)
  rcases le_or_lt (f * 64) 5670 with c21 | c21
  · exact step 4 16 (by simp) (Or.inr ⟨by norm_num, by norm_num, by norm_num⟩) (by norm_num; linarith) (by norm_num; linarith)
  rcases le_or_lt (f * 56) 5670 with c22 | c22
  · exact step 7 8 (by simp) (Or.inr ⟨by norm_num, by norm_num, by norm_num⟩) (by norm_num; linarith) (by norm_num; linarith)
  rcases le_or_lt (f * 48) 5670 with c23 | c23
  · exact step 6 8 (by simp) (Or.inr ⟨by norm_num, by norm_num, by norm_num⟩) (by norm_num; linarith) (by norm_num; linarith)
  rcases le_or_lt (f * 42) 5670 with c24 | c24
  · exact step 7 6 (by simp) (Or.inr ⟨by norm_num, by norm_num, by norm_num⟩) (by norm_num; linarith) (by norm_num; linarith)
  rcases le_or_lt (f * 36) 5670 with c25 | c25
  · exact step 9 4 (by simp) (Or.inr ⟨by norm_num, by norm_num, by norm_num⟩) (by norm_num; linarith) (by norm_num; linarith)
  rcases le_or_lt (f * 32) 5670 with c26 | c26
  · exact step 4 8 (by simp) (Or.inr ⟨by norm_num, by norm_num, by norm_num⟩) (by norm_num; linarith) (by norm_num; linarith)
  rcases le_or_lt (f * 28) 5670 with c27 | c27
  · exact step 7 4 (by simp) (Or.inr ⟨by norm_num, by norm_num, by norm_num⟩) (by norm_num; linarith) (by norm_num; linarith)
  exact step 6 4 (by simp) (Or.inr ⟨by norm_num, by norm_num, by norm_num⟩) (by norm_num; linarith) (by norm_num; linarith)

theorem ConfigToRegs_ok (fl : ℚ → ℚ) (config : Si570_FreqConfig) :
    (Si570_ConfigToRegs fl config).1 = SI570_OK := rfl

/-- The prepare stage returns `SI570_OK` whenever the divider search succeeds for
the target. -/
theorem prepare_ok_of_search (fd fl : ℚ → ℚ) (os : OscillatorState) (f : ℚ)
    (h : (Si570_FindConfigForFreq fl os.fxtal_calc { os.next_config with freq := f }).1 = true) :
    (Si570_PrepareChangeFrequency fd fl os f).1 = SI570_OK := by
  unfold Si570_PrepareChangeFrequency
  dsimp only
  by_cases hs : (Si570_FindSmoothRFreqForFreq fd os.fxtal_calc os.cur_config
      { os.next_config with freq := f }).1 = false
  · rw [if_pos hs, smooth_refuse _ _ _ _ hs, if_neg (by rw [h]; simp)]
    rfl
  · rw [if_neg hs]
    rfl

/-- If `floorf` and `ceilf` took their argument in double precision and all
arithmetic were exact (`fd = fl = id`), the divider search would never fail inside
the hard limits: for every target `f` with 3.5 ≤ f ≤ 220,
`Si570_FindConfigForFreq` would return true, `Si570_PrepareChangeFrequency` would
return `SI570_OK` from every state, and `Si570_PrepareNextFrequency` would return
`SI570_OK` or `SI570_TUNE_LIMITED` for a present chip and an adjusted frequency
of `f * 1000000` Hz. -/
theorem divider_search_total_exact (f : ℚ) (hlo : 7 / 2 ≤ f) (hhi : f ≤ 220) :
    (∀ (fxtal_calc : ℚ) (config : Si570_FreqConfig), config.freq = f →
      (Si570_FindConfigForFreq id fxtal_calc config).1 = true) ∧
    (∀ (fd : ℚ → ℚ) (os : OscillatorState),
      (Si570_PrepareChangeFrequency fd id os f).1 = SI570_OK) ∧
    (∀ (sram2 : ℕ) (os : OscillatorState) (freq : ℕ) (temp_factor : ℤ),
      os.present = true →
      (freq : ℚ) * (1 + (temp_factor : ℚ) / 14000000) = f * 1000000 →
      (Si570_PrepareNextFrequency id id sram2 os freq temp_factor).1 = SI570_OK ∨
      (Si570_PrepareNextFrequency id id sram2 os freq temp_factor).1 = SI570_TUNE_LIMITED) := by
  have hsearch : ∀ (fxtal_calc : ℚ) (config : Si570_FreqConfig), config.freq = f →
      (Si570_FindConfigForFreq id fxtal_calc config).1 = true := by
    intro fx config hc
    rw [search_true_iff fx config (by rw [hc]; exact hlo), hc]
    exact admissible_exists f hlo hhi
  have hprep : ∀ (fd : ℚ → ℚ) (os : OscillatorState),
      (Si570_PrepareChangeFrequency fd id os f).1 = SI570_OK :=
    fun fd os => prepare_ok_of_search fd id os f (hsearch _ _ rfl)
  refine ⟨hsearch, hprep, ?_⟩
  intro sram2 os freq temp_factor hp hadj
  have hadj2 : id ((freq : ℚ) * id (1 + id ((temp_factor : ℚ) / 14000000))) = f * 1000000 := hadj
  rw [PrepareNextFrequency_unfold id id sram2 os freq temp_factor _ hadj2]
  have hf : id (f * 1000000 / 1000000) = f := by simp
  rw [hf]
  have hp' : Si570_IsPresent os = true := by unfold Si570_IsPresent; simp [hp]
  rw [if_pos hp', if_pos ⟨by unfold SI570_HARD_MAX_FREQ; linarith,
    by unfold SI570_HARD_MIN_FREQ; linarith⟩]
  split_ifs with h1 h2
  · exact Or.inr rfl
  · exact absurd (hprep id os) h2
  · exact Or.inl (hprep id os)

theorem commit_failed_clear (bus : I2CBus β) (fuel : ℕ) (os : OscillatorState) (b : β)
    (r : Si570_ResultCodes) (os2 : OscillatorState) (b2 : β)
    (h : Si570_ChangeToNextFrequency bus fuel os b = some (r, os2, b2)) :
    (r ≠ SI570_OK → os2.cur_config = Si570_ClearConfig) ∧
    (os.next_is_small = false → Si570_WriteRegs bus fuel os false b = some (b2, r) ∧
      ∃ r1, Si570_LargeFrequencyChange bus fuel os b = some r1) := by
  unfold Si570_ChangeToNextFrequency at h
  split at h
  · simp at h
  · rename_i r1 hr1
    dsimp only at h
    split at h
    · simp at h
    · rename_i r2 hr2
      have hres : r2 = (b2, r) ∧ (r ≠ SI570_OK → os2.cur_config = Si570_ClearConfig) := by
        split_ifs at h with h1
        · simp only [Option.some.injEq, Prod.mk.injEq] at h
          obtain ⟨e1, e2, e3⟩ := h
          exact ⟨Prod.ext e3 e1, fun hn => absurd (e1 ▸ h1) hn⟩
        · simp only [Option.some.injEq, Prod.mk.injEq] at h
          obtain ⟨e1, e2, e3⟩ := h
          exact ⟨Prod.ext e3 e1, fun _ => by rw [← e2]⟩
      refine ⟨hres.2, fun hsmall => ?_⟩
      rw [hsmall] at hr1 hr2
      simp only [Bool.false_eq_true, and_false, if_false, Option.some.injEq] at hr2
      rw [hr2, hres.1] at hr1
      refine ⟨hr1, ?_⟩
      unfold Si570_WriteRegs at hr1
      simp only [Bool.false_eq_true, if_false] at hr1
      split at hr1
      · simp at hr1
      · rename_i r0 hr0
        exact ⟨r0, hr0⟩

/-- C23: against the all-zero sentinel `Si570_FindSmoothRFreqForFreq` returns
false for every target, whatever the rounding of its doubles, and leaves the new
config as it was (the `fdco` it computes is 0, outside the VCO range); a prepare
from a state whose `cur_config` is the sentinel therefore sets
`next_is_small = false`, takes `next_config` from the divider search and returns
`SI570_OK` exactly when that search succeeds; a
prepare sets `next_is_small` only when the smooth-step test accepted, against a
`cur_config` with `fdco ≠ 0`; a commit that does not return `SI570_OK` leaves the
sentinel in `cur_config`, and a commit with `next_is_small = false` is one
`Si570_WriteRegs` for a large step, which runs `Si570_LargeFrequencyChange`. -/
theorem sentinel_forces_search (fd fl : ℚ → ℚ) (bus : I2CBus β) :
    (∀ (fx : ℚ) (new_config : Si570_FreqConfig),
      Si570_FindSmoothRFreqForFreq fd fx Si570_ClearConfig new_config = (false, new_config)) ∧
    (∀ f : ℚ, Si570_FDCO_InRange
      (Si570_GetFDCOForFreq f Si570_ClearConfig.n1 Si570_ClearConfig.hsdiv) = false) ∧
    (∀ (os : OscillatorState) (f : ℚ), os.cur_config = Si570_ClearConfig →
      (Si570_PrepareChangeFrequency fd fl os f).2.next_is_small = false ∧
      (Si570_PrepareChangeFrequency fd fl os f).2.next_config =
        (Si570_FindConfigForFreq fl os.fxtal_calc { os.next_config with freq := f }).2 ∧
      ((Si570_PrepareChangeFrequency fd fl os f).1 = SI570_OK ↔
        (Si570_FindConfigForFreq fl os.fxtal_calc { os.next_config with freq := f }).1 = true)) ∧
    (∀ (os : OscillatorState) (f : ℚ),
      (Si570_PrepareChangeFrequency fd fl os f).2.next_is_small = true →
      os.cur_config.fdco ≠ 0 ∧
      (Si570_FindSmoothRFreqForFreq fd os.fxtal_calc os.cur_config
        { os.next_config with freq := f }).1 = true) ∧
    (∀ (fuel : ℕ) (os : OscillatorState) (b : β) (r : Si570_ResultCodes)
      (os2 : OscillatorState) (b2 : β),
      Si570_ChangeToNextFrequency bus fuel os b = some (r, os2, b2) →
      (r ≠ SI570_OK → os2.cur_config = Si570_ClearConfig) ∧
      (os.next_is_small = false → Si570_WriteRegs bus fuel os false b = some (b2, r) ∧
        ∃ r1, Si570_LargeFrequencyChange bus fuel os b = some r1)) := by
  have hsm : ∀ (fx : ℚ) (new_config : Si570_FreqConfig),
      Si570_FindSmoothRFreqForFreq fd fx Si570_ClearConfig new_config = (false, new_config) := by
    intro fx new_config
    unfold Si570_FindSmoothRFreqForFreq
    rw [if_neg]
    intro hc
    exact hc.1 rfl
  refine ⟨hsm, ?_, ?_, ?_, fun fuel os b r os2 b2 h => commit_failed_clear bus fuel os b r os2 b2 h⟩
  · intro f
    simp [Si570_FDCO_InRange, Si570_GetFDCOForFreq, Si570_ClearConfig, fdco_min, fdco_max,
      FDCO_MIN, FDCO_MAX]
  · intro os f hcur
    unfold Si570_PrepareChangeFrequency
    dsimp only
    rw [hcur, hsm]
    simp only [if_true]
    by_cases hc : (Si570_FindConfigForFreq fl os.fxtal_calc
        { os.next_config with freq := f }).1 = false
    · rw [if_pos hc]
      refine ⟨rfl, rfl, ?_⟩
      rw [hc]
      simp
    · rw [if_neg hc]
      refine ⟨rfl, rfl, ?_⟩
      have : (Si570_FindConfigForFreq fl os.fxtal_calc
        { os.next_config with freq := f }).1 = true := by simpa using hc
      rw [this]
      simp [ConfigToRegs_ok]
  · intro os f h
    obtain ⟨hacc, -⟩ := prepare_small fd fl os f h
    exact ⟨((smooth_iff _ _ _ _).mp hacc).1, hacc⟩

/-! ## Concrete runs -/

theorem stuck_poll (fuel : Nat) :
    ∀ c : SimChip, c.r135 &&& SI570_NEW_FREQ ≠ 0 →
      Si570_LargeFrequencyChange_poll stuckBus osLarge fuel c = none := by
  induction fuel with
  | zero => intro c _; rfl
  | succ n ih =>
    intro c hc
    unfold Si570_LargeFrequencyChange_poll
    have hr : stuckBus.ReadRegister c osLarge.si570_address SI570_REG_135 = (c, 0, c.r135) := rfl
    rw [hr]
    dsimp only
    rw [if_pos ⟨rfl, hc⟩]
    exact ih c hc

/-- C8, at the failing input: on a chip that acknowledges every operation and
never clears the new-frequency bit, the poll of `Si570_LargeFrequencyChange` is
still running after any number of reads, so neither the large step nor the commit
returns. -/
theorem LargeFrequencyChange_poll_unbounded (fuel : Nat) :
    Si570_LargeFrequencyChange stuckBus fuel osLarge chip10 = none ∧
    Si570_ChangeToNextFrequency stuckBus fuel osLarge chip10 = none := by
  have hl : Si570_LargeFrequencyChange stuckBus fuel osLarge chip10 = none := by
    unfold Si570_LargeFrequencyChange
    dsimp only
    rw [if_pos (by decide!), if_pos (by decide!), stuck_poll fuel _ (by decide!)]
  refine ⟨hl, ?_⟩
  have hw : Si570_WriteRegs stuckBus fuel osLarge osLarge.next_is_small chip10 = none := by
    unfold Si570_WriteRegs
    dsimp only
    rw [if_neg (by decide!), hl]
  unfold Si570_ChangeToNextFrequency
  rw [hw]

/-- C7, at the failing input: with every read of register 135 a transport error,
the small step issues two failing reads and no write and returns `SI570_OK`; the
attempt then reports `SI570_ERROR_VERIFY`, or, if the chip already holds the
image, the commit returns `SI570_OK` and installs `next_config`. -/
theorem SmallFrequencyChange_bus_error_unreported :
    Si570_SmallFrequencyChange (logged bus135) osSmall (chip10, []) =
      ((chip10, [BusOp.ReadRegister 170 135 1 0, BusOp.ReadRegister 170 135 1 0]), SI570_OK) ∧
    Si570_WriteRegs bus135 1 osSmall true chip10 = some (chip10, SI570_ERROR_VERIFY) ∧
    Si570_ChangeToNextFrequency bus135 1 osSmall { chip10 with regs := osSmall.cur_regs } =
      some (SI570_OK, { osSmall with cur_config := osSmall.next_config },
        { chip10 with regs := osSmall.cur_regs }) := by
  refine ⟨by decide!, by decide!, by decide!⟩

theorem FindConfigForFreq_sound_witness :
    (Si570_FindConfigForFreq binary32 (114285 / 1000) { cfg10 with freq := 7 / 2 }).1 = true ∧
    (Si570_FindConfigForFreq binary32 (114285 / 1000) { cfg10 with freq := 7 / 2 }).2.hsdiv ∈
      ([11, 9, 7, 6, 5, 4] : List ℕ) ∧
    N1Admissible (Si570_FindConfigForFreq binary32 (114285 / 1000) { cfg10 with freq := 7 / 2 }).2.n1 :=
  ⟨by decide!,
    ((FindConfigForFreq_sound binary32 (114285 / 1000) { cfg10 with freq := 7 / 2 }).1 (by decide!)).1,
    ((FindConfigForFreq_sound binary32 (114285 / 1000) { cfg10 with freq := 7 / 2 }).1 (by decide!)).2.1⟩

theorem FindConfigForFreq_complete_witness :
    (7 : ℚ) / 2 ≤ cfg10.freq ∧
    ((Si570_FindConfigForFreq id (114285 / 1000) cfg10).1 = true ↔
      ∃ h ∈ ([11, 9, 7, 6, 5, 4] : List ℕ), ∃ n1, Admissible cfg10.freq h n1) :=
  ⟨by decide!, (FindConfigForFreq_complete (114285 / 1000) cfg10 (by decide!)).1⟩

theorem FindSmoothRFreqForFreq_rule_witness :
    0 < cfg10.fdco ∧
    (Si570_FindSmoothRFreqForFreq binary64 (114285 / 1000) cfg10
      { cfg10 with freq := 1281 / 128 }).1 = true ∧
    (Si570_FindSmoothRFreqForFreq binary64 (114285 / 1000) cfg10
      { cfg10 with freq := 1281 / 128 }).2 =
      { hsdiv := cfg10.hsdiv, n1 := cfg10.n1, fdco := cfg10.fdco,
        rfreq := binary64 (binary64 (({ cfg10 with freq := 1281 / 128 } : Si570_FreqConfig).freq *
          (cfg10.n1 : ℚ) * (cfg10.hsdiv : ℚ)) / (114285 / 1000)),
        freq := ({ cfg10 with freq := 1281 / 128 } : Si570_FreqConfig).freq } ∧
    |({ cfg10 with freq := 1281 / 128 } : Si570_FreqConfig).freq * (cfg10.n1 : ℚ) *
        (cfg10.hsdiv : ℚ) - cfg10.fdco| ≤ 0.0035 * (1 + 1 / 2 ^ 43) * cfg10.fdco :=
  ⟨by decide!, by decide!,
    (FindSmoothRFreqForFreq_rule binary64 (114285 / 1000) cfg10 { cfg10 with freq := 1281 / 128 }
      (by decide!)).2.1 (by decide!),
    (FindSmoothRFreqForFreq_rule binary64 (114285 / 1000) cfg10 { cfg10 with freq := 1281 / 128 }
      (by decide!)).2.2.2 binary64_accurate (by decide!) (by decide!) (by decide!) (by decide!)⟩

/-- C3, counterexample: from `cur` = (`hsdiv` 11, `n1` 46, `fdco` 5000) the double
`f = 0x1.3b194be3ab010p+3` has `f * 506` just below 4982.5, so that the exact
deviation `|f * 506 - 5000| / 5000` is above 0.0035; the product rounds to 4982.5,
the quotient `-17.5 / 5000` to the double nearest to 0.0035, and
`Si570_FindSmoothRFreqForFreq` returns true. -/
theorem FindSmoothRFreqForFreq_accepts_beyond_margin :
    0 < cfgEdge.fdco ∧ binary64 fEdge = fEdge ∧
    fEdge * (cfgEdge.n1 : ℚ) * (cfgEdge.hsdiv : ℚ) < 4982.5 ∧
    4850 ≤ fEdge * (cfgEdge.n1 : ℚ) * (cfgEdge.hsdiv : ℚ) ∧
    ¬ (|fEdge * (cfgEdge.n1 : ℚ) * (cfgEdge.hsdiv : ℚ) - cfgEdge.fdco| / cfgEdge.fdco ≤ 0.0035) ∧
    binary64 (fEdge * (cfgEdge.n1 : ℚ) * (cfgEdge.hsdiv : ℚ)) = 4982.5 ∧
    binary64 (binary64 (4982.5 - cfgEdge.fdco) / cfgEdge.fdco) = -binary64 0.0035 ∧
    (Si570_FindSmoothRFreqForFreq binary64 (114285 / 1000) cfgEdge
      { cfgEdge with freq := fEdge }).1 = true := by
  refine ⟨by decide!, by decide!, by decide!, by decide!, by decide!, by decide!, by decide!,
    by decide!⟩

theorem ChangeToNextFrequency_commit_witness :
    Si570_ChangeToNextFrequency goodBus 1 osSmall chip10 =
      some (SI570_OK, { osSmall with cur_config := osSmall.next_config },
        { chip10 with regs := osSmall.cur_regs }) ∧
    ({ osSmall with cur_config := osSmall.next_config } : OscillatorState).cur_config =
      osSmall.next_config :=
  ⟨by decide!,
    ((ChangeToNextFrequency_commit goodBus osSmall chip10).2 1 SI570_OK
      { osSmall with cur_config := osSmall.next_config }
      { chip10 with regs := osSmall.cur_regs } (by decide!)).1 rfl⟩

theorem WriteRegs_ok_verified_witness :
    ∃ pre ret byte,
      [BusOp.ReadData 170 7 6 0 [235, 66, 197, 28, 226, 144],
        BusOp.WriteRegister 170 135 0 0,
        BusOp.ReadRegister 170 135 0 32,
        BusOp.ReadData 170 7 6 0 [235, 66, 197, 28, 226, 144],
        BusOp.WriteBlock 170 7 [235, 66, 197, 28, 226, 144] 6 0,
        BusOp.WriteRegister 170 135 32 0,
        BusOp.ReadRegister 170 135 0 0] =
      BusOp.ReadData osSmall.si570_address osSmall.base_reg 6 0 osSmall.cur_regs :: pre ++
        BusOp.ReadRegister osSmall.si570_address (freezeReg true) ret byte ::
          (beforeUnfreeze goodBus osSmall true (chip10, [])).2 :=
  (WriteRegs_ok_verified goodBus 1 osSmall).1 true (chip10, [])
    ({ chip10 with regs := osSmall.cur_regs },
      [BusOp.ReadData 170 7 6 0 [235, 66, 197, 28, 226, 144],
        BusOp.WriteRegister 170 135 0 0,
        BusOp.ReadRegister 170 135 0 32,
        BusOp.ReadData 170 7 6 0 [235, 66, 197, 28, 226, 144],
        BusOp.WriteBlock 170 7 [235, 66, 197, 28, 226, 144] 6 0,
        BusOp.WriteRegister 170 135 32 0,
        BusOp.ReadRegister 170 135 0 0]) (by decide!)

theorem ChangeToNextFrequency_single_fallback_witness :
    Si570_ChangeToNextFrequency (logged noSmallBus) 1 osSmall (chip10, []) =
      some (SI570_OK, { osSmall with cur_config := osSmall.next_config },
        ({ chip10 with regs := osSmall.cur_regs }, fallbackLog)) ∧
    AtMostBlocks osSmall 2 [] fallbackLog :=
  ⟨by decide!,
    (ChangeToNextFrequency_single_fallback noSmallBus 1 osSmall
      { osSmall with cur_config := osSmall.next_config } (chip10, [])
      ({ chip10 with regs := osSmall.cur_regs }, fallbackLog) SI570_OK
      (by decide!)).choose_spec.2.2.2⟩

/-- C9, at the failing input: `floorf` works in single precision, so the 28
fraction bits of the image `[235, 66, 196, 103, 136, 143]` (73894031, which needs
27 significant bits) are rounded to 73894032 before they are stored; decoding
that image and encoding the result gives `[235, 66, 196, 103, 136, 144]`. -/
theorem codec_roundtrip_bytes_binary32 :
    (Si570_ResetConfiguration_decode [235, 66, 196, 103, 136, 143]).2.2 =
      44 + 73894031 / 268435456 ∧
    binary32 73894031 = 73894032 ∧
    (Si570_ConfigToRegs binary32
      { hsdiv := (Si570_ResetConfiguration_decode [235, 66, 196, 103, 136, 143]).1
        n1 := (Si570_ResetConfiguration_decode [235, 66, 196, 103, 136, 143]).2.1
        rfreq := (Si570_ResetConfiguration_decode [235, 66, 196, 103, 136, 143]).2.2
        fdco := 5060
        freq := 10 }).2 = [235, 66, 196, 103, 136, 144] := by
  refine ⟨by decide!, by decide!, by decide!⟩

/-- C10, at the failing input: for `hsdiv = 11`, `n1 = 46` and
`rfreq = 44 + 73894031 / 2^28` the image written by `Si570_ConfigToRegs` in single
precision decodes to `44 + 73894032 / 2^28`, which is above the original. -/
theorem codec_roundtrip_config_binary32 :
    (Si570_ResetConfiguration_decode (Si570_ConfigToRegs binary32 cfgFrac).2).2.2 =
      44 + 73894032 / 268435456 ∧
    cfgFrac.rfreq -
      (Si570_ResetConfiguration_decode (Si570_ConfigToRegs binary32 cfgFrac).2).2.2 < 0 := by
  refine ⟨by decide!, by decide!⟩

/-- C11, at the failing input: for `hsdiv = 11`, `n1 = 46` and
`rfreq = 44 + 73894031 / 2^28`, where `⌊rfreq * 2^28⌋ = 44 * 2^28 + 73894031`, the
six bytes written by `Si570_ConfigToRegs` in single precision are
`[235, 66, 196, 103, 136, 144]`, which read as one 48-bit big-endian number give
`7 * 2^45 + 45 * 2^38 + 44 * 2^28 + 73894032`, one more than
`(hsdiv - 4) * 2^45 + (n1 - 1) * 2^38 + ⌊rfreq * 2^28⌋`. -/
theorem ConfigToRegs_be48_binary32 :
    (4 ≤ cfgFrac.hsdiv ∧ cfgFrac.hsdiv ≤ 11 ∧ 1 ≤ cfgFrac.n1 ∧ cfgFrac.n1 ≤ 128 ∧
      0 ≤ cfgFrac.rfreq ∧ cfgFrac.rfreq < 1024) ∧
    ⌊cfgFrac.rfreq * 2 ^ 28⌋ = 44 * 2 ^ 28 + 73894031 ∧
    (Si570_ConfigToRegs binary32 cfgFrac).2 = [235, 66, 196, 103, 136, 144] ∧
    ((be48 (Si570_ConfigToRegs binary32 cfgFrac).2 : ℕ) : ℤ) =
      ((cfgFrac.hsdiv - 4 : ℕ) : ℤ) * 2 ^ 45 + ((cfgFrac.n1 - 1 : ℕ) : ℤ) * 2 ^ 38 +
        ⌊cfgFrac.rfreq * 2 ^ 28⌋ + 1 := by
  refine ⟨by decide!, by decide!, by decide!, by decide!⟩

/-- C13, counterexample: on a present chip, for the adjusted frequency 5000000,
which is inside [3500000, 220000000] and below 10000000 and for which the prepare
stage returns `SI570_OK`, `Si570_PrepareNextFrequency` returns `SI570_OK` when the
word read at `SRAM2_BASE + 5` is 0x29, and `SI570_TUNE_LIMITED` when that word is
0.  And for `freq = 28000000`, `temp_factor = -9000000`, whose adjusted frequency
is exactly 10000000, the code computes 9999999.999999998 and returns
`SI570_TUNE_LIMITED`. -/
theorem PrepareNextFrequency_ok_below_spec :
    Si570_IsPresent osSmall = true ∧
    ((5000000 : ℕ) : ℚ) * (1 + ((0 : ℤ) : ℚ) / 14000000) = 5000000 ∧
    binary64 (((5000000 : ℕ) : ℚ) * binary64 (1 + binary64 (((0 : ℤ) : ℚ) / 14000000))) =
      5000000 ∧
    (Si570_PrepareChangeFrequency binary64 binary32 osSmall 5).1 = SI570_OK ∧
    (Si570_PrepareNextFrequency binary64 binary32 0x29 osSmall 5000000 0).1 = SI570_OK ∧
    (Si570_PrepareNextFrequency binary64 binary32 0 osSmall 5000000 0).1 = SI570_TUNE_LIMITED ∧
    ((28000000 : ℕ) : ℚ) * (1 + ((-9000000 : ℤ) : ℚ) / 14000000) = 10000000 ∧
    binary64 (((28000000 : ℕ) : ℚ) * binary64 (1 + binary64 (((-9000000 : ℤ) : ℚ) / 14000000))) =
      10000000 - 1 / 536870912 ∧
    (Si570_PrepareNextFrequency binary64 binary32 0 osSmall 28000000 (-9000000)).1 =
      SI570_TUNE_LIMITED := by
  refine ⟨by decide!, by decide!, by decide!, by decide!, by decide!, by decide!, by decide!,
    by decide!, by decide!⟩

/-- C16, at the failing input: `SMOOTH_DELTA` is 0.0035 itself; from the
configuration for 125 MHz (`hsdiv = 11`, `n1 = 4`, `fdco = 5500`) the target
125.4375 MHz gives `fdco' = 5519.25`, inside the VCO range, with a relative
deviation of exactly 0.0035, and `Si570_FindSmoothRFreqForFreq` accepts it, so
that the prepare stage marks the step as small and runs no divider search.  This
is so in exact arithmetic and in double precision, where the quotient
`19.25 / 5500` rounds to the same double as the literal 0.0035. -/
theorem FindSmoothRFreqForFreq_accepts_at_margin :
    SMOOTH_DELTA = 0.0035 ∧
    Si570_GetFDCOForFreq 125.4375 cfg125.n1 cfg125.hsdiv = 5519.25 ∧
    |Si570_GetFDCOForFreq 125.4375 cfg125.n1 cfg125.hsdiv - cfg125.fdco| / cfg125.fdco =
      0.0035 ∧
    Si570_FDCO_InRange (Si570_GetFDCOForFreq 125.4375 cfg125.n1 cfg125.hsdiv) = true ∧
    Si570_FindSmoothRFreqForFreq id (114285 / 1000) cfg125 { cfg125 with freq := 125.4375 } =
      (true, { cfg125 with rfreq := 367950 / 7619, freq := 125.4375 }) ∧
    (Si570_PrepareChangeFrequency id binary32 os125 125.4375).2.next_is_small = true ∧
    binary64 (19.25 / 5500) = binary64 SMOOTH_DELTA ∧
    (Si570_FindSmoothRFreqForFreq binary64 (114285 / 1000) cfg125
      { cfg125 with freq := 125.4375 }).1 = true ∧
    (Si570_PrepareChangeFrequency binary64 binary32 os125 125.4375).2.next_is_small = true := by
  refine ⟨by decide!, by decide!, by decide!, by decide!, by decide!, by decide!, by decide!,
    by decide!, by decide!⟩

/-- C17, at the failing inputs: the table search takes the first entry that is
less than 0.2 away, not the nearest one.  The table entry 14.1 is turned into
14.05, in single precision and in exact arithmetic, and a part whose registers
decode to 14.1 leaves `Si570_Init` with `fout` = 14.05; 10.18 is turned into 10
although 10.356 is nearer and less than 0.2 away. -/
theorem Init_snap_first_match :
    Si570_Init_snap binary32 suf_table (binary32 14.1) = binary32 14.05 ∧
    binary32 14.05 ≠ binary32 14.1 ∧
    Si570_Init_snap id suf_table 14.1 = 14.05 ∧
    (Si570_CalcSufHelper binary32 recallBus { osZero with si570_address := 170, base_reg := 13 }
      chip141).1.fout = binary32 14.1 ∧
    (Si570_Init binary32 recallBus 1 osZero chip141).map (fun r => r.1.fout) =
      some (binary32 14.05) ∧
    Si570_Init_snap id suf_table 10.18 = 10 ∧
    Si570_Init_snap binary32 suf_table (binary32 10.18) = binary32 10 ∧
    |(10.18 : ℚ) - 10.356| < |(10.18 : ℚ) - 10| ∧ |(10.18 : ℚ) - 10.356| < 0.2 := by
  refine ⟨by decide!, by decide!, by decide!, by decide!, by decide!, by decide!, by decide!,
    by decide!, by decide!⟩

/-- C18, at the failing input: `Si570_Init` on the zero-initialised state, against
a bus on which every operation succeeds and which returns the factory image
`[225, 194, 181, 221, 226, 116]` (`hsdiv = 11`, `n1 = 8`,
`rfreq = 2910288029 / 2^26`), decodes and snaps `fout` to 56.32 and reports the
chip present, but leaves `fxtal = 0`, `fxtal_calc = 0` and `cur_config.fdco = 0`:
`Si570_ResetConfiguration` computes them from `fout` before `Si570_CalcSufHelper`
has decoded it.  The claimed values are `fout * n1 * hsdiv / rfreq`, about
114.285, and `fout * n1 * hsdiv`. -/
theorem Init_reference_unseeded :
    Si570_ResetConfiguration_decode chip5632.regs = (11, 8, 2910288029 / 67108864) ∧
    (Si570_Init binary32 (logged recallBus) 1 osZero (chip5632, [])).map (fun r => r.2) =
      some (chip5632, initLog) ∧
    (Si570_Init binary32 (logged recallBus) 1 osZero (chip5632, [])).map
      (fun r => (r.1.fout, Si570_IsPresent r.1, r.1.cur_config)) =
      some (binary32 56.32, true,
        { hsdiv := 11, n1 := 8, fdco := 0, rfreq := 2910288029 / 67108864, freq := 0 }) ∧
    (Si570_Init binary32 (logged recallBus) 1 osZero (chip5632, [])).map
      (fun r => (r.1.fxtal, r.1.fxtal_calc)) = some (0, 0) ∧
    114.28 < binary32 56.32 * 8 * 11 / (2910288029 / 67108864) ∧
    binary32 56.32 * 8 * 11 / (2910288029 / 67108864) < 114.29 ∧
    (Si570_Init id recallBus 1 osZero chip5632).map
      (fun r => (r.1.fout, r.1.cur_config.fdco, r.1.fxtal)) = some (56.32, 0, 0) := by
  refine ⟨by decide!, by decide!, by decide!, by decide!, by decide!, by decide!, by decide!⟩

/-- C19, at the failing inputs: on a bus where no chip answers,
`Si570_ResetConfiguration` returns 1 and yet leaves the presence flag set, with
`cur_config` and `fxtal` derived from the register bytes that were in `cur_regs`
before the call; the same holds when the poll of the recall bit fails (code 2) and
when it times out (code 3). -/
theorem ResetConfiguration_present_without_chip :
    (Si570_ResetConfiguration binary32 (logged deadBus) 1 osSmall ((), [])).map
      (fun r => (r.1, Si570_IsPresent r.2.1, r.2.2.2)) = some (1, true, deadLog) ∧
    (Si570_ResetConfiguration binary32 (logged deadBus) 1 osSmall ((), [])).map
      (fun r => (r.2.1.cur_config.hsdiv, r.2.1.cur_config.n1, r.2.1.cur_config.rfreq,
        r.2.1.fxtal)) = some (11, 46, 743558697 / 16777216, 3690987520 / 32328639) ∧
    Si570_ResetConfiguration_decode osSmall.cur_regs = (11, 46, 743558697 / 16777216) ∧
    (Si570_ResetConfiguration binary32 bus135 1 osSmall chip10).map
      (fun r => (r.1, Si570_IsPresent r.2.1)) = some (2, true) ∧
    (Si570_ResetConfiguration binary32 goodBus 1 osSmall chip10).map
      (fun r => (r.1, Si570_IsPresent r.2.1)) = some (3, true) := by
  refine ⟨by decide!, by decide!, by decide!, by decide!, by decide!⟩

/-- C12, counterexample: for `freq = 218750000` and `temp_factor = 80000` the
adjusted frequency `freq * (1 + temp_factor / 14000000)` is exactly 220000000,
which is not above the hard limit, but the code computes 220000000.00000003 in
double precision and returns `SI570_TUNE_IMPOSSIBLE` with the state unchanged. -/
theorem PrepareNextFrequency_rejects_at_limit :
    osSmall.present = true ∧
    ((218750000 : ℕ) : ℚ) * (1 + ((80000 : ℤ) : ℚ) / 14000000) = 220000000 ∧
    binary64 (((218750000 : ℕ) : ℚ) * binary64 (1 + binary64 (((80000 : ℤ) : ℚ) / 14000000))) =
      220000000 + 1 / 33554432 ∧
    Si570_PrepareNextFrequency binary64 binary32 0 osSmall 218750000 80000 =
      (SI570_TUNE_IMPOSSIBLE, osSmall) := by
  refine ⟨by decide!, by decide!, by decide!, by decide!⟩

theorem PrepareNextFrequency_clamp_witness :
    Si570_PrepareNextFrequency binary64 binary32 0 osSmall 3000000 0 =
      (SI570_TUNE_IMPOSSIBLE, osSmall) ∧
    (Si570_PrepareNextFrequency binary64 binary32 0 osSmall 5000000 0).2.next_config.freq =
      binary64 (binary64 (((5000000 : ℕ) : ℚ) *
        binary64 (1 + binary64 (((0 : ℤ) : ℚ) / 14000000))) / 1000000) :=
  ⟨(PrepareNextFrequency_clamp binary64 binary32 0 osSmall 3000000 0).1
      (Or.inr (Or.inl (by decide!))),
    ((PrepareNextFrequency_clamp binary64 binary32 0 osSmall 5000000 0).2 (by decide!)).2⟩

theorem PrepareNextFrequency_limited_witness :
    (Si570_PrepareNextFrequency binary64 binary32 0 osSmall 5000000 0).1 = SI570_TUNE_LIMITED ↔
      (binary64 (((5000000 : ℕ) : ℚ) * binary64 (1 + binary64 (((0 : ℤ) : ℚ) / 14000000))) <
          10000000 ∨
        binary64 (((5000000 : ℕ) : ℚ) * binary64 (1 + binary64 (((0 : ℤ) : ℚ) / 14000000))) >
          160000000) ∧ 0 ≠ 0x29 :=
  (PrepareNextFrequency_limited binary64 binary32 0 osSmall 5000000 0 (by decide!) (by decide!)
    (by decide!) (by decide!)).1

theorem small_steps_no_drift_witness :
    SmallChain binary64 binary32 goodBus osSmall chip10 [1281 / 128, 1283 / 128] osStep2
      { chip10 with regs := [235, 66, 198, 16, 147, 120] } ∧
    osStep2.cur_config.fdco = osSmall.cur_config.fdco ∧
    |binary64 (binary64 (binary64 ((1283 / 128 : ℚ) * (osSmall.cur_config.n1 : ℚ) *
        (osSmall.cur_config.hsdiv : ℚ)) - osSmall.cur_config.fdco) /
        osSmall.cur_config.fdco)| ≤ binary64 0.0035 ∧
    |(1283 / 128 : ℚ) * (osSmall.cur_config.n1 : ℚ) * (osSmall.cur_config.hsdiv : ℚ) -
        osSmall.cur_config.fdco| ≤ 0.0035 * (1 + 1 / 2 ^ 43) * osSmall.cur_config.fdco := by
  have chain : SmallChain binary64 binary32 goodBus osSmall chip10 [1281 / 128, 1283 / 128]
      osStep2 { chip10 with regs := [235, 66, 198, 16, 147, 120] } :=
    SmallChain.cycle osSmall chip10 (1281 / 128) 1 osStep1
      { chip10 with regs := [235, 66, 196, 245, 54, 224] }
      [1283 / 128] osStep2 { chip10 with regs := [235, 66, 198, 16, 147, 120] }
      (by decide!) (by decide!)
      (SmallChain.cycle osStep1 { chip10 with regs := [235, 66, 196, 245, 54, 224] }
        (1283 / 128) 1 osStep2
        { chip10 with regs := [235, 66, 198, 16, 147, 120] } [] osStep2
        { chip10 with regs := [235, 66, 198, 16, 147, 120] }
        (by decide!) (by decide!) (SmallChain.done _ _))
  have key := small_steps_no_drift binary64 binary32 goodBus osSmall chip10
    [1281 / 128, 1283 / 128] osStep2 { chip10 with regs := [235, 66, 198, 16, 147, 120] } chain
  exact ⟨chain, key.2.2.1, (key.2.2.2.1 _ (by simp)).2.1,
    key.2.2.2.2 binary64_accurate (by decide!) (by decide!) _ (by simp) (by decide!)⟩

/-- C15, counterexample: from a state committed to `hsdiv = 11`, `n1 = 46`,
`fdco = 5000`, on a bus where every operation succeeds, the prepare for the double
`f = 0x1.3b194be3ab010p+3` takes the smooth-step path and the commit returns
`SI570_OK`, a run of one small step that keeps `fdco = 5000`; yet
`|f * 46 * 11 - 5000|` is above `0.0035 * 5000 = 17.5`. -/
theorem small_step_beyond_margin :
    (Si570_PrepareChangeFrequency binary64 binary32 osEdge fEdge).2.next_is_small = true ∧
    Si570_ChangeToNextFrequency goodBus 1
        (Si570_PrepareChangeFrequency binary64 binary32 osEdge fEdge).2 chip10 =
      some (SI570_OK, osEdge1, { chip10 with regs := [235, 66, 185, 141, 234, 128] }) ∧
    SmallChain binary64 binary32 goodBus osEdge chip10 [fEdge] osEdge1
      { chip10 with regs := [235, 66, 185, 141, 234, 128] } ∧
    osEdge1.cur_config.n1 = osEdge.cur_config.n1 ∧
    osEdge1.cur_config.hsdiv = osEdge.cur_config.hsdiv ∧
    osEdge1.cur_config.fdco = osEdge.cur_config.fdco ∧
    ¬ (|fEdge * (osEdge.cur_config.n1 : ℚ) * (osEdge.cur_config.hsdiv : ℚ) -
        osEdge.cur_config.fdco| ≤ 0.0035 * osEdge.cur_config.fdco) := by
  refine ⟨by decide!, by decide!, ?_, by decide!, by decide!, by decide!, by decide!⟩
  exact SmallChain.cycle osEdge chip10 fEdge 1 osEdge1
    { chip10 with regs := [235, 66, 185, 141, 234, 128] } [] osEdge1
    { chip10 with regs := [235, 66, 185, 141, 234, 128] } (by decide!) (by decide!)
    (SmallChain.done _ _)

/-- C2, at the failing input: for the target 157.500001 MHz the pair `hsdiv = 4`,
`n1 = 8` is admissible (`f * 8 * 4 = 5040.000032`), and so it is for the double
nearest to that target, yet `Si570_FindConfigForFreq` returns false for both: its
`floorf` takes the quotient `5670 / f` as a `float`, where it is 36. -/
theorem FindConfigForFreq_misses_admissible :
    (7 / 2 : ℚ) ≤ 157500001 / 1000000 ∧
    4 ∈ ([11, 9, 7, 6, 5, 4] : List ℕ) ∧
    N1Admissible 8 ∧
    (4850 : ℚ) ≤ 157500001 / 1000000 * ((8 : ℕ) : ℚ) * ((4 : ℕ) : ℚ) ∧
    (157500001 / 1000000 : ℚ) * ((8 : ℕ) : ℚ) * ((4 : ℕ) : ℚ) ≤ 5670 ∧
    Admissible (157500001 / 1000000) 4 8 ∧
    (Si570_FindConfigForFreq binary32 (114285 / 1000)
      { cfg10 with freq := 157500001 / 1000000 }).1 = false ∧
    binary64 (157500001 / 1000000) = 1385384659793853 / 8796093022208 ∧
    Admissible (1385384659793853 / 8796093022208) 4 8 ∧
    Si570_FDCO_InRange
      (binary64 (Si570_GetFDCOForFreq (1385384659793853 / 8796093022208) 8 4)) = true ∧
    binary32 (binary64 (fdco_max / (1385384659793853 / 8796093022208))) = 36 ∧
    (Si570_FindConfigForFreq binary32 (114285 / 1000)
      { cfg10 with freq := 1385384659793853 / 8796093022208 }).1 = false := by
  have n8 : N1Admissible 8 := Or.inr ⟨by decide, by decide, by decide⟩
  refine ⟨by decide!, by decide, n8, by decide!, by decide!, ⟨n8, by decide!, by decide!⟩,
    by decide!, by decide!, ⟨n8, by decide!, by decide!⟩, by decide!, by decide!, by decide!⟩

/-- C5, at the failing input: with every read of register 135 a transport error
and a chip that already holds the image, `Si570_WriteRegs` for a small step
returns `SI570_OK` after three operations, the two failed reads of register 135
and the 6-byte read-back; no block write is among them, so the bytes it compared
were not written by it, and the commit returns `SI570_OK` in the same way. -/
theorem WriteRegs_ok_without_write :
    Si570_WriteRegs (logged bus135) 1 osSmall true
        ({ chip10 with regs := osSmall.cur_regs }, []) =
      some (({ chip10 with regs := osSmall.cur_regs },
        [BusOp.ReadData 170 7 6 0 [235, 66, 197, 28, 226, 144],
          BusOp.ReadRegister 170 135 1 0, BusOp.ReadRegister 170 135 1 0]), SI570_OK) ∧
    blockWrites [BusOp.ReadData 170 7 6 0 [235, 66, 197, 28, 226, 144],
      BusOp.ReadRegister 170 135 1 0, BusOp.ReadRegister 170 135 1 0] = [] ∧
    Si570_ChangeToNextFrequency (logged bus135) 1 osSmall
        ({ chip10 with regs := osSmall.cur_regs }, []) =
      some (SI570_OK, { osSmall with cur_config := osSmall.next_config },
        ({ chip10 with regs := osSmall.cur_regs },
          [BusOp.ReadData 170 7 6 0 [235, 66, 197, 28, 226, 144],
            BusOp.ReadRegister 170 135 1 0, BusOp.ReadRegister 170 135 1 0])) := by
  refine ⟨by decide!, by decide!, by decide!⟩

/-- C22, at the failing input: the divider search fails inside the hard limits.
For 157500001 Hz the quotient 5670 / f = 35.9999997… is rounded to 36 on its way
into `floorf`, which takes a `float`; the loop stops at `hsdiv = 9`, `n1 = 4`,
whose `fdco = 5670.000036` fails the range test; `Si570_FindConfigForFreq` returns
false and `Si570_PrepareNextFrequency`, from a state with an invalidated
`cur_config`, returns `SI570_TUNE_IMPOSSIBLE`, although `hsdiv = 4`, `n1 = 8` is
in range and is what a floor taken in double precision finds. -/
theorem FindConfigForFreq_binary32_miss :
    binary32 (fdco_max / (157500001 / 1000000)) = 36 ∧
    binary32 (binary64 (fdco_max / (1385384659793853 / 8796093022208))) = 36 ∧
    Si570_FindConfig_loop binary32 31 36 hs_div { n1 := 1, hsdiv := 0, n1_found := false } =
      { n1 := 4, hsdiv := 9, n1_found := true } ∧
    Si570_FDCO_InRange (Si570_GetFDCOForFreq (157500001 / 1000000) 4 9) = false ∧
    Si570_FDCO_InRange
      (binary64 (Si570_GetFDCOForFreq (1385384659793853 / 8796093022208) 4 9)) = false ∧
    (Si570_FindConfigForFreq binary32 (114285 / 1000)
      { cfg10 with freq := 157500001 / 1000000 }).1 = false ∧
    osLarge.present = true ∧ osLarge.cur_config = Si570_ClearConfig ∧
    binary64 (binary64 (((157500001 : ℕ) : ℚ) *
      binary64 (1 + binary64 (((0 : ℤ) : ℚ) / 14000000))) / 1000000) =
      1385384659793853 / 8796093022208 ∧
    (Si570_FindConfigForFreq binary32 osLarge.fxtal_calc
      { osLarge.next_config with freq := 1385384659793853 / 8796093022208 }).1 = false ∧
    (Si570_PrepareNextFrequency binary64 binary32 0 osLarge 157500001 0).1 =
      SI570_TUNE_IMPOSSIBLE ∧
    Si570_FDCO_InRange (Si570_GetFDCOForFreq (157500001 / 1000000) 8 4) = true ∧
    (Si570_FindConfigForFreq id (114285 / 1000)
      { cfg10 with freq := 157500001 / 1000000 }).2 =
      { hsdiv := 4, n1 := 8, fdco := 157500001 / 31250, rfreq := 630000004 / 14285625,
        freq := 157500001 / 1000000 } := by
  refine ⟨by decide!, by decide!, by decide!, by decide!, by decide!, by decide!, by decide!,
    by decide!, by decide!, by decide!, by decide!, by decide!, by decide!⟩

theorem freeze_bracket_witness :
    (Si570_SmallFrequencyChange (logged bus135) osSmall (chip10, [])).1.2 =
      [BusOp.ReadRegister 170 135 1 0, BusOp.ReadRegister 170 135 1 0] ∧
    ∃ ok matched cok frz body unf,
      SetAttempt osSmall.si570_address SI570_REG_135 5 ok frz ∧
      BlockPhase osSmall ok matched body ∧
      ClearAttempt osSmall.si570_address SI570_REG_135 5 cok unf ∧
      (Si570_SmallFrequencyChange (logged bus135) osSmall (chip10, [])).1.2 =
        unf ++ body ++ frz ++ ((chip10, []) : SimChip × List BusOp).2 :=
  ⟨by decide!, (freeze_bracket bus135 osSmall (chip10, [])).1⟩

theorem divider_search_total_exact_witness :
    (Si570_FindConfigForFreq id (114285 / 1000)
      { cfg10 with freq := 157500001 / 1000000 }).1 = true :=
  (divider_search_total_exact (157500001 / 1000000) (by norm_num) (by norm_num)).1 _ _ rfl

theorem sentinel_forces_search_witness :
    (Si570_PrepareChangeFrequency binary64 binary32 osLarge (1001 / 100)).2.next_is_small =
      false ∧
    (Si570_PrepareChangeFrequency binary64 binary32 osLarge (1001 / 100)).2.next_config =
      (Si570_FindConfigForFreq binary32 osLarge.fxtal_calc
        { osLarge.next_config with freq := 1001 / 100 }).2 :=
  ⟨((sentinel_forces_search binary64 binary32 goodBus).2.2.1 osLarge (1001 / 100) rfl).1,
    ((sentinel_forces_search binary64 binary32 goodBus).2.2.1 osLarge (1001 / 100) rfl).2.1⟩

end Theorems

end Si570
